import Mathlib

/-!
# Trade-evaluation engine (`backend/src/services/aiService.js`)

A shallow embedding of the rule-based analysis service of the forex trading
journal, followed by theorems about it.

Modelling conventions
* A JavaScript number is an IEEE 754 double. A numeric field of a record
  holds a finite double and is embedded as the rational (`ℚ`) it equals;
  comparisons are exact. Every arithmetic operation of the source rounds its
  result to the nearest double (`fl`, `fadd`, `fmul`, `fdiv`). The operations
  round their operands too, which leaves a double unchanged, so that an
  example may record a decimal such as `1.13`, read by JavaScript as the
  double nearest to it. Infinities and `NaN` are not represented: the
  theorems on sums bound the magnitudes so that every result is a finite
  double.
* Optional text fields (`notes`, `emotionsBefore`, ...) are `Option String`:
  `none` stands for `null`/`undefined`.
* `Array.prototype.join` renders `null`/`undefined` as the empty string.
* A trade's `date` is either a `Date` object (rows read back from the database)
  or a plain string (the request body of `createTrade`); calling
  `toDateString` on a string raises a `TypeError`.
* `new Date()` in `analyzeTrade` reads the clock; the clock value is passed in
  explicitly.
-/

namespace AiService

/-! ## JavaScript string helpers -/

/-- Lower-casing of a string (`String.prototype.toLowerCase`), on the ASCII letters. The only non-ASCII
characters whose lower case contains an ASCII letter are U+0130 and U+212A;
neither can complete an occurrence of a keyword used by the service. -/
def toLowerCase (s : String) : String :=
  String.mk (s.data.map Char.toLower)

/-- Does the character list `w` occur as a contiguous block of `s`? -/
def includesChars (w : List Char) : List Char → Bool
  | [] => w.isPrefixOf []
  | c :: cs => w.isPrefixOf (c :: cs) || includesChars w cs

/-- Substring test `s.includes(w)` (`String.prototype.includes`). -/
def includes (s w : String) : Bool :=
  includesChars w.data s.data

/-- The idiom `x || ""` on an optional text field. -/
def orEmpty (x : Option String) : String :=
  x.getD ""

/-- Joining with a blank, `[x₁, ..., xₙ].join(" ")`; `null` and `undefined`
entries are rendered as the empty string. -/
def joinSpace (parts : List (Option String)) : String :=
  String.mk (List.intercalate [' '] (parts.map fun p => (orEmpty p).data))

/-- Fractional decimal digits of `r / d` (with `r < d`), at most `fuel` of them. -/
def fracDigits : Nat → Nat → Nat → List Char
  | 0, _, _ => []
  | fuel + 1, r, d =>
    if r = 0 then [] else Char.ofNat (48 + r * 10 / d) :: fracDigits fuel (r * 10 % d) d

/-- Number-to-string conversion used by template literals, for decimal
numbers: `4` is rendered `"4"`, `2.5` is rendered `"2.5"`. -/
def numberToString (q : ℚ) : String :=
  let n := q.num.natAbs
  let d := q.den
  (if q < 0 then "-" else "") ++ toString (n / d) ++
    (if n % d = 0 then "" else "." ++ String.mk (fracDigits 17 (n % d) d))

/-- Rounding as `Math.round`: nearest integer, halves rounded towards `+∞`. -/
def mathRound (x : ℚ) : Int :=
  Int.floor (x + 1 / 2)

/-! ## JavaScript numbers

The arithmetic of the Number type: a finite double is `m * 2^e` with
`|m| < 2^53` and `e ≥ -1074`, and the result of an operation is the double
nearest to the exact result, a tie going to the even significand. -/

/-- The nearest integer, a tie going to the even neighbour. -/
def roundHalfEven (y : ℚ) : ℤ :=
  if y - ⌊y⌋ < 1 / 2 then ⌊y⌋
  else if 1 / 2 < y - ⌊y⌋ then ⌊y⌋ + 1
  else if ⌊y⌋ % 2 = 0 then ⌊y⌋ else ⌊y⌋ + 1

/-- The exponent of the unit in the last place of the doubles near a positive
`x`: 53 significant bits, and `2^(-1074)` throughout the subnormal numbers
and the lowest binade. -/
def ulpExponent (x : ℚ) : ℤ :=
  max (Int.log 2 x - 52) (-1074)

/-- The double nearest to a non-negative `x`. -/
def flPos (x : ℚ) : ℚ :=
  (roundHalfEven (x / 2 ^ ulpExponent x) : ℚ) * 2 ^ ulpExponent x

/-- The double nearest to `x`: the value of a numeric literal or field, and
the rounding applied to the result of every arithmetic operation. -/
def fl (x : ℚ) : ℚ :=
  if x < 0 then -flPos (-x) else flPos x

/-- Addition of numbers, `a + b`. -/
def fadd (a b : ℚ) : ℚ :=
  fl (fl a + fl b)

/-- Multiplication of numbers, `a * b`. -/
def fmul (a b : ℚ) : ℚ :=
  fl (fl a * fl b)

/-- Division of numbers, `a / b`, for a non-zero divisor. -/
def fdiv (a b : ℚ) : ℚ :=
  fl (fl a / fl b)

/-! ## Data model -/

/-- The value found in a record's `date` field. -/
inductive JsDate where
  /-- A `Date` object, as milliseconds since the epoch. -/
  | date (ms : Int)
  /-- A plain string, e.g. `"2024-01-15"` from a request body. -/
  | text (s : String)
  deriving DecidableEq, Repr

/-- A run-time exception of the JavaScript engine. -/
inductive JsError where
  | typeError (msg : String)
  deriving DecidableEq, Repr

/-- The feedback object built by `analyzeTrade`. -/
structure AnalysisFeedback where
  executionScore : Int
  strengths : List String
  mistakes : List String
  suggestion : String
  patterns : List String
  riskAssessment : String
  emotionalState : String
  analyzedAt : Int
  deriving DecidableEq, Repr

/-- The fields of a trade record read by the analysis service. -/
structure Trade where
  date : JsDate := JsDate.date 0
  session : String := ""
  currencyPair : String := ""
  strategyName : String := ""
  entryPrice : ℚ := 0
  stopLoss : ℚ := 0
  takeProfit : ℚ := 0
  riskPercentage : ℚ := 0
  rrRatio : ℚ := 0
  outcome : String := ""
  pips : ℚ := 0
  notes : Option String := none
  emotionsBefore : Option String := none
  emotionsDuring : Option String := none
  emotionsAfter : Option String := none
  aiFeedback : Option AnalysisFeedback := none
  deriving DecidableEq, Repr

/-! ## Helper methods -/

def negativeWords : List String :=
  ["fear", "panic", "revenge", "angry", "frustrated", "anxious", "stressed"]

def hasNegativeEmotions (trade : Trade) : Bool :=
  let emotions :=
    toLowerCase (joinSpace [trade.emotionsBefore, trade.emotionsDuring, trade.emotionsAfter])
  negativeWords.any fun word => includes emotions word

def hasRevengeEmotions (trade : Trade) : Bool :=
  let emotions := toLowerCase (joinSpace [trade.emotionsAfter, trade.emotionsDuring])
  includes emotions "revenge" || includes emotions "angry" || includes emotions "frustrated"

def hasFOMOIndicators (trade : Trade) : Bool :=
  let allText := toLowerCase (joinSpace [trade.emotionsBefore, trade.notes])
  includes allText "fomo" ||
    includes allText "missing out" ||
    includes allText "rushed" ||
    (decide (trade.riskPercentage > 2) && includes allText "impulsive")

/-! ## Single-trade analysis -/

/-- Execution quality score: `calculateExecutionScore(trade)`. -/
def calculateExecutionScore (trade : Trade) : Int :=
  let score : ℚ := 5
  -- R:R ratio quality
  let score :=
    if trade.rrRatio ≥ 3 then score + 2
    else if trade.rrRatio ≥ 2 then score + 1
    else if trade.rrRatio < 1 then score - 1
    else score
  -- Risk management
  let score :=
    if trade.riskPercentage ≤ 1 then score + 1
    else if trade.riskPercentage > 3 then score - 2
    else if trade.riskPercentage > 2 then score - 1
    else score
  -- Outcome quality
  let score :=
    if trade.outcome = "Win" ∧ trade.pips > 20 then score + 2
    else if trade.outcome = "Win" then score + 1
    else if trade.outcome = "Loss" ∧ |trade.pips| > 30 then score - 1
    else score
  -- Stop loss discipline
  let actualRR := |trade.entryPrice - trade.stopLoss|
  let score :=
    if actualRR > 0 ∧ trade.stopLoss ≠ trade.entryPrice then score + 1 else score
  -- Emotional discipline
  let score := if hasNegativeEmotions trade then score - 2 else score
  max 1 (min 10 (mathRound score))

/-- Strengths of a trade: `identifyStrengths(trade)`. -/
def identifyStrengths (trade : Trade) : List String :=
  let strengths : List String := []
  let strengths :=
    if trade.rrRatio ≥ 2 then strengths ++ ["Good risk-to-reward ratio"] else strengths
  let strengths :=
    if trade.riskPercentage ≤ 1 then strengths ++ ["Conservative position sizing"]
    else strengths
  let strengths :=
    if trade.outcome = "Win" ∧ trade.pips > 30 then
      strengths ++ ["Strong profit target execution"]
    else strengths
  let strengths :=
    if !hasNegativeEmotions trade then strengths ++ ["Maintained emotional discipline"]
    else strengths
  -- `trade.stopLoss && trade.takeProfit`: both numbers are truthy, i.e. non-zero
  let strengths :=
    if trade.stopLoss ≠ 0 ∧ trade.takeProfit ≠ 0 then
      strengths ++ ["Proper risk management with SL/TP"]
    else strengths
  let emotionsBefore := toLowerCase (orEmpty trade.emotionsBefore)
  let strengths :=
    if includes emotionsBefore "calm" || includes emotionsBefore "confident" then
      strengths ++ ["Entered trade with positive mindset"]
    else strengths
  let strengths :=
    if strengths.length = 0 then strengths ++ ["Trade logged for analysis"] else strengths
  strengths

/-- The template literal of the high-risk mistake. -/
def highRiskMessage (riskPercentage : ℚ) : String :=
  "High risk percentage (" ++ numberToString riskPercentage ++
    "%) - exceeds recommended 1-2%"

/-- The test `trade.notes && trade.notes.toLowerCase().includes("impulsive")`:
a missing or empty `notes` is falsy. -/
def notesImpulsive (trade : Trade) : Bool :=
  match trade.notes with
  | none => false
  | some notes => notes != "" && includes (toLowerCase notes) "impulsive"

/-- Mistakes and violations of a trade: `identifyMistakes(trade)`. -/
def identifyMistakes (trade : Trade) : List String :=
  let mistakes : List String := []
  let mistakes :=
    if trade.rrRatio < 1 then
      mistakes ++ ["Risk-to-reward ratio below 1:1 - risking more than potential gain"]
    else mistakes
  let mistakes :=
    if trade.riskPercentage > 2 then mistakes ++ [highRiskMessage trade.riskPercentage]
    else mistakes
  let mistakes :=
    if trade.outcome = "Loss" ∧ hasRevengeEmotions trade then
      mistakes ++ ["Possible revenge trading detected from emotional state"]
    else mistakes
  let mistakes :=
    if hasFOMOIndicators trade then
      mistakes ++ ["FOMO (Fear of Missing Out) indicators present"]
    else mistakes
  let emotionsDuring := toLowerCase (orEmpty trade.emotionsDuring)
  let mistakes :=
    if includes emotionsDuring "panic" || includes emotionsDuring "fear" then
      mistakes ++ ["Emotional panic during trade execution"]
    else mistakes
  let mistakes :=
    if trade.outcome = "Loss" ∧ |fl trade.pips| > fmul trade.rrRatio 20 then
      mistakes ++ ["Stop loss may have been too wide or not honored"]
    else mistakes
  let mistakes :=
    if notesImpulsive trade then mistakes ++ ["Self-identified impulsive entry"]
    else mistakes
  mistakes

/-- One prioritised suggestion for a trade: `generateSuggestion(trade)`. -/
def generateSuggestion (trade : Trade) : String :=
  let mistakes := identifyMistakes trade
  if trade.riskPercentage > 3 then
    "Focus on reducing position size to 1-2% risk per trade. This is critical for capital preservation."
  else if trade.rrRatio < 1 then
    "Never enter trades with R:R below 1:1. Wait for setups with at least 2:1 reward potential."
  else if hasRevengeEmotions trade then
    "Take a break after losses. Wait at least 30 minutes before analyzing the next setup."
  else if hasFOMOIndicators trade then
    "Use entry checklists to avoid FOMO. The market always provides opportunities."
  else if trade.outcome = "Loss" ∧ mistakes.length > 0 then
    "Review your trading plan rules. Stick to your strategy even during drawdowns."
  else if trade.outcome = "Win" ∧ trade.rrRatio ≥ 2 then
    "Excellent trade! Document what made this setup high-probability and repeat it."
  else
    "Continue journaling trades. Pattern recognition improves with consistent data."

/-- Calendar day of a date value: `d.toDateString()`. A `Date` object yields
its day (days since the epoch, the server clock taken as UTC); on a string the
method does not exist and the call raises a `TypeError`. -/
def toDateString : JsDate → Except JsError Int
  | JsDate.date ms => Except.ok (ms / 86400000)
  | JsDate.text _ => Except.error (JsError.typeError "toDateString is not a function")

/-- The callback of the over-trading filter:
`t.date.toDateString() === trade.date.toDateString()`. -/
def sameDay (trade t : Trade) : Except JsError Bool := do
  let a ← toDateString t.date
  let b ← toDateString trade.date
  pure (a == b)

/-- Filtering of an array, `xs.filter(p)`, for a callback that may raise: the
callback is run on the elements in order and the first exception aborts. -/
def filterE {α : Type} (p : α → Except JsError Bool) : List α → Except JsError (List α)
  | [] => Except.ok []
  | a :: as =>
    match p a with
    | Except.error e => Except.error e
    | Except.ok keep =>
      match filterE p as with
      | Except.error e => Except.error e
      | Except.ok rest => Except.ok (if keep then a :: rest else rest)

/-- Behavioural pattern tags: `detectPatterns(trade, userTrades)`. -/
def detectPatterns (trade : Trade) (userTrades : List Trade) :
    Except JsError (List String) := do
  let patterns : List String := []
  let patterns :=
    if trade.riskPercentage ≤ 1 ∧ trade.rrRatio ≥ 2 then patterns ++ ["good_discipline"]
    else patterns
  let patterns :=
    if hasRevengeEmotions trade then patterns ++ ["revenge_trading"] else patterns
  let patterns := if hasFOMOIndicators trade then patterns ++ ["FOMO"] else patterns
  let patterns :=
    if hasNegativeEmotions trade then patterns ++ ["emotional_trading"] else patterns
  if userTrades.length ≥ 3 then
    let recentTrades := userTrades.take 5
    let sameDayTrades ← filterE (sameDay trade) recentTrades
    let patterns :=
      if sameDayTrades.length ≥ 3 then patterns ++ ["over_trading"] else patterns
    let recentWins := recentTrades.filter fun t => t.outcome = "Win"
    let patterns :=
      if recentWins.length ≥ 2 ∧ recentWins.all (fun t => t.pips < 15) then
        patterns ++ ["early_exit"]
      else patterns
    let recentLosses := recentTrades.filter fun t => t.outcome = "Loss"
    let patterns :=
      if recentLosses.length ≥ 2 then patterns ++ ["late_entry"] else patterns
    pure patterns
  else
    pure patterns

/-- Risk management quality of a trade: `assessRisk(trade)`. -/
def assessRisk (trade : Trade) : String :=
  let score := calculateExecutionScore trade
  if score ≥ 8 ∧ trade.riskPercentage ≤ 1 ∧ trade.rrRatio ≥ 2 then "excellent"
  else if score ≥ 6 ∧ trade.riskPercentage ≤ 2 then "good"
  else if trade.riskPercentage ≤ 3 ∧ trade.rrRatio ≥ 1 then "acceptable"
  else if trade.riskPercentage > 3 ∨ trade.rrRatio < 1 then "poor"
  else "dangerous"

/-- The text scanned by `analyzeEmotions`: the three emotion fields, each read
as `""` when missing, joined by blanks and lower-cased. -/
def allEmotions (trade : Trade) : String :=
  toLowerCase (joinSpace [some (orEmpty trade.emotionsBefore),
    some (orEmpty trade.emotionsDuring), some (orEmpty trade.emotionsAfter)])

/-- Emotional state tag of a trade: `analyzeEmotions(trade)`. -/
def analyzeEmotions (trade : Trade) : String :=
  let allEmotions := allEmotions trade
  if includes allEmotions "revenge" || includes allEmotions "angry" then "revenge"
  else if includes allEmotions "fomo" || includes allEmotions "missing out" then "greedy"
  else if includes allEmotions "fear" || includes allEmotions "panic" then "fearful"
  else if includes allEmotions "impulsive" || includes allEmotions "rushed" then "impulsive"
  else if includes allEmotions "confident" && !includes allEmotions "over" then "confident"
  else if includes allEmotions "calm" || includes allEmotions "patient" then "calm"
  else "mixed"

/-- Feedback for one trade: `analyzeTrade(trade, userTrades)`, with the value
`now` of the clock read by `new Date()`. The fields are computed in the order
of the object literal; an exception raised by one of them rejects the call. -/
def analyzeTrade (trade : Trade) (userTrades : List Trade) (now : Int) :
    Except JsError AnalysisFeedback := do
  let executionScore := calculateExecutionScore trade
  let strengths := identifyStrengths trade
  let mistakes := identifyMistakes trade
  let suggestion := generateSuggestion trade
  let patterns ← detectPatterns trade userTrades
  let riskAssessment := assessRisk trade
  let emotionalState := analyzeEmotions trade
  pure { executionScore := executionScore, strengths := strengths, mistakes := mistakes,
         suggestion := suggestion, patterns := patterns, riskAssessment := riskAssessment,
         emotionalState := emotionalState, analyzedAt := now }

/-! ## Period review

Conventions for this part
* The `toFixed` strings kept in the statistics (`winRate`, `avgRR`, `netPips`)
  are represented by the decimal numbers they denote, which is what
  `parseFloat` reads back from them.
* An object used as a tally (`strategyStats`, `pairStats`, `mistakeCounts`, ...)
  is an association list in insertion order. `Object.entries` lists the keys
  that are array indices (`"0"`, `"1"`, ...) first, in ascending numeric
  order, and then the other keys in insertion order (`objectEntries`). The
  tallies of `analyzePeriodPatterns` are keyed by the messages and state tags
  produced by the analyzer, none of which is an array index, so their
  entries are listed in insertion order. Names inherited from
  `Object.prototype` (`constructor`, `toString`, ...) are not represented as
  keys; a stored currency pair is upper-cased and a session is one of four
  fixed names, so neither is such a name.
* In `ℚ` a division by zero yields zero; the statistics are only stated for
  non-empty trade lists, where no such division occurs. -/

/-- The number denoted by `x.toFixed(digits)`: the nearest multiple of
`10^(-digits)`, a tie going away from zero. -/
def toFixed (x : ℚ) (digits : Nat) : ℚ :=
  if x < 0 then -((Int.floor (-x * 10 ^ digits + 1 / 2) : ℚ) / 10 ^ digits)
  else (Int.floor (x * 10 ^ digits + 1 / 2) : ℚ) / 10 ^ digits

/-- The decimal digits of `n` padded with leading zeros to `width` characters. -/
def padDigits (n width : Nat) : String :=
  let s := toString n
  String.mk (List.replicate (width - s.length) '0') ++ s

/-- The string `x.toFixed(digits)`, e.g. `"66.7"` for `66.666` at one digit. -/
def toFixedString (x : ℚ) (digits : Nat) : String :=
  let n := Int.toNat (Int.floor (|x| * 10 ^ digits + 1 / 2))
  (if x < 0 then "-" else "") ++ toString (n / 10 ^ digits) ++
    (if digits = 0 then "" else "." ++ padDigits (n % 10 ^ digits) digits)

/-- Update of a tally object at `key`: `f` receives the current value (`none`
when the key is absent); a new key is appended after the existing ones. -/
def upsert {σ : Type} (key : String) (f : Option σ → σ) :
    List (String × σ) → List (String × σ)
  | [] => [(key, f none)]
  | (k, v) :: rest =>
    if k = key then (k, f (some v)) :: rest else (k, v) :: upsert key f rest

/-- The digits of a key read as a decimal numeral. -/
def indexValue (key : String) : Nat :=
  key.data.foldl (fun n c => 10 * n + (c.toNat - 48)) 0

/-- Is the key an array index: the canonical decimal numeral (no sign, no
leading zero) of an integer below `2^32 - 1`? -/
def isArrayIndex (key : String) : Bool :=
  match key.data with
  | [] => false
  | c :: cs =>
    (c :: cs).all Char.isDigit && (c != '0' || cs.isEmpty) &&
      decide (indexValue key < 4294967295)

/-- The entries of a tally object in the order of `Object.entries`: the
array-index keys in ascending numeric order, then the other keys in insertion
order. -/
def objectEntries {σ : Type} (entries : List (String × σ)) : List (String × σ) :=
  ((entries.filter fun e => isArrayIndex e.1).insertionSort fun a b =>
      indexValue a.1 ≤ indexValue b.1) ++
    entries.filter fun e => !isArrayIndex e.1

/-- An entry of `strategyStats`. -/
structure StrategyStat where
  wins : Nat
  total : Nat
  pips : ℚ
  deriving DecidableEq, Repr

/-- An entry of `sessionStats`. -/
structure SessionStat where
  wins : Nat
  total : Nat
  deriving DecidableEq, Repr

/-- The statistics object returned by `calculatePeriodStats`. -/
structure PeriodStats where
  winRate : ℚ
  avgRR : ℚ
  netPips : ℚ
  bestStrategy : String
  bestSession : String
  bestPair : String
  executionTrend : String
  riskGrade : String
  deriving DecidableEq, Repr

/-- The update of a `strategyStats` entry by a trade; a missing entry starts
from `{ wins: 0, total: 0, pips: 0 }`. -/
def addToStrategy (t : Trade) (old : Option StrategyStat) : StrategyStat :=
  let s := old.getD { wins := 0, total := 0, pips := 0 }
  let s := { s with total := s.total + 1 }
  let s := { s with pips := fadd s.pips t.pips }
  if t.outcome = "Win" then { s with wins := s.wins + 1 } else s

/-- The tally `strategyStats` after the `forEach` over the trades. -/
def strategyStats (trades : List Trade) : List (String × StrategyStat) :=
  trades.foldl (fun stats t => upsert t.strategyName (addToStrategy t) stats) []

/-- The label of a strategy or session: its name and win rate. -/
def winRateLabel (name : String) (wr : ℚ) : String :=
  name ++ " (" ++ toFixedString wr 0 ++ "% WR)"

/-- One round of the loops choosing `bestStrategy` and `bestSession`: a group
of win rate `wr = (wins / total) * 100` replaces the best so far when
`wr > bestWinRate`. -/
def betterWinRate (best : String × ℚ) (name : String) (wins total : Nat) : String × ℚ :=
  let wr := fmul (fdiv (wins : ℚ) (total : ℚ)) 100
  if wr > best.2 then (winRateLabel name wr, wr) else best

/-- The loop choosing `bestStrategy`; the state is the label and the best win
rate so far, starting from `N/A` and `0`. -/
def bestStrategyOf (stats : List (String × StrategyStat)) : String × ℚ :=
  stats.foldl (fun best e => betterWinRate best e.1 e.2.wins e.2.total) ("N/A", 0)

/-- The update of a `sessionStats` entry by a trade; a missing entry starts
from `{ wins: 0, total: 0 }`. -/
def addToSession (t : Trade) (old : Option SessionStat) : SessionStat :=
  let s := old.getD { wins := 0, total := 0 }
  let s := { s with total := s.total + 1 }
  if t.outcome = "Win" then { s with wins := s.wins + 1 } else s

/-- The tally `sessionStats` after the `forEach` over the trades. -/
def sessionStats (trades : List Trade) : List (String × SessionStat) :=
  trades.foldl (fun stats t => upsert t.session (addToSession t) stats) []

/-- The loop choosing `bestSession`. -/
def bestSessionOf (stats : List (String × SessionStat)) : String × ℚ :=
  stats.foldl (fun best e => betterWinRate best e.1 e.2.wins e.2.total) ("N/A", 0)

/-- The update of a `pairStats` entry by a trade:
`if (!pairStats[k]) pairStats[k] = 0; pairStats[k] += t.pips`. A missing or
zero entry is (re)set to `0` before the pips are added. -/
def addPips (t : Trade) (old : Option ℚ) : ℚ :=
  fadd (match old with
    | none => 0
    | some v => if v = 0 then 0 else v) t.pips

/-- The tally `pairStats`: summed pips per currency pair. -/
def pairStats (trades : List Trade) : List (String × ℚ) :=
  trades.foldl (fun stats t => upsert t.currencyPair (addPips t) stats) []

/-- The label of a currency pair: its name and summed pips. -/
def pairLabel (pair : String) (pips : ℚ) : String :=
  pair ++ " (+" ++ toFixedString pips 1 ++ " pips)"

/-- One round of the loop choosing `bestPair`: the entry `e` replaces the best
so far when `pips > bestPairPips`; `none` stands for `-Infinity`. -/
def betterPair (best : String × Option ℚ) (e : String × ℚ) : String × Option ℚ :=
  match best.2 with
  | none => (pairLabel e.1 e.2, some e.2)
  | some b => if e.2 > b then (pairLabel e.1 e.2, some e.2) else best

/-- The loop choosing `bestPair`; the best sum so far starts at `-Infinity`. -/
def bestPairOf (stats : List (String × ℚ)) : String × Option ℚ :=
  stats.foldl betterPair ("N/A", none)

/-- The score a trade contributes to the trend:
`t.aiFeedback?.executionScore || 5`. -/
def storedScore (t : Trade) : ℚ :=
  match t.aiFeedback with
  | none => 5
  | some f => if f.executionScore = 0 then 5 else (f.executionScore : ℚ)

/-- Period statistics: `calculatePeriodStats(trades)`. -/
def calculatePeriodStats (trades : List Trade) : PeriodStats :=
  let wins := trades.filter fun t => t.outcome = "Win"
  let winRate : ℚ :=
    if trades.length > 0 then
      toFixed (fmul (fdiv (wins.length : ℚ) (trades.length : ℚ)) 100) 1
    else 0
  let avgRR := fdiv (trades.foldl (fun sum t => fadd sum t.rrRatio) 0) (trades.length : ℚ)
  let netPips := trades.foldl (fun sum t => fadd sum t.pips) 0
  let bestStrategy := (bestStrategyOf (objectEntries (strategyStats trades))).1
  let bestSession := (bestSessionOf (objectEntries (sessionStats trades))).1
  let bestPair := (bestPairOf (objectEntries (pairStats trades))).1
  let avgScore :=
    fdiv (trades.foldl (fun sum t => fadd sum (storedScore t)) 0) (trades.length : ℚ)
  let executionTrend :=
    if avgScore ≥ 7 then "Improving" else if avgScore ≥ 5 then "Stable" else "Needs attention"
  let avgRisk :=
    fdiv (trades.foldl (fun sum t => fadd sum t.riskPercentage) 0) (trades.length : ℚ)
  let riskGrade :=
    if avgRisk ≤ 1 then "A" else if avgRisk ≤ 2 then "B" else if avgRisk ≤ 3 then "C" else "D"
  { winRate := winRate, avgRR := toFixed avgRR 2, netPips := toFixed netPips 1,
    bestStrategy := bestStrategy, bestSession := bestSession, bestPair := bestPair,
    executionTrend := executionTrend, riskGrade := riskGrade }

/-- The summary returned by `analyzePeriodPatterns`. -/
structure PeriodPatterns where
  commonMistakes : List String
  psychologicalWeaknesses : List String
  deriving DecidableEq, Repr

/-- Counting one occurrence in a tally: `counts[key] = (counts[key] || 0) + 1`. -/
def countUp (key : String) (counts : List (String × Nat)) : List (String × Nat) :=
  upsert key (fun old => old.getD 0 + 1) counts

/-- The tally `mistakeCounts` after the `forEach` over the trades; trades
without stored feedback are skipped. -/
def mistakeCounts (trades : List Trade) : List (String × Nat) :=
  trades.foldl (fun counts trade =>
    match trade.aiFeedback with
    | none => counts
    | some f => f.mistakes.foldl (fun counts mistake => countUp mistake counts) counts) []

/-- The tally `emotionalPatterns` after the `forEach` over the trades. -/
def emotionalPatterns (trades : List Trade) : List (String × Nat) :=
  trades.foldl (fun counts trade =>
    match trade.aiFeedback with
    | none => counts
    | some f => countUp f.emotionalState counts) []

/-- Sorting of tally entries with the comparator `(a, b) => b[1] - a[1]`:
descending counts, entries of equal count keeping their order (the sort of
`Array.prototype.sort` is stable). -/
def sortByCountDesc (entries : List (String × Nat)) : List (String × Nat) :=
  entries.insertionSort fun a b => a.2 ≥ b.2

/-- Period patterns: `analyzePeriodPatterns(trades)`. -/
def analyzePeriodPatterns (trades : List Trade) : PeriodPatterns :=
  let commonMistakes :=
    ((sortByCountDesc (mistakeCounts trades)).take 3).map fun e =>
      e.1 ++ " (" ++ toString e.2 ++ "x)"
  let psychologicalWeaknesses :=
    ((sortByCountDesc ((emotionalPatterns trades).filter fun e =>
        ["fearful", "greedy", "impulsive", "revenge"].contains e.1)).take 2).map fun e =>
      e.1 ++ " trading (" ++ toString e.2 ++ "x)"
  { commonMistakes := commonMistakes, psychologicalWeaknesses := psychologicalWeaknesses }

/-- Period recommendations: `generatePeriodRecommendations(stats, patterns)`. -/
def generatePeriodRecommendations (stats : PeriodStats) (patterns : PeriodPatterns) :
    List String :=
  let recommendations : List String := []
  -- Win rate recommendations
  let recommendations :=
    if stats.winRate < 40 then
      recommendations ++ ["Focus on quality over quantity. Review your entry criteria and wait for high-probability setups."]
    else if stats.winRate > 60 then
      recommendations ++ ["Strong win rate! Ensure you\x27re not exiting winners too early. Let profits run."]
    else recommendations
  -- R:R recommendations
  let recommendations :=
    if stats.avgRR < 3 / 2 then
      recommendations ++ ["Improve your R:R ratio by targeting at least 2:1 on all trades. Skip setups with poor risk-reward."]
    else recommendations
  -- Risk management
  let recommendations :=
    if stats.riskGrade = "C" ∨ stats.riskGrade = "D" then
      recommendations ++ ["⚠️ Reduce position sizing to 1-2% risk per trade. This is your #1 priority."]
    else recommendations
  -- Common mistakes
  let recommendations :=
    match patterns.commonMistakes with
    | top :: _ => recommendations ++ ["Address your most common mistake: " ++ top]
    | [] => recommendations
  -- Psychological
  let recommendations :=
    match patterns.psychologicalWeaknesses with
    | top :: _ => recommendations ++ ["Work on emotional discipline. Detected: " ++ top]
    | [] => recommendations
  -- General advice
  let recommendations :=
    if recommendations.length < 2 then
      recommendations ++ ["Continue building your trading journal. Consistency is key to improvement."]
    else recommendations
  recommendations.take 3

/-- The review object returned by `generatePeriodReview`; a field that the
returned object does not have is `none`. -/
structure PeriodReview where
  period : String
  summary : Option String := none
  tradeCount : Option Nat := none
  winRate : Option ℚ := none
  avgRR : Option ℚ := none
  netPips : Option ℚ := none
  bestStrategy : Option String := none
  bestSession : Option String := none
  bestPair : Option String := none
  commonMistakes : Option (List String) := none
  psychologicalWeaknesses : Option (List String) := none
  recommendations : List String
  executionTrend : Option String := none
  riskManagementGrade : Option String := none
  deriving DecidableEq, Repr

/-- Weekly or monthly review: `generatePeriodReview(trades, period)`. -/
def generatePeriodReview (trades : List Trade) (period : String) : PeriodReview :=
  if trades.length = 0 then
    { period := period,
      summary := some "No trades recorded in this period",
      recommendations := ["Start logging your trades to unlock AI insights"] }
  else
    let stats := calculatePeriodStats trades
    let patterns := analyzePeriodPatterns trades
    let recommendations := generatePeriodRecommendations stats patterns
    { period := period,
      tradeCount := some trades.length,
      winRate := some stats.winRate,
      avgRR := some stats.avgRR,
      netPips := some stats.netPips,
      bestStrategy := some stats.bestStrategy,
      bestSession := some stats.bestSession,
      bestPair := some stats.bestPair,
      commonMistakes := some patterns.commonMistakes,
      psychologicalWeaknesses := some patterns.psychologicalWeaknesses,
      recommendations := recommendations,
      executionTrend := some stats.executionTrend,
      riskManagementGrade := some stats.riskGrade }

/-! ## Components of the execution score

The five additive blocks of `calculateExecutionScore`, each as the integer it
adds to the running score. -/

/-- Points of the R:R block. -/
def rrPoints (rrRatio : ℚ) : Int :=
  if rrRatio ≥ 3 then 2 else if rrRatio ≥ 2 then 1 else if rrRatio < 1 then -1 else 0

/-- Points of the risk-management block. -/
def riskPoints (riskPercentage : ℚ) : Int :=
  if riskPercentage ≤ 1 then 1 else if riskPercentage > 3 then -2
  else if riskPercentage > 2 then -1 else 0

/-- Points of the outcome block. -/
def outcomePoints (outcome : String) (pips : ℚ) : Int :=
  if outcome = "Win" ∧ pips > 20 then 2 else if outcome = "Win" then 1
  else if outcome = "Loss" ∧ |pips| > 30 then -1 else 0

/-- Points of the stop-loss discipline block. -/
def stopLossPoints (entryPrice stopLoss : ℚ) : Int :=
  if |entryPrice - stopLoss| > 0 ∧ stopLoss ≠ entryPrice then 1 else 0

/-- Points of the emotional-discipline block. -/
def emotionPoints (trade : Trade) : Int :=
  if hasNegativeEmotions trade then -2 else 0

/-- The running score before rounding and clamping. -/
def rawScore (trade : Trade) : Int :=
  5 + rrPoints trade.rrRatio + riskPoints trade.riskPercentage +
    outcomePoints trade.outcome trade.pips +
    stopLossPoints trade.entryPrice trade.stopLoss + emotionPoints trade

/-- A single text field (read as empty when missing), lower-cased, contains one
of the negative-emotion keywords. -/
def fieldHasNegativeWord (field : Option String) : Bool :=
  negativeWords.any fun word => includes (toLowerCase (orEmpty field)) word


/-! ## The score formula as the specification words it -/

/-- Clamping of `x` to the interval `[lo, hi]`. -/
def clamp (lo hi x : Int) : Int :=
  max lo (min hi x)

/-- Component `a` of the claimed formula: reward-to-risk ratio. -/
def claimedRR (rrRatio : ℚ) : Int :=
  if rrRatio ≥ 3 then 2
  else if 2 ≤ rrRatio ∧ rrRatio < 3 then 1
  else if rrRatio < 1 then -1
  else 0

/-- Component `b` of the claimed formula: risk percentage. -/
def claimedRisk (riskPercentage : ℚ) : Int :=
  if riskPercentage ≤ 1 then 1
  else if riskPercentage > 3 then -2
  else if 2 < riskPercentage ∧ riskPercentage ≤ 3 then -1
  else 0

/-- Component `c` of the claimed formula: outcome. -/
def claimedOutcome (outcome : String) (pips : ℚ) : Int :=
  if outcome = "Win" ∧ pips > 20 then 2
  else if outcome = "Win" then 1
  else if outcome = "Loss" ∧ |pips| > 30 then -1
  else 0

/-- Component `d` of the claimed formula: the stop differs from the entry. -/
def claimedStopLoss (entryPrice stopLoss : ℚ) : Int :=
  if stopLoss ≠ entryPrice then 1 else 0

/-- Component `e` of the claimed formula: one of the three emotion fields,
lower-cased, contains a negative-emotion keyword. -/
def claimedEmotion (trade : Trade) : Int :=
  if fieldHasNegativeWord trade.emotionsBefore ∨ fieldHasNegativeWord trade.emotionsDuring ∨
      fieldHasNegativeWord trade.emotionsAfter then -2
  else 0

/-- The raw sum `5 + a + b + c + d + e` of the claimed formula. -/
def claimedSum (trade : Trade) : Int :=
  5 + claimedRR trade.rrRatio + claimedRisk trade.riskPercentage +
    claimedOutcome trade.outcome trade.pips +
    claimedStopLoss trade.entryPrice trade.stopLoss + claimedEmotion trade

/-- The claimed score `clamp(1, 10, 5 + a + b + c + d + e)`. -/
def claimedScore (trade : Trade) : Int :=
  clamp 1 10 (claimedSum trade)

/-- The worked example of the specification: entry 1.1000, stop 1.0950, target
1.1150, R:R 3.0, risk 1.0 %, a win of 30 pips, no emotion text. -/
def exampleWin : Trade :=
  { entryPrice := 11 / 10, stopLoss := 1095 / 1000, takeProfit := 1115 / 1000,
    rrRatio := 3, riskPercentage := 1, outcome := "Win", pips := 30 }

/-- The trade `t` with its `rrRatio` replaced. -/
def withRR (t : Trade) (r : ℚ) : Trade :=
  { t with rrRatio := r }

/-! ## Rule tables, as the specification words them -/

/-- The messages of the rules whose condition holds, in the order of the table. -/
def fired (rules : List (Bool × String)) : List String :=
  (rules.filter fun r => r.1).map fun r => r.2

/-- The message of the first rule whose condition holds, `dflt` when none holds. -/
def firstFired (rules : List (Bool × String)) (dflt : String) : String :=
  match rules.find? fun r => r.1 with
  | some r => r.2
  | none => dflt

/-- The six strength findings with their conditions, in the order of the
specification. -/
def strengthRules (trade : Trade) : List (Bool × String) :=
  [ (decide (trade.rrRatio ≥ 2), "Good risk-to-reward ratio"),
    (decide (trade.riskPercentage ≤ 1), "Conservative position sizing"),
    (decide (trade.outcome = "Win" ∧ trade.pips > 30), "Strong profit target execution"),
    (!(fieldHasNegativeWord trade.emotionsBefore || fieldHasNegativeWord trade.emotionsDuring ||
        fieldHasNegativeWord trade.emotionsAfter), "Maintained emotional discipline"),
    (decide (trade.stopLoss ≠ 0 ∧ trade.takeProfit ≠ 0), "Proper risk management with SL/TP"),
    (includes (toLowerCase (orEmpty trade.emotionsBefore)) "calm" ||
        includes (toLowerCase (orEmpty trade.emotionsBefore)) "confident",
      "Entered trade with positive mindset") ]

/-- The seven mistake messages with their conditions, in the order of the
specification. -/
def mistakeRules (trade : Trade) : List (Bool × String) :=
  [ (decide (trade.rrRatio < 1),
      "Risk-to-reward ratio below 1:1 - risking more than potential gain"),
    (decide (trade.riskPercentage > 2), highRiskMessage trade.riskPercentage),
    (decide (trade.outcome = "Loss") && hasRevengeEmotions trade,
      "Possible revenge trading detected from emotional state"),
    (hasFOMOIndicators trade, "FOMO (Fear of Missing Out) indicators present"),
    (includes (toLowerCase (orEmpty trade.emotionsDuring)) "panic" ||
        includes (toLowerCase (orEmpty trade.emotionsDuring)) "fear",
      "Emotional panic during trade execution"),
    (decide (trade.outcome = "Loss" ∧ |trade.pips| > trade.rrRatio * 20),
      "Stop loss may have been too wide or not honored"),
    (includes (toLowerCase (orEmpty trade.notes)) "impulsive",
      "Self-identified impulsive entry") ]

/-- The seven mistake rules as the service evaluates them: the sixth compares
`|pips|` with the product `rrRatio * 20` as computed, that is rounded to a
double. The other six are those of `mistakeRules`. -/
def computedMistakeRules (trade : Trade) : List (Bool × String) :=
  [ (decide (trade.rrRatio < 1),
      "Risk-to-reward ratio below 1:1 - risking more than potential gain"),
    (decide (trade.riskPercentage > 2), highRiskMessage trade.riskPercentage),
    (decide (trade.outcome = "Loss") && hasRevengeEmotions trade,
      "Possible revenge trading detected from emotional state"),
    (hasFOMOIndicators trade, "FOMO (Fear of Missing Out) indicators present"),
    (includes (toLowerCase (orEmpty trade.emotionsDuring)) "panic" ||
        includes (toLowerCase (orEmpty trade.emotionsDuring)) "fear",
      "Emotional panic during trade execution"),
    (decide (trade.outcome = "Loss" ∧ |fl trade.pips| > fmul trade.rrRatio 20),
      "Stop loss may have been too wide or not honored"),
    (includes (toLowerCase (orEmpty trade.notes)) "impulsive",
      "Self-identified impulsive entry") ]

/-- A loss of 22.6 pips at R:R 1.13 and 1 % risk: the loss equals `1.13 * 20`
exactly, while the product computed in doubles is `22.599999999999998`. -/
def exampleTightStop : Trade :=
  { riskPercentage := 1, rrRatio := 113 / 100, outcome := "Loss", pips := -226 / 10 }

/-- A loss at 1 % risk in which both numbers are doubles: the R:R is
`1 + 3 * 2^(-52)` (printed `1.0000000000000007`) and the loss is
`20 + 2^(-46)` pips (printed `20.000000000000014`). The loss exceeds the exact
product `rrRatio * 20` and equals the product rounded to a double. -/
def exampleRoundedUp : Trade :=
  { riskPercentage := 1, rrRatio := 4503599627370499 / 4503599627370496, outcome := "Loss",
    pips := -(1407374883553281 / 70368744177664) }

/-- The capital-preservation suggestion. -/
def capitalPreservationMessage : String :=
  "Focus on reducing position size to 1-2% risk per trade. This is critical for capital preservation."

/-- The minimum-ratio (R:R) suggestion. -/
def minimumRatioMessage : String :=
  "Never enter trades with R:R below 1:1. Wait for setups with at least 2:1 reward potential."

/-- The generic journaling encouragement. -/
def journalingMessage : String :=
  "Continue journaling trades. Pattern recognition improves with consistent data."

/-- The six prioritised suggestions with their conditions, in the order of the
specification. -/
def suggestionRules (trade : Trade) : List (Bool × String) :=
  [ (decide (trade.riskPercentage > 3), capitalPreservationMessage),
    (decide (trade.rrRatio < 1), minimumRatioMessage),
    (hasRevengeEmotions trade,
      "Take a break after losses. Wait at least 30 minutes before analyzing the next setup."),
    (hasFOMOIndicators trade,
      "Use entry checklists to avoid FOMO. The market always provides opportunities."),
    (decide (trade.outcome = "Loss" ∧ identifyMistakes trade ≠ []),
      "Review your trading plan rules. Stick to your strategy even during drawdowns."),
    (decide (trade.outcome = "Win" ∧ trade.rrRatio ≥ 2),
      "Excellent trade! Document what made this setup high-probability and repeat it.") ]

/-- The second worked example of the specification: risk 4 %, R:R 0.8, a loss
of 40 pips. -/
def exampleLoss : Trade :=
  { riskPercentage := 4, rrRatio := 8 / 10, outcome := "Loss", pips := -40 }

/-- The priority example of the specification: risk 5 % with R:R 0.5. -/
def exampleHighRisk : Trade :=
  { riskPercentage := 5, rrRatio := 1 / 2 }

/-- A trade on which no suggestion rule and no strength rule fires: break-even
at 2 % risk and R:R 1, anxious during the trade, stop and target left at zero. -/
def exampleQuiet : Trade :=
  { riskPercentage := 2, rrRatio := 1, outcome := "BE", pips := 0,
    emotionsDuring := some "a bit anxious" }

/-! ## Vocabulary for the analyzer theorems -/

/-- The value is a `Date` object (and not a string). -/
def JsDate.isDate : JsDate → Bool
  | JsDate.date _ => true
  | JsDate.text _ => false

/-- The feedback `f` with its time stamp `analyzedAt` blanked. -/
def eraseAnalyzedAt (f : AnalysisFeedback) : AnalysisFeedback :=
  { f with analyzedAt := 0 }

/-- The keyword `w` occurs in the text scanned by `analyzeEmotions`. -/
def mentions (trade : Trade) (w : String) : Bool :=
  includes (allEmotions trade) w

/-- The seven emotional-state tags. -/
def emotionTags : List String :=
  ["revenge", "greedy", "fearful", "impulsive", "confident", "calm", "mixed"]

/-- A trade whose three emotion fields are the given texts. -/
def feeling (before during after : Option String) : Trade :=
  { emotionsBefore := before, emotionsDuring := during, emotionsAfter := after }

/-! ## Vocabulary for the classifier and pattern-detector theorems -/

/-- The keywords of the four tiers tested before `confident`. -/
def higherPriorityWords : List String :=
  ["revenge", "angry", "fomo", "missing out", "fear", "panic", "impulsive", "rushed"]

/-- A confident trader whose text mentions a recovery: `recovering` contains
`over`, and the text does not contain `over-confident`. -/
def exampleRecovering : Trade :=
  feeling (some "Confident after recovering from last week") none none

/-- The four per-trade pattern tags with their conditions, in the order of the
source. -/
def patternRules (trade : Trade) : List (Bool × String) :=
  [ (decide (trade.riskPercentage ≤ 1 ∧ trade.rrRatio ≥ 2), "good_discipline"),
    (hasRevengeEmotions trade, "revenge_trading"),
    (hasFOMOIndicators trade, "FOMO"),
    (hasNegativeEmotions trade, "emotional_trading") ]

/-- The three historical pattern tags with their conditions, given the trades
of the recent window found to be on the day of the trade analysed. -/
def historyRules (recentTrades sameDayTrades : List Trade) : List (Bool × String) :=
  [ (decide (sameDayTrades.length ≥ 3), "over_trading"),
    (decide ((recentTrades.filter fun t => t.outcome = "Win").length ≥ 2 ∧
        (recentTrades.filter fun t => t.outcome = "Win").all (fun t => t.pips < 15) = true),
      "early_exit"),
    (decide ((recentTrades.filter fun t => t.outcome = "Loss").length ≥ 2), "late_entry") ]

/-- The historical part of `detectPatterns`: the tags it appends after the
per-trade tags, or the exception it raises. -/
def historicalTags (trade : Trade) (userTrades : List Trade) :
    Except JsError (List String) :=
  if userTrades.length ≥ 3 then
    (filterE (sameDay trade) (userTrades.take 5)).map fun sameDayTrades =>
      fired (historyRules (userTrades.take 5) sameDayTrades)
  else Except.ok []

/-- The text scanned by the FOMO-indicator rule: pre-trade emotion text plus
notes, lower-cased. -/
def fomoText (trade : Trade) : String :=
  toLowerCase (orEmpty trade.emotionsBefore ++ " " ++ orEmpty trade.notes)

/-- A disciplined trade (risk 1 %, R:R 2) entered in a rush and closed angry. -/
def exampleRushed : Trade :=
  { riskPercentage := 1, rrRatio := 2, outcome := "Loss", pips := -10,
    emotionsBefore := some "Rushed in", emotionsAfter := some "Angry" }

/-- The day 2024-01-15 as a `Date` object (midnight UTC). -/
def jan15 : JsDate :=
  JsDate.date 1705276800000

/-- A trade read back from the database, dated 2024-01-15. -/
def storedTrade (outcome : String) (pips : ℚ) : Trade :=
  { date := jan15, outcome := outcome, pips := pips, riskPercentage := 1, rrRatio := 2 }

/-- A new trade as `createTrade` passes it to the analyzer: the `date` is the
string of the request body. -/
def exampleNewTrade : Trade :=
  { date := JsDate.text "2024-01-15", riskPercentage := 1, rrRatio := 2, outcome := "Win",
    pips := 25 }

/-- The same trade once read back from the database: the `date` is a `Date`. -/
def exampleStoredNewTrade : Trade :=
  { exampleNewTrade with date := jan15 }

/-- Five most recent trades, all on 2024-01-15. -/
def fiveSameDay : List Trade :=
  [storedTrade "Win" 20, storedTrade "BE" 0, storedTrade "Win" 30, storedTrade "BE" 0,
    storedTrade "Loss" (-20)]

/-- Three most recent trades, all losses. -/
def threeLosses : List Trade :=
  [storedTrade "Loss" (-20), storedTrade "Loss" (-15), storedTrade "Loss" (-30)]

/-! ## Vocabulary for the period-review theorems -/

/-- The win-rate advice: quality over quantity below 40, let winners run
above 60. -/
def winRateAdvice (stats : PeriodStats) : String :=
  if stats.winRate < 40 then
    "Focus on quality over quantity. Review your entry criteria and wait for high-probability setups."
  else "Strong win rate! Ensure you\x27re not exiting winners too early. Let profits run."

/-- The five checks of `generatePeriodRecommendations` with their messages, in
evaluation order. -/
def recommendationChecks (stats : PeriodStats) (patterns : PeriodPatterns) :
    List (Bool × String) :=
  [ (decide (stats.winRate < 40 ∨ stats.winRate > 60), winRateAdvice stats),
    (decide (stats.avgRR < 3 / 2),
      "Improve your R:R ratio by targeting at least 2:1 on all trades. Skip setups with poor risk-reward."),
    (decide (stats.riskGrade = "C" ∨ stats.riskGrade = "D"),
      "⚠️ Reduce position sizing to 1-2% risk per trade. This is your #1 priority."),
    (!patterns.commonMistakes.isEmpty,
      "Address your most common mistake: " ++ patterns.commonMistakes.headD ""),
    (!patterns.psychologicalWeaknesses.isEmpty,
      "Work on emotional discipline. Detected: " ++ patterns.psychologicalWeaknesses.headD "") ]

/-- The generic consistency-building recommendation. -/
def genericRecommendation : String :=
  "Continue building your trading journal. Consistency is key to improvement."

/-- The score of a trade as the specification words it: the stored execution
score, `5` for a trade without stored feedback. -/
def claimedStoredScore (t : Trade) : ℚ :=
  match t.aiFeedback with
  | none => 5
  | some f => (f.executionScore : ℚ)

/-- The arithmetic mean of `f` over the trades. -/
def mean (f : Trade → ℚ) (trades : List Trade) : ℚ :=
  (trades.map f).sum / (trades.length : ℚ)

/-- The running sum `trades.reduce((sum, t) => sum + f(t), 0)` as computed: the
additions are made in list order and each is rounded to a double. -/
def doubleSum (f : Trade → ℚ) (trades : List Trade) : ℚ :=
  trades.foldl (fun sum t => fadd sum (f t)) 0

/-- The mean as computed: the running sum divided by the number of trades, the
quotient rounded to a double. -/
def doubleMean (f : Trade → ℚ) (trades : List Trade) : ℚ :=
  fdiv (doubleSum f trades) (trades.length : ℚ)

/-- The win rate as computed, `wins / total * 100`: the quotient is rounded to
a double, and so is its product with 100. -/
def computedWinRate (trades : List Trade) : ℚ :=
  fmul (fdiv ((trades.filter fun t => t.outcome = "Win").length : ℚ) (trades.length : ℚ)) 100

/-- A trade list within the range of the model: fewer than `2^32` entries (the
bound on the length of a JavaScript array) and pips, R:R and risk of
magnitude at most `10^9`, so that every sum is a finite double below `10^21`,
where `toFixed` prints decimal digits. -/
def inRange (trades : List Trade) : Prop :=
  trades.length < 2 ^ 32 ∧
    ∀ t ∈ trades, |t.pips| ≤ 10 ^ 9 ∧ |t.rrRatio| ≤ 10 ^ 9 ∧ |t.riskPercentage| ≤ 10 ^ 9

/-- A stored feedback object with the given score, mistakes and emotional
state. -/
def storedFeedback (score : Int) (mistakes : List String) (emotionalState : String) :
    AnalysisFeedback :=
  { executionScore := score, strengths := ["Trade logged for analysis"], mistakes := mistakes,
    suggestion := journalingMessage, patterns := [], riskAssessment := "acceptable",
    emotionalState := emotionalState, analyzedAt := 0 }

/-- A period of three trades: one win in three, two of them with stored
feedback. -/
def examplePeriod : List Trade :=
  [ { strategyName := "Breakout", session := "London", currencyPair := "EURUSD",
      outcome := "Loss", pips := -10, rrRatio := 1, riskPercentage := 1 },
    { strategyName := "Pullback", session := "NY", currencyPair := "GBPUSD",
      outcome := "Loss", pips := -5, rrRatio := 2, riskPercentage := 2,
      aiFeedback := some (storedFeedback 8 [] "calm") },
    { strategyName := "Breakout", session := "NY", currencyPair := "EURUSD",
      outcome := "Win", pips := 5, rrRatio := 3, riskPercentage := 3,
      aiFeedback := some (storedFeedback 8 [] "calm") } ]

/-- The distinct keys of a sequence, in order of first appearance. -/
def firstKeys (keys : List String) : List String :=
  keys.foldl (fun acc k => if k ∈ acc then acc else acc ++ [k]) []

/-- The summed pips of the trades of a currency pair. -/
def pairPips (trades : List Trade) (pair : String) : ℚ :=
  ((trades.filter fun t => t.currencyPair = pair).map fun t => t.pips).sum

/-- The pips of the trades of a currency pair as `pairStats` accumulates them:
a running sum in list order, each addition rounded to a double. -/
def pairSum (trades : List Trade) (pair : String) : ℚ :=
  doubleSum (fun t => t.pips) (trades.filter fun t => t.currencyPair = pair)

/-- A period without a win: one losing trade. -/
def exampleLosingPeriod : List Trade :=
  [ { strategyName := "Breakout", session := "London", currencyPair := "EURUSD",
      outcome := "Loss", pips := -10, rrRatio := 1, riskPercentage := 1 } ]

/-! ## Vocabulary for the remaining theorems -/

/-- The trade `t` with its `riskPercentage` replaced. -/
def withRisk (t : Trade) (p : ℚ) : Trade :=
  { t with riskPercentage := p }

/-- The seven pattern tags, in the order in which `detectPatterns` may push
them. -/
def patternTags : List String :=
  ["good_discipline", "revenge_trading", "FOMO", "emotional_trading", "over_trading",
    "early_exit", "late_entry"]

/-- A statistics object of grade `C` with a low win rate and a low average
R:R, so that two recommendations precede the position-sizing one. -/
def exampleGradeC : PeriodStats :=
  { winRate := 30, avgRR := 1, netPips := 0, bestStrategy := "N/A", bestSession := "N/A",
    bestPair := "N/A", executionTrend := "Stable", riskGrade := "C" }

/-- A pattern summary with one common mistake and one weakness. -/
def examplePatterns : PeriodPatterns :=
  { commonMistakes := ["FOMO (Fear of Missing Out) indicators present (2x)"],
    psychologicalWeaknesses := ["greedy trading (2x)"] }

/-- The quality-over-quantity recommendation. -/
def qualityMessage : String :=
  "Focus on quality over quantity. Review your entry criteria and wait for high-probability setups."

/-- The raise-R:R recommendation. -/
def raiseRRMessage : String :=
  "Improve your R:R ratio by targeting at least 2:1 on all trades. Skip setups with poor risk-reward."

/-- The names that every object inherits from `Object.prototype`. -/
def inheritedNames : List String :=
  ["constructor", "__defineGetter__", "__defineSetter__", "hasOwnProperty",
    "__lookupGetter__", "__lookupSetter__", "isPrototypeOf", "propertyIsEnumerable",
    "toString", "valueOf", "__proto__", "toLocaleString"]

/-- A key that a tally object lists in insertion order: neither an array
index nor an inherited name. -/
def plainKey (key : String) : Bool :=
  !isArrayIndex key && !inheritedNames.contains key

/-- The exact win rate of a trade list, `wins / total * 100`. -/
def exactWinRate (trades : List Trade) : ℚ :=
  ((trades.filter fun t => t.outcome = "Win").length : ℚ) / (trades.length : ℚ) * 100

/-- A trade without stored feedback, at 1 % risk. -/
def plainTrade (outcome : String) (rrRatio : ℚ) : Trade :=
  { outcome := outcome, rrRatio := rrRatio, riskPercentage := 1 }

/-- A period of 403 trades with 161 wins: the exact win rate, 39.9504 %, is
below 40 and is reported as 40.0. -/
def nearFortyPeriod : List Trade :=
  List.replicate 161 (plainTrade "Win" 2) ++ List.replicate 242 (plainTrade "Loss" 2)

/-- A period of two winning trades of R:R 1.496 and 1.5: the exact mean,
1.498, is below 1.5 and is reported as 1.50. -/
def nearRRPeriod : List Trade :=
  [plainTrade "Win" (187 / 125), plainTrade "Win" (3 / 2)]

/-- A trade without stored feedback on a currency pair, with the given pips. -/
def pairTrade (pair : String) (pips : ℚ) : Trade :=
  { currencyPair := pair, outcome := "Win", pips := pips, rrRatio := 2, riskPercentage := 1 }

/-- A period of 80 trades with 23 wins: the exact win rate is 28.75 %. -/
def tiePeriod : List Trade :=
  List.replicate 23 (plainTrade "Win" 2) ++ List.replicate 57 (plainTrade "Loss" 2)

/-- A period of one trade of 0.35 pips at R:R 1.005. -/
def oddDecimalsPeriod : List Trade :=
  [ { outcome := "Win", pips := 7 / 20, rrRatio := 201 / 200, riskPercentage := 1 } ]

/-- A period in which GBPUSD makes 0.3 pips in one trade and then EURUSD makes
0.1 and 0.2 pips: both pairs sum to 0.3. -/
def roundedPairsPeriod : List Trade :=
  [pairTrade "GBPUSD" (3 / 10), pairTrade "EURUSD" (1 / 10), pairTrade "EURUSD" (2 / 10)]

/-- A period in which all pips are doubles: EURUSD makes 1, `2^(-53)` and
`2^(-53)` pips, then GBPUSD makes `1 + 2^(-52)` pips; both pairs sum to
`1 + 2^(-52)`. -/
def dyadicPairsPeriod : List Trade :=
  [pairTrade "EURUSD" 1, pairTrade "EURUSD" (1 / 9007199254740992),
    pairTrade "EURUSD" (1 / 9007199254740992),
    pairTrade "GBPUSD" (4503599627370497 / 4503599627370496)]

/-- A period of two trades of 5 pips each, on pairs named `2` and `1`. -/
def numeralPairsPeriod : List Trade :=
  [pairTrade "2" 5, pairTrade "1" 5]

/-- A period of one trade whose stored execution score is 0. -/
def zeroScorePeriod : List Trade :=
  [ { outcome := "Loss", rrRatio := 1, riskPercentage := 1,
      aiFeedback := some (storedFeedback 0 [] "calm") } ]

/-- A period of three trades at 2.1 %, 3.7 % and 0.2 % risk: the mean risk is
2 %. -/
def roundedRiskPeriod : List Trade :=
  [ { outcome := "Win", rrRatio := 2, riskPercentage := 21 / 10 },
    { outcome := "Win", rrRatio := 2, riskPercentage := 37 / 10 },
    { outcome := "Win", rrRatio := 2, riskPercentage := 2 / 10 } ]

/-- A period of two trades whose risks are the doubles `2 + 2^(-51)` (printed
`2.0000000000000004`) and `2 - 2^(-52)` (printed `1.9999999999999998`): the
mean risk is `2 + 2^(-53)`, above 2. -/
def dyadicRiskPeriod : List Trade :=
  [ { outcome := "Win", rrRatio := 2, riskPercentage := 4503599627370497 / 2251799813685248 },
    { outcome := "Win", rrRatio := 2, riskPercentage := 9007199254740991 / 4503599627370496 } ]

/-! ## Vocabulary for the pattern-summary theorems -/

/-- The mistakes stored with a trade; none for a trade without feedback. -/
def mistakesOf (t : Trade) : List String :=
  match t.aiFeedback with
  | none => []
  | some f => f.mistakes

/-- All mistake strings found in the stored feedback of the trades, in input
order. -/
def storedMistakes : List Trade → List String
  | [] => []
  | t :: rest => mistakesOf t ++ storedMistakes rest

/-- The emotional state stored with a trade, if it has feedback. -/
def stateOf (t : Trade) : Option String :=
  t.aiFeedback.map fun f => f.emotionalState

/-- The emotional states found in the stored feedback of the trades, in input
order. -/
def storedEmotions (trades : List Trade) : List String :=
  trades.filterMap stateOf

/-- The number of trades whose stored feedback has the emotional state `k`. -/
def tradesInState (trades : List Trade) (k : String) : Nat :=
  (trades.filter fun t => stateOf t = some k).length

/-- The distinct strings of a sequence in order of first occurrence, each with
its number of occurrences. -/
def countTable (items : List String) : List (String × Nat) :=
  (firstKeys items).map fun k => (k, items.count k)

/-- The tally built by counting up the strings of a sequence one by one. -/
def countsOf (items : List String) : List (String × Nat) :=
  items.foldl (fun counts item => countUp item counts) []

/-- Ranking of two table entries over the sequence `items`: a higher count
first, and at equal counts the string that occurs first in `items`. -/
def ranksBefore (items : List String) (a b : String × Nat) : Prop :=
  a.2 > b.2 ∨ (a.2 = b.2 ∧ [a.1, b.1].Sublist (firstKeys items))

/-- The rendering of a common mistake with its count. -/
def renderMistake (e : String × Nat) : String :=
  e.1 ++ " (" ++ toString e.2 ++ "x)"

/-- The rendering of a psychological weakness with its count. -/
def renderWeakness (e : String × Nat) : String :=
  e.1 ++ " trading (" ++ toString e.2 ++ "x)"

/-- The fixed set of negative emotional states. -/
def negativeStates : List String :=
  ["fearful", "greedy", "impulsive", "revenge"]

/-- A period of five trades with stored feedback: the mistakes `late`, `wide`
and `fomo` occur 2, 2 and 1 times, `late` first; the states are calm three
times, greedy and fearful once each. -/
def exampleReviewed : List Trade :=
  [ { outcome := "Loss", aiFeedback := some (storedFeedback 4 ["late", "wide"] "calm") },
    { outcome := "Win", aiFeedback := some (storedFeedback 7 [] "calm") },
    { outcome := "Loss", aiFeedback := some (storedFeedback 3 ["wide", "fomo"] "greedy") },
    { outcome := "Win" },
    { outcome := "Loss", aiFeedback := some (storedFeedback 5 ["late"] "fearful") },
    { outcome := "Win", aiFeedback := some (storedFeedback 8 [] "calm") } ]

/-! ## Lemmas on the rounding to doubles -/

theorem roundHalfEven_intCast (n : ℤ) : roundHalfEven (n : ℚ) = n := by
  simp [roundHalfEven]

theorem floor_le_roundHalfEven (y : ℚ) : ⌊y⌋ ≤ roundHalfEven y := by
  unfold roundHalfEven
  split_ifs <;> omega

theorem roundHalfEven_le_floor_add_one (y : ℚ) : roundHalfEven y ≤ ⌊y⌋ + 1 := by
  unfold roundHalfEven
  split_ifs <;> omega

theorem roundHalfEven_mono {y z : ℚ} (h : y ≤ z) : roundHalfEven y ≤ roundHalfEven z := by
  rcases lt_or_eq_of_le (Int.floor_mono h) with hlt | heq
  · calc roundHalfEven y ≤ ⌊y⌋ + 1 := roundHalfEven_le_floor_add_one y
      _ ≤ ⌊z⌋ := hlt
      _ ≤ roundHalfEven z := floor_le_roundHalfEven z
  · unfold roundHalfEven
    rw [heq]
    have hr : y - ⌊z⌋ ≤ z - ⌊z⌋ := by linarith
    split_ifs <;> first | omega | (exfalso; linarith)

theorem abs_roundHalfEven_sub_le (y : ℚ) : |(roundHalfEven y : ℚ) - y| ≤ 1 / 2 := by
  have h1 := Int.floor_le y
  have h2 := Int.lt_floor_add_one y
  unfold roundHalfEven
  rw [abs_le]
  split_ifs <;> push_cast <;> constructor <;> linarith

theorem roundHalfEven_eq_of_near (y : ℚ) (m : ℤ) (h : |y - m| < 1 / 2) :
    roundHalfEven y = m := by
  rw [abs_lt] at h
  have h1 := abs_le.mp (abs_roundHalfEven_sub_le y)
  have : ((roundHalfEven y : ℤ) : ℚ) - m < 1 ∧ (-1 : ℚ) < (roundHalfEven y : ℚ) - m := by
    constructor <;> linarith [h.1, h.2, h1.1, h1.2]
  have h3 : roundHalfEven y - m < 1 := by exact_mod_cast this.1
  have h4 : -1 < roundHalfEven y - m := by exact_mod_cast this.2
  omega

theorem roundHalfEven_nonneg {y : ℚ} (h : 0 ≤ y) : 0 ≤ roundHalfEven y :=
  le_trans (Int.floor_nonneg.mpr h) (floor_le_roundHalfEven y)

theorem two_zpow_pos (e : ℤ) : (0 : ℚ) < 2 ^ e := zpow_pos (by norm_num) e

theorem two_zpow_le {a b : ℤ} (h : a ≤ b) : (2 : ℚ) ^ a ≤ 2 ^ b :=
  zpow_le_zpow_right₀ (by norm_num) h

theorem log_two_le (x : ℚ) (hx : 0 < x) : (2 : ℚ) ^ Int.log 2 x ≤ x := by
  have := Int.zpow_log_le_self (b := 2) (by norm_num) hx
  simpa using this

theorem lt_log_two_succ (x : ℚ) : x < (2 : ℚ) ^ (Int.log 2 x + 1) := by
  have := Int.lt_zpow_succ_log_self (b := 2) (by norm_num) x
  simpa using this

theorem log_two_eq (x : ℚ) (k : ℤ) (h1 : (2 : ℚ) ^ k ≤ x) (h2 : x < 2 ^ (k + 1)) :
    Int.log 2 x = k := by
  have hx : 0 < x := lt_of_lt_of_le (two_zpow_pos k) h1
  have a : k ≤ Int.log 2 x := by
    rw [← Int.zpow_le_iff_le_log (by norm_num) hx]
    simpa using h1
  have b : Int.log 2 x < k + 1 := by
    rw [← Int.lt_zpow_iff_log_lt (by norm_num) hx]
    simpa using h2
  omega

theorem ulpExponent_ge (x : ℚ) : -1074 ≤ ulpExponent x := le_max_right _ _

theorem ulpExponent_mono {x y : ℚ} (hx : 0 < x) (h : x ≤ y) : ulpExponent x ≤ ulpExponent y := by
  unfold ulpExponent
  have := Int.log_mono_right (b := 2) hx h
  exact max_le_max (by omega) (le_refl _)

/-- A positive number lies below the top of its binade. -/
theorem lt_top (x : ℚ) : x < 2 ^ (ulpExponent x + 53) := by
  have h := lt_log_two_succ x
  refine lt_of_lt_of_le h (two_zpow_le ?_)
  have : Int.log 2 x - 52 ≤ ulpExponent x := le_max_left _ _
  omega

/-- A positive normal number lies above the bottom of its binade. -/
theorem bottom_le (x : ℚ) (hx : 0 < x) (h : -1074 < ulpExponent x) :
    (2 : ℚ) ^ (ulpExponent x + 52) ≤ x := by
  have he : ulpExponent x = Int.log 2 x - 52 := by
    unfold ulpExponent at h ⊢
    rcases max_cases (Int.log 2 x - 52) (-1074) with ⟨h1, _⟩ | ⟨h1, _⟩
    · exact h1
    · rw [h1] at h; omega
  rw [he]
  have : Int.log 2 x - 52 + 52 = Int.log 2 x := by omega
  rw [this]
  exact log_two_le x hx

theorem flPos_nonneg {x : ℚ} (hx : 0 ≤ x) : 0 ≤ flPos x := by
  unfold flPos
  apply mul_nonneg
  · exact_mod_cast roundHalfEven_nonneg (div_nonneg hx (le_of_lt (two_zpow_pos _)))
  · exact le_of_lt (two_zpow_pos _)

theorem flPos_le_top (x : ℚ) : flPos x ≤ 2 ^ (ulpExponent x + 53) := by
  unfold flPos
  have hlt : x / 2 ^ ulpExponent x ≤ ((2 ^ 53 : ℤ) : ℚ) := by
    rw [div_le_iff₀ (two_zpow_pos _)]
    have := lt_top x
    rw [zpow_add₀ (by norm_num : (2 : ℚ) ≠ 0)] at this
    have h53 : ((2 ^ 53 : ℤ) : ℚ) = (2 : ℚ) ^ (53 : ℤ) := by norm_num
    rw [h53, mul_comm]
    exact le_of_lt this
  have h1 : roundHalfEven (x / 2 ^ ulpExponent x) ≤ 2 ^ 53 := by
    have := roundHalfEven_mono hlt
    rwa [roundHalfEven_intCast] at this
  have h2 : ((roundHalfEven (x / 2 ^ ulpExponent x) : ℤ) : ℚ) ≤ 2 ^ 53 := by exact_mod_cast h1
  calc (roundHalfEven (x / 2 ^ ulpExponent x) : ℚ) * 2 ^ ulpExponent x
      ≤ 2 ^ 53 * 2 ^ ulpExponent x :=
        mul_le_mul_of_nonneg_right h2 (le_of_lt (two_zpow_pos _))
    _ = 2 ^ (ulpExponent x + 53) := by
        rw [zpow_add₀ (by norm_num : (2 : ℚ) ≠ 0), mul_comm]; norm_num

theorem bottom_le_flPos (x : ℚ) (hx : 0 < x) (h : -1074 < ulpExponent x) :
    (2 : ℚ) ^ (ulpExponent x + 52) ≤ flPos x := by
  unfold flPos
  have hge : ((2 ^ 52 : ℤ) : ℚ) ≤ x / 2 ^ ulpExponent x := by
    rw [le_div_iff₀ (two_zpow_pos _)]
    have := bottom_le x hx h
    rw [zpow_add₀ (by norm_num : (2 : ℚ) ≠ 0)] at this
    have h52 : ((2 ^ 52 : ℤ) : ℚ) = (2 : ℚ) ^ (52 : ℤ) := by norm_num
    rw [h52, mul_comm]
    exact this
  have h1 : 2 ^ 52 ≤ roundHalfEven (x / 2 ^ ulpExponent x) := by
    have := roundHalfEven_mono hge
    rwa [roundHalfEven_intCast] at this
  have h2 : (2 ^ 52 : ℚ) ≤ ((roundHalfEven (x / 2 ^ ulpExponent x) : ℤ) : ℚ) := by
    exact_mod_cast h1
  calc (2 : ℚ) ^ (ulpExponent x + 52) = 2 ^ 52 * 2 ^ ulpExponent x := by
        rw [zpow_add₀ (by norm_num : (2 : ℚ) ≠ 0), mul_comm]; norm_num
    _ ≤ (roundHalfEven (x / 2 ^ ulpExponent x) : ℚ) * 2 ^ ulpExponent x :=
        mul_le_mul_of_nonneg_right h2 (le_of_lt (two_zpow_pos _))

theorem flPos_mono {x y : ℚ} (hx : 0 < x) (h : x ≤ y) : flPos x ≤ flPos y := by
  have hy : 0 < y := lt_of_lt_of_le hx h
  rcases lt_or_eq_of_le (ulpExponent_mono hx h) with hlt | heq
  · calc flPos x ≤ 2 ^ (ulpExponent x + 53) := flPos_le_top x
      _ ≤ 2 ^ (ulpExponent y + 52) := two_zpow_le (by omega)
      _ ≤ flPos y := bottom_le_flPos y hy (by have := ulpExponent_ge x; omega)
  · unfold flPos
    rw [heq]
    apply mul_le_mul_of_nonneg_right _ (le_of_lt (two_zpow_pos _))
    exact_mod_cast roundHalfEven_mono (div_le_div_of_nonneg_right h (le_of_lt (two_zpow_pos _)))

theorem flPos_zero : flPos 0 = 0 := by
  simp [flPos, roundHalfEven]

theorem fl_zero : fl 0 = 0 := by
  simp [fl, flPos_zero]

theorem fl_neg (x : ℚ) : fl (-x) = -fl x := by
  unfold fl
  rcases lt_trichotomy x 0 with h | h | h
  · have h1 : ¬ (-x < 0) := by linarith
    simp [h, h1]
  · subst h; simp [flPos_zero]
  · have h1 : -x < 0 := by linarith
    have h2 : ¬ (x < 0) := by linarith
    simp [h1, h2]

theorem fl_nonneg {x : ℚ} (hx : 0 ≤ x) : 0 ≤ fl x := by
  unfold fl
  rw [if_neg (by linarith)]
  exact flPos_nonneg hx

theorem fl_nonpos {x : ℚ} (hx : x ≤ 0) : fl x ≤ 0 := by
  have := fl_nonneg (x := -x) (by linarith)
  rw [fl_neg] at this
  linarith

/-- Rounding to the nearest double is monotone. -/
theorem fl_mono {x y : ℚ} (h : x ≤ y) : fl x ≤ fl y := by
  rcases le_or_lt x 0 with hx | hx
  · rcases le_or_lt 0 y with hy | hy
    · exact le_trans (fl_nonpos hx) (fl_nonneg hy)
    · -- both negative
      have hy0 : 0 < -y := by linarith
      have := flPos_mono hy0 (by linarith : -y ≤ -x)
      unfold fl
      rw [if_pos hy]
      rcases lt_or_eq_of_le hx with hx1 | hx1
      · rw [if_pos hx1]; linarith
      · subst hx1; linarith
  · have hy : 0 < y := lt_of_lt_of_le hx h
    unfold fl
    rw [if_neg (by linarith), if_neg (by linarith)]
    exact flPos_mono hx h

theorem flPos_of_multiple (x : ℚ) (N : ℤ) (h : x = N * 2 ^ ulpExponent x) : flPos x = x := by
  unfold flPos
  have hd : x / 2 ^ ulpExponent x = (N : ℚ) := by
    rw [div_eq_iff (ne_of_gt (two_zpow_pos _))]
    exact h
  rw [hd, roundHalfEven_intCast]
  exact h.symm

theorem significand_le (x : ℚ) : roundHalfEven (x / 2 ^ ulpExponent x) ≤ 2 ^ 53 := by
  have hlt : x / 2 ^ ulpExponent x ≤ ((2 ^ 53 : ℤ) : ℚ) := by
    rw [div_le_iff₀ (two_zpow_pos _)]
    have := lt_top x
    rw [zpow_add₀ (by norm_num : (2 : ℚ) ≠ 0)] at this
    have h53 : ((2 ^ 53 : ℤ) : ℚ) = (2 : ℚ) ^ (53 : ℤ) := by norm_num
    rw [h53, mul_comm]
    exact le_of_lt this
  have := roundHalfEven_mono hlt
  rwa [roundHalfEven_intCast] at this

theorem flPos_repr (m : ℤ) (e : ℤ) (hm0 : 0 < m) (hm : m ≤ 2 ^ 53) (he : -1074 ≤ e) :
    flPos (m * 2 ^ e) = m * 2 ^ e := by
  have hx : (0 : ℚ) < m * 2 ^ e := mul_pos (by exact_mod_cast hm0) (two_zpow_pos e)
  rcases le_or_lt (ulpExponent ((m : ℚ) * 2 ^ e)) e with hle | hgt
  · obtain ⟨d, hd⟩ := Int.le.dest hle
    apply flPos_of_multiple _ (m * 2 ^ d)
    have he2 : e = ulpExponent ((m : ℚ) * 2 ^ e) + (d : ℤ) := by omega
    conv_lhs => rw [he2]
    rw [zpow_add₀ (by norm_num : (2 : ℚ) ≠ 0)]
    push_cast
    rw [zpow_natCast]
    ring
  · -- the significand is `2^53`
    have hnorm : -1074 < ulpExponent ((m : ℚ) * 2 ^ e) := by omega
    have hb := bottom_le _ hx hnorm
    have h1 : (2 : ℚ) ^ (e + 53) ≤ m * 2 ^ e :=
      le_trans (two_zpow_le (by omega)) hb
    rw [zpow_add₀ (by norm_num : (2 : ℚ) ≠ 0), mul_comm] at h1
    have h2 : (2 : ℚ) ^ (53 : ℤ) ≤ m := le_of_mul_le_mul_right h1 (two_zpow_pos e)
    have h3 : ((2 ^ 53 : ℤ) : ℚ) ≤ m := by
      have h53 : ((2 ^ 53 : ℤ) : ℚ) = (2 : ℚ) ^ (53 : ℤ) := by norm_num
      rw [h53]; exact h2
    have h4 : (2 : ℤ) ^ 53 ≤ m := by exact_mod_cast h3
    have hm53 : m = 2 ^ 53 := le_antisymm hm h4
    have hxe : (m : ℚ) * 2 ^ e = 2 ^ (e + 53) := by
      rw [hm53, zpow_add₀ (by norm_num : (2 : ℚ) ≠ 0), mul_comm]
      norm_num
    have hlog : Int.log 2 ((m : ℚ) * 2 ^ e) = e + 53 := by
      rw [hxe]
      exact log_two_eq _ _ (le_refl _) (zpow_lt_zpow_right₀ (by norm_num) (by omega))
    have hu : ulpExponent ((m : ℚ) * 2 ^ e) = e + 1 := by
      unfold ulpExponent
      rw [hlog]
      rw [max_eq_left (by omega)]
      omega
    apply flPos_of_multiple _ (2 ^ 52)
    rw [hu, hxe, zpow_add₀ (by norm_num : (2 : ℚ) ≠ 0), zpow_add₀ (by norm_num : (2 : ℚ) ≠ 0)]
    norm_num
    ring

/-- A number `m * 2^e` with `|m| ≤ 2^53` and `e ≥ -1074` is a double. -/
theorem fl_repr (m : ℤ) (e : ℤ) (hm : |m| ≤ 2 ^ 53) (he : -1074 ≤ e) :
    fl (m * 2 ^ e) = m * 2 ^ e := by
  rw [abs_le] at hm
  rcases lt_trichotomy m 0 with h | h | h
  · have h1 : ((m : ℚ) * 2 ^ e) = -(((-m : ℤ) : ℚ) * 2 ^ e) := by push_cast; ring
    rw [h1, fl_neg]
    congr 1
    unfold fl
    have hpos : (0 : ℚ) < ((-m : ℤ) : ℚ) * 2 ^ e :=
      mul_pos (by exact_mod_cast (by omega : 0 < -m)) (two_zpow_pos e)
    rw [if_neg (by linarith)]
    exact flPos_repr (-m) e (by omega) (by omega) he
  · subst h; simp [fl_zero]
  · unfold fl
    have hpos : (0 : ℚ) < (m : ℚ) * 2 ^ e := mul_pos (by exact_mod_cast h) (two_zpow_pos e)
    rw [if_neg (by linarith)]
    exact flPos_repr m e h hm.2 he

theorem fl_eq_self_of (x : ℚ) (m e : ℤ) (hx : x = m * 2 ^ e) (hm : |m| ≤ 2 ^ 53)
    (he : -1074 ≤ e) : fl x = x := by
  rw [hx]; exact fl_repr m e hm he

/-- An integer of magnitude at most `2^53` is a double. -/
theorem fl_intCast (n : ℤ) (h : |n| ≤ 2 ^ 53) : fl (n : ℚ) = n := by
  have := fl_repr n 0 h (by norm_num)
  simpa using this

theorem fl_natCast (n : ℕ) (h : n ≤ 2 ^ 53) : fl (n : ℚ) = n := by
  have := fl_intCast (n : ℤ) (by rw [abs_of_nonneg (by positivity)]; exact_mod_cast h)
  simpa using this

/-- Rounding is idempotent: the result of a rounding is a double. -/
theorem fl_fl (x : ℚ) : fl (fl x) = fl x := by
  have key : ∀ y : ℚ, 0 ≤ y → fl (flPos y) = flPos y := by
    intro y hy
    unfold flPos
    apply fl_repr _ _ _ (ulpExponent_ge y)
    rw [abs_of_nonneg (roundHalfEven_nonneg (div_nonneg hy (le_of_lt (two_zpow_pos _))))]
    exact significand_le y
  rcases lt_or_le x 0 with h | h
  · have h1 : fl x = -flPos (-x) := by unfold fl; rw [if_pos h]
    rw [h1, fl_neg, key (-x) (by linarith)]
  · have h1 : fl x = flPos x := by unfold fl; rw [if_neg (by linarith)]
    rw [h1, key x h]

/-- The rounding error of a number in the normal range is at most `2^(-53)`
of its magnitude. -/
theorem abs_fl_sub_le (x : ℚ) (hx : (2 : ℚ) ^ (-1022 : ℤ) ≤ |x|) :
    |fl x - x| ≤ |x| * 2 ^ (-53 : ℤ) := by
  have key : ∀ y : ℚ, (2 : ℚ) ^ (-1022 : ℤ) ≤ y → |flPos y - y| ≤ y * 2 ^ (-53 : ℤ) := by
    intro y hy
    have hy0 : 0 < y := lt_of_lt_of_le (two_zpow_pos _) hy
    have hnorm : -1074 < ulpExponent y ∨ ulpExponent y = -1074 := by
      have := ulpExponent_ge y; omega
    have hbot : (2 : ℚ) ^ (ulpExponent y + 52) ≤ y := by
      rcases hnorm with h | h
      · exact bottom_le y hy0 h
      · rw [h]; exact hy
    have herr := abs_roundHalfEven_sub_le (y / 2 ^ ulpExponent y)
    have hpos := two_zpow_pos (ulpExponent y)
    have h1 : flPos y - y =
        ((roundHalfEven (y / 2 ^ ulpExponent y) : ℚ) - y / 2 ^ ulpExponent y) *
          2 ^ ulpExponent y := by
      unfold flPos
      field_simp
    rw [h1, abs_mul, abs_of_pos hpos]
    calc |(roundHalfEven (y / 2 ^ ulpExponent y) : ℚ) - y / 2 ^ ulpExponent y| *
          2 ^ ulpExponent y ≤ 1 / 2 * 2 ^ ulpExponent y :=
          mul_le_mul_of_nonneg_right herr (le_of_lt hpos)
      _ = 2 ^ (ulpExponent y + 52) * 2 ^ (-53 : ℤ) := by
          rw [← zpow_add₀ (by norm_num : (2 : ℚ) ≠ 0)]
          have : ulpExponent y + 52 + -53 = ulpExponent y + (-1) := by omega
          rw [this, zpow_add₀ (by norm_num : (2 : ℚ) ≠ 0)]
          norm_num
          ring
      _ ≤ y * 2 ^ (-53 : ℤ) := mul_le_mul_of_nonneg_right hbot (le_of_lt (two_zpow_pos _))
  unfold fl
  split_ifs with h
  · have := key (-x) (by rwa [abs_of_neg h] at hx)
    rw [abs_of_neg h]
    have e : -flPos (-x) - x = -(flPos (-x) - -x) := by ring
    rw [e, abs_neg]
    exact this
  · have h0 : 0 ≤ x := by linarith
    rw [abs_of_nonneg h0] at hx ⊢
    exact key x hx

/-- Evaluation of a rounding from a certificate: `x` lies in the binade of
`2^k` and is nearer than half a unit in the last place to `m * 2^(k-52)`. -/
theorem fl_eq_of_near (x : ℚ) (k m : ℤ) (h1 : (2 : ℚ) ^ k ≤ x) (h2 : x < 2 ^ (k + 1))
    (hk : -1022 ≤ k) (hnear : |x - m * 2 ^ (k - 52)| < 2 ^ (k - 53)) :
    fl x = m * 2 ^ (k - 52) := by
  have hx : 0 < x := lt_of_lt_of_le (two_zpow_pos k) h1
  have hu : ulpExponent x = k - 52 := by
    unfold ulpExponent
    rw [log_two_eq x k h1 h2, max_eq_left (by omega)]
  unfold fl
  rw [if_neg (by linarith)]
  unfold flPos
  rw [hu]
  congr 1
  have hpos := two_zpow_pos (k - 52)
  have : roundHalfEven (x / 2 ^ (k - 52)) = m := by
    apply roundHalfEven_eq_of_near
    have e : x / 2 ^ (k - 52) - m = (x - m * 2 ^ (k - 52)) / 2 ^ (k - 52) := by
      field_simp
      ring
    rw [e, abs_div, abs_of_pos hpos, div_lt_iff₀ hpos]
    have e2 : (1 / 2 : ℚ) * 2 ^ (k - 52) = 2 ^ (k - 53) := by
      have : k - 53 = (k - 52) + (-1) := by omega
      rw [this, zpow_add₀ (by norm_num : (2 : ℚ) ≠ 0)]
      norm_num
      ring
    rw [e2]
    exact hnear
  exact_mod_cast this

/-- Evaluation of a rounding to a given value `v = m * 2^(k-52)`. -/
theorem fl_eq_of_cert (x v : ℚ) (k m : ℤ) (hv : v = m * 2 ^ (k - 52)) (h1 : (2 : ℚ) ^ k ≤ x)
    (h2 : x < 2 ^ (k + 1)) (hk : -1022 ≤ k) (hnear : |x - v| < 2 ^ (k - 53)) : fl x = v := by
  rw [hv] at hnear ⊢
  exact fl_eq_of_near x k m h1 h2 hk hnear

theorem roundHalfEven_tie (f : ℤ) :
    roundHalfEven ((f : ℚ) + 1 / 2) = if f % 2 = 0 then f else f + 1 := by
  have hfl : ⌊(f : ℚ) + 1 / 2⌋ = f := by
    rw [Int.floor_eq_iff]
    constructor <;> norm_num
  unfold roundHalfEven
  rw [hfl]
  have e : (f : ℚ) + 1 / 2 - f = 1 / 2 := by ring
  rw [e]
  simp

/-- Evaluation of a rounding at a tie: `x` lies halfway between the doubles of
significands `f` and `f + 1`, and the even one is chosen. -/
theorem fl_eq_of_tie (x v : ℚ) (k f m : ℤ) (hx : x = ((f : ℚ) + 1 / 2) * 2 ^ (k - 52))
    (hv : v = m * 2 ^ (k - 52)) (h1 : (2 : ℚ) ^ k ≤ x) (h2 : x < 2 ^ (k + 1))
    (hk : -1022 ≤ k) (hm : m = if f % 2 = 0 then f else f + 1) : fl x = v := by
  have hpos : 0 < x := lt_of_lt_of_le (two_zpow_pos k) h1
  have hu : ulpExponent x = k - 52 := by
    unfold ulpExponent
    rw [log_two_eq x k h1 h2, max_eq_left (by omega)]
  unfold fl
  rw [if_neg (by linarith)]
  unfold flPos
  rw [hu, hv]
  congr 1
  have hd : x / 2 ^ (k - 52) = (f : ℚ) + 1 / 2 := by
    rw [hx]
    field_simp
    ring
  rw [hd, roundHalfEven_tie, hm]

/-! ## Lemmas on keyword search -/

theorem isPrefixOf_append_blank (w : List Char) (hw : ' ' ∉ w) (x y : List Char) :
    w.isPrefixOf (x ++ ' ' :: y) = w.isPrefixOf x := by
  induction w generalizing x with
  | nil => simp
  | cons a w ih =>
    have ha : a ≠ ' ' := fun h => hw (by simp [h])
    have hw2 : ' ' ∉ w := fun h => hw (List.mem_cons_of_mem _ h)
    cases x with
    | nil => simp [List.isPrefixOf, ha]
    | cons b x => simp [List.isPrefixOf, ih hw2]

theorem includesChars_append_blank (w : List Char) (hw : ' ' ∉ w) (x y : List Char) :
    includesChars w (x ++ ' ' :: y) = (includesChars w x || includesChars w y) := by
  induction x with
  | nil =>
    have h := isPrefixOf_append_blank w hw [] y
    simp only [List.nil_append] at h
    simp [includesChars, h]
  | cons c x ih =>
    have h := isPrefixOf_append_blank w hw (c :: x) y
    simp only [List.cons_append] at h
    show (w.isPrefixOf (c :: (x ++ ' ' :: y)) || includesChars w (x ++ ' ' :: y)) =
      ((w.isPrefixOf (c :: x) || includesChars w x) || includesChars w y)
    rw [h, ih, Bool.or_assoc]

theorem toLowerCase_joinSpace3 (a b c : Option String) :
    (toLowerCase (joinSpace [a, b, c])).data =
      (toLowerCase (orEmpty a)).data ++ ' ' ::
        ((toLowerCase (orEmpty b)).data ++ ' ' :: (toLowerCase (orEmpty c)).data) := by
  simp [toLowerCase, joinSpace, List.intercalate]

theorem includes_joinSpace3 (w : String) (hw : ' ' ∉ w.data) (a b c : Option String) :
    includes (toLowerCase (joinSpace [a, b, c])) w =
      (includes (toLowerCase (orEmpty a)) w || includes (toLowerCase (orEmpty b)) w ||
        includes (toLowerCase (orEmpty c)) w) := by
  unfold includes
  rw [toLowerCase_joinSpace3, includesChars_append_blank w.data hw,
    includesChars_append_blank w.data hw, Bool.or_assoc]

theorem negativeWords_no_blank : ∀ w ∈ negativeWords, ' ' ∉ w.data := by
  decide

theorem hasNegativeEmotions_eq (trade : Trade) :
    hasNegativeEmotions trade =
      (fieldHasNegativeWord trade.emotionsBefore || fieldHasNegativeWord trade.emotionsDuring ||
        fieldHasNegativeWord trade.emotionsAfter) := by
  rw [Bool.eq_iff_iff]
  simp only [hasNegativeEmotions, fieldHasNegativeWord, List.any_eq_true, Bool.or_eq_true]
  constructor
  · rintro ⟨w, hw, h⟩
    rw [includes_joinSpace3 w (negativeWords_no_blank w hw)] at h
    simp only [Bool.or_eq_true] at h
    rcases h with (h | h) | h
    · exact Or.inl (Or.inl ⟨w, hw, h⟩)
    · exact Or.inl (Or.inr ⟨w, hw, h⟩)
    · exact Or.inr ⟨w, hw, h⟩
  · rintro ((⟨w, hw, h⟩ | ⟨w, hw, h⟩) | ⟨w, hw, h⟩) <;>
      refine ⟨w, hw, ?_⟩ <;>
      rw [includes_joinSpace3 w (negativeWords_no_blank w hw)] <;> simp [h]

theorem allEmotions_eq (trade : Trade) :
    allEmotions trade =
      toLowerCase (orEmpty trade.emotionsBefore ++ " " ++ orEmpty trade.emotionsDuring ++ " " ++
        orEmpty trade.emotionsAfter) := by
  simp [allEmotions, joinSpace, List.intercalate, orEmpty, toLowerCase]

theorem notesImpulsive_eq (trade : Trade) :
    notesImpulsive trade = includes (toLowerCase (orEmpty trade.notes)) "impulsive" := by
  unfold notesImpulsive
  cases hn : trade.notes with
  | none => decide
  | some notes =>
    by_cases h : notes = ""
    · subst h; decide
    · simp [orEmpty, h]

/-! ## Lemmas on the execution score -/

theorem mathRound_intCast (n : Int) : mathRound (n : ℚ) = n := by
  unfold mathRound
  rw [Int.floor_eq_iff]
  constructor <;> norm_num

theorem rr_block (s rr : ℚ) :
    (if rr ≥ 3 then s + 2 else if rr ≥ 2 then s + 1 else if rr < 1 then s - 1 else s) =
      s + (rrPoints rr : ℚ) := by
  unfold rrPoints; split_ifs <;> push_cast <;> ring

theorem risk_block (s p : ℚ) :
    (if p ≤ 1 then s + 1 else if p > 3 then s - 2 else if p > 2 then s - 1 else s) =
      s + (riskPoints p : ℚ) := by
  unfold riskPoints; split_ifs <;> push_cast <;> ring

theorem outcome_block (s pips : ℚ) (outcome : String) :
    (if outcome = "Win" ∧ pips > 20 then s + 2 else if outcome = "Win" then s + 1
      else if outcome = "Loss" ∧ |pips| > 30 then s - 1 else s) =
      s + (outcomePoints outcome pips : ℚ) := by
  unfold outcomePoints; split_ifs <;> push_cast <;> ring

theorem stopLoss_block (s entryPrice stopLoss : ℚ) :
    (if |entryPrice - stopLoss| > 0 ∧ stopLoss ≠ entryPrice then s + 1 else s) =
      s + (stopLossPoints entryPrice stopLoss : ℚ) := by
  unfold stopLossPoints; split_ifs <;> push_cast <;> ring

theorem emotion_block (s : ℚ) (trade : Trade) :
    (if hasNegativeEmotions trade then s - 2 else s) = s + (emotionPoints trade : ℚ) := by
  unfold emotionPoints; split_ifs <;> push_cast <;> ring

theorem calculateExecutionScore_eq (trade : Trade) :
    calculateExecutionScore trade = max 1 (min 10 (rawScore trade)) := by
  have h : ((5 : ℚ) + (rrPoints trade.rrRatio : ℚ) + (riskPoints trade.riskPercentage : ℚ) +
      (outcomePoints trade.outcome trade.pips : ℚ) +
      (stopLossPoints trade.entryPrice trade.stopLoss : ℚ) + (emotionPoints trade : ℚ)) =
      ((rawScore trade : Int) : ℚ) := by
    unfold rawScore; push_cast; ring
  simp only [calculateExecutionScore, rr_block, risk_block, outcome_block, stopLoss_block,
    emotion_block, h, mathRound_intCast]

theorem rawScore_eq_claimedSum (trade : Trade) : rawScore trade = claimedSum trade := by
  have ha : rrPoints trade.rrRatio = claimedRR trade.rrRatio := by
    unfold rrPoints claimedRR
    split_ifs <;> first | rfl | (exfalso; linarith) | (exfalso; simp_all)
  have hb : riskPoints trade.riskPercentage = claimedRisk trade.riskPercentage := by
    unfold riskPoints claimedRisk
    split_ifs <;> first | rfl | (exfalso; linarith) | (exfalso; simp_all)
  have hd : stopLossPoints trade.entryPrice trade.stopLoss =
      claimedStopLoss trade.entryPrice trade.stopLoss := by
    unfold stopLossPoints claimedStopLoss
    by_cases h : trade.stopLoss = trade.entryPrice
    · simp [h]
    · have h2 : trade.entryPrice - trade.stopLoss ≠ 0 := fun h3 => h (by linarith)
      simp [h, h2]
  have he : emotionPoints trade = claimedEmotion trade := by
    unfold emotionPoints claimedEmotion
    rw [hasNegativeEmotions_eq]
    simp only [Bool.or_eq_true, or_assoc]
  unfold rawScore claimedSum
  rw [ha, hb, hd, he]
  rfl

theorem rrPoints_mono {r₁ r₂ : ℚ} (h : r₁ ≤ r₂) : rrPoints r₁ ≤ rrPoints r₂ := by
  unfold rrPoints
  split_ifs <;> first | decide | (exfalso; linarith)

/-! ## Lemmas on the rule tables -/

theorem fired_eq_nil_iff (rules : List (Bool × String)) :
    fired rules = [] ↔ ∀ r ∈ rules, r.1 = false := by
  simp [fired, List.filter_eq_nil_iff]

theorem mem_fired (rules : List (Bool × String)) (m : String) :
    m ∈ fired rules ↔ ∃ r ∈ rules, r.1 = true ∧ r.2 = m := by
  simp [fired, List.mem_filter, and_assoc]

theorem firstFired_of_all_false (rules : List (Bool × String)) (dflt : String)
    (h : ∀ r ∈ rules, r.1 = false) : firstFired rules dflt = dflt := by
  have hnone : rules.find? (fun r => r.1) = none := by
    rw [List.find?_eq_none]
    intro r hr
    simp [h r hr]
  simp [firstFired, hnone]

theorem firstFired_of_exists (rules : List (Bool × String)) (dflt : String)
    (h : ∃ r ∈ rules, r.1 = true) : ∃ r ∈ rules, firstFired rules dflt = r.2 := by
  cases hf : rules.find? (fun r => r.1) with
  | none =>
    rw [List.find?_eq_none] at hf
    obtain ⟨r, hr, h1⟩ := h
    exact absurd h1 (by simpa using hf r hr)
  | some r => exact ⟨r, List.mem_of_find?_eq_some hf, by simp [firstFired, hf]⟩

theorem identifyStrengths_eq (trade : Trade) :
    identifyStrengths trade =
      if fired (strengthRules trade) = [] then ["Trade logged for analysis"]
      else fired (strengthRules trade) := by
  unfold identifyStrengths
  rw [hasNegativeEmotions_eq]
  simp only [strengthRules, fired]
  by_cases h1 : trade.rrRatio ≥ 2 <;> by_cases h2 : trade.riskPercentage ≤ 1 <;>
  by_cases h3 : trade.outcome = "Win" ∧ trade.pips > 30 <;>
  by_cases h4 : (fieldHasNegativeWord trade.emotionsBefore ||
    fieldHasNegativeWord trade.emotionsDuring || fieldHasNegativeWord trade.emotionsAfter) = true <;>
  by_cases h5 : trade.stopLoss ≠ 0 ∧ trade.takeProfit ≠ 0 <;>
  by_cases h6 : (includes (toLowerCase (orEmpty trade.emotionsBefore)) "calm" ||
        includes (toLowerCase (orEmpty trade.emotionsBefore)) "confident") = true <;>
  simp [h1, h2, h3, h4, h5, h6, List.filter]

theorem identifyMistakes_eq (trade : Trade) :
    identifyMistakes trade = fired (computedMistakeRules trade) := by
  unfold identifyMistakes
  rw [notesImpulsive_eq]
  simp only [computedMistakeRules, fired]
  by_cases h1 : trade.rrRatio < 1 <;> by_cases h2 : trade.riskPercentage > 2 <;>
  by_cases h3o : trade.outcome = "Loss" <;>
  by_cases h3 : hasRevengeEmotions trade = true <;>
  by_cases h4 : hasFOMOIndicators trade = true <;>
  by_cases h5 : (includes (toLowerCase (orEmpty trade.emotionsDuring)) "panic" ||
        includes (toLowerCase (orEmpty trade.emotionsDuring)) "fear") = true <;>
  by_cases h6 : |fl trade.pips| > fmul trade.rrRatio 20 <;>
  by_cases h7 : includes (toLowerCase (orEmpty trade.notes)) "impulsive" = true <;>
  simp [h1, h2, h3o, h3, h4, h5, h6, h7, List.filter]

theorem generateSuggestion_eq (trade : Trade) :
    generateSuggestion trade = firstFired (suggestionRules trade) journalingMessage := by
  unfold generateSuggestion
  simp only [suggestionRules, firstFired, capitalPreservationMessage, minimumRatioMessage,
    journalingMessage]
  by_cases h1 : trade.riskPercentage > 3 <;> by_cases h2 : trade.rrRatio < 1 <;>
  by_cases h3 : hasRevengeEmotions trade = true <;>
  by_cases h4 : hasFOMOIndicators trade = true <;>
  by_cases h5 : trade.outcome = "Loss" ∧ identifyMistakes trade ≠ [] <;>
  by_cases h6 : trade.outcome = "Win" ∧ trade.rrRatio ≥ 2 <;>
  simp [h1, h2, h3, h4, h5, h6, List.find?, List.length_pos]

/-! ## Lemmas on the orchestration -/

theorem filterE_sameDay_ok (trade : Trade) (hd : trade.date.isDate = true) :
    ∀ l : List Trade, (∀ u ∈ l, u.date.isDate = true) →
      ∃ r, filterE (sameDay trade) l = Except.ok r := by
  intro l
  induction l with
  | nil => intro _; exact ⟨[], rfl⟩
  | cons u l ih =>
    intro h
    obtain ⟨r, hr⟩ := ih (fun v hv => h v (List.mem_cons_of_mem _ hv))
    have hu := h u (List.mem_cons_self _ _)
    obtain ⟨b, hb⟩ : ∃ b, sameDay trade u = Except.ok b := by
      unfold sameDay
      cases hdu : u.date with
      | text s => simp [hdu, JsDate.isDate] at hu
      | date m =>
        cases hdt : trade.date with
        | text s => simp [hdt, JsDate.isDate] at hd
        | date n => exact ⟨_, rfl⟩
    exact ⟨if b then u :: r else r, by simp [filterE, hb, hr]⟩

theorem detectPatterns_ok (trade : Trade) (userTrades : List Trade)
    (hd : trade.date.isDate = true) (hh : ∀ u ∈ userTrades.take 5, u.date.isDate = true) :
    ∃ p, detectPatterns trade userTrades = Except.ok p := by
  obtain ⟨r, hr⟩ := filterE_sameDay_ok trade hd (userTrades.take 5) hh
  unfold detectPatterns
  by_cases hlen : userTrades.length ≥ 3
  · simp only [hlen, if_true, hr, bind, Except.bind, pure, Except.pure]
    exact ⟨_, rfl⟩
  · simp only [hlen, if_false, pure, Except.pure]
    exact ⟨_, rfl⟩

theorem analyzeTrade_eq (trade : Trade) (userTrades : List Trade) (now : Int) :
    analyzeTrade trade userTrades now =
      (detectPatterns trade userTrades).map fun patterns =>
        { executionScore := calculateExecutionScore trade,
          strengths := identifyStrengths trade,
          mistakes := identifyMistakes trade,
          suggestion := generateSuggestion trade,
          patterns := patterns,
          riskAssessment := assessRisk trade,
          emotionalState := analyzeEmotions trade,
          analyzedAt := now } := by
  unfold analyzeTrade
  cases detectPatterns trade userTrades <;> rfl

/-! ## Theorems on the single-trade analyzer -/

/-- C1: for every trade record, `calculateExecutionScore` returns an integer
between 1 and 10 inclusive. -/
theorem calculateExecutionScore_bounds (trade : Trade) :
    1 ≤ calculateExecutionScore trade ∧ calculateExecutionScore trade ≤ 10 := by
  rw [calculateExecutionScore_eq]
  exact ⟨le_max_left _ _, max_le (by decide) (min_le_left _ _)⟩

/-- C2: for every trade, `identifyStrengths` returns a non-empty list. -/
theorem identifyStrengths_ne_nil (trade : Trade) : identifyStrengths trade ≠ [] := by
  rw [identifyStrengths_eq]
  split_ifs with h
  · simp
  · exact h

/-- C3: for every trade, `calculateExecutionScore` equals
`clamp(1, 10, 5 + a + b + c + d + e)` with the five components as the
specification words them; the worked example (R:R 3.0, risk 1.0 %, win of 30
pips, entry 1.1000, stop 1.0950, no emotion text) has raw sum 11 and score 10. -/
theorem calculateExecutionScore_eq_claimedScore :
    (∀ trade : Trade, calculateExecutionScore trade = claimedScore trade) ∧
      claimedSum exampleWin = 11 ∧ calculateExecutionScore exampleWin = 10 := by
  have hall : ∀ trade : Trade, calculateExecutionScore trade = claimedScore trade := by
    intro trade
    rw [calculateExecutionScore_eq, rawScore_eq_claimedSum]
    rfl
  have hneg : hasNegativeEmotions exampleWin = false := by decide
  have hsum : claimedSum exampleWin = 11 := by
    rw [← rawScore_eq_claimedSum]
    have h1 : rrPoints exampleWin.rrRatio = 2 := by norm_num [rrPoints, exampleWin]
    have h2 : riskPoints exampleWin.riskPercentage = 1 := by norm_num [riskPoints, exampleWin]
    have h3 : outcomePoints exampleWin.outcome exampleWin.pips = 2 := by
      norm_num [outcomePoints, exampleWin]
    have h4 : stopLossPoints exampleWin.entryPrice exampleWin.stopLoss = 1 := by
      norm_num [stopLossPoints, exampleWin]
    have h5 : emotionPoints exampleWin = 0 := by simp [emotionPoints, hneg]
    rw [rawScore, h1, h2, h3, h4, h5]
    rfl
  refine ⟨hall, hsum, ?_⟩
  rw [hall, claimedScore, hsum]
  decide

/-- C4: the execution score is monotone in `rrRatio`: with all other fields
held fixed, a larger ratio never gives a smaller score. -/
theorem calculateExecutionScore_mono_rrRatio (t : Trade) (r₁ r₂ : ℚ) (h : r₁ ≤ r₂) :
    calculateExecutionScore (withRR t r₁) ≤ calculateExecutionScore (withRR t r₂) := by
  rw [calculateExecutionScore_eq, calculateExecutionScore_eq]
  have hraw : rawScore (withRR t r₁) ≤ rawScore (withRR t r₂) := by
    have h1 : emotionPoints (withRR t r₁) = emotionPoints (withRR t r₂) := rfl
    unfold rawScore
    simp only [withRR, h1] at *
    have := rrPoints_mono h
    linarith
  exact max_le_max (le_refl _) (min_le_min (le_refl _) hraw)

/-- Witness for C4: raising the ratio of the worked example from 0.5 to 3.5. -/
theorem calculateExecutionScore_mono_rrRatio_witness :
    (1 / 2 : ℚ) ≤ 7 / 2 ∧
      calculateExecutionScore (withRR exampleWin (1 / 2)) ≤
        calculateExecutionScore (withRR exampleWin (7 / 2)) :=
  ⟨by norm_num, calculateExecutionScore_mono_rrRatio exampleWin (1 / 2) (7 / 2) (by norm_num)⟩

/-- C5: every trade with `riskPercentage > 3` receives the capital-preservation
suggestion, whatever its other fields, and not the R:R (minimum-ratio) one. -/
theorem generateSuggestion_highRisk (trade : Trade) (h : trade.riskPercentage > 3) :
    generateSuggestion trade =
        "Focus on reducing position size to 1-2% risk per trade. This is critical for capital preservation." ∧
      generateSuggestion trade ≠ minimumRatioMessage := by
  have h1 : generateSuggestion trade = capitalPreservationMessage := by
    unfold generateSuggestion
    simp only [h, if_true]
    rfl
  refine ⟨h1, ?_⟩
  rw [h1]
  decide

/-- Witness for C5: the two examples of the specification, risk 5 % with R:R
0.5, and risk 4 % with R:R 0.8 on a loss of 40 pips. -/
theorem generateSuggestion_highRisk_witness :
    (exampleHighRisk.riskPercentage > 3 ∧ exampleHighRisk.rrRatio < 1 ∧
      generateSuggestion exampleHighRisk = capitalPreservationMessage ∧
      generateSuggestion exampleHighRisk ≠ minimumRatioMessage) ∧
    (exampleLoss.riskPercentage > 3 ∧ exampleLoss.rrRatio < 1 ∧
      generateSuggestion exampleLoss = capitalPreservationMessage ∧
      generateSuggestion exampleLoss ≠ minimumRatioMessage) := by
  have h5 : exampleHighRisk.riskPercentage > 3 := by norm_num [exampleHighRisk]
  have h4 : exampleLoss.riskPercentage > 3 := by norm_num [exampleLoss]
  exact ⟨⟨h5, by norm_num [exampleHighRisk], generateSuggestion_highRisk exampleHighRisk h5⟩,
    ⟨h4, by norm_num [exampleLoss], generateSuggestion_highRisk exampleLoss h4⟩⟩

/-- C6: for every trade, `generateSuggestion` returns the message of the first
condition that holds in the fixed order (1) risk above 3 %, (2) R:R below 1,
(3) revenge-emotion rule, (4) FOMO-indicator rule, (5) a loss with a non-empty
`identifyMistakes`, (6) a win with R:R at least 2; and it returns the generic
journaling encouragement exactly when none of the six holds. -/
theorem generateSuggestion_priority (trade : Trade) :
    generateSuggestion trade = firstFired (suggestionRules trade) journalingMessage ∧
      (generateSuggestion trade = journalingMessage ↔
        ∀ r ∈ suggestionRules trade, r.1 = false) := by
  refine ⟨generateSuggestion_eq trade, ?_⟩
  rw [generateSuggestion_eq]
  constructor
  · intro heq r hr
    by_contra hne
    have hr1 : r.1 = true := by simpa using hne
    obtain ⟨r', hr', h'⟩ := firstFired_of_exists (suggestionRules trade) journalingMessage
      ⟨r, hr, hr1⟩
    rw [heq] at h'
    have hall : ∀ q ∈ suggestionRules trade, q.2 ≠ journalingMessage := by
      simp only [suggestionRules, List.mem_cons, List.mem_singleton, List.not_mem_nil, or_false]
      rintro q (h | h | h | h | h | h) <;> subst h <;> dsimp only <;> decide
    exact hall r' hr' h'.symm
  · exact firstFired_of_all_false _ _

/-- Witness for C6: a break-even trade at 2 % risk and R:R 1 with no revenge or
FOMO text meets none of the six conditions and gets the journaling message. -/
theorem generateSuggestion_priority_witness :
    (∀ r ∈ suggestionRules exampleQuiet, r.1 = false) ∧
      generateSuggestion exampleQuiet = journalingMessage :=
  ⟨by decide, (generateSuggestion_priority exampleQuiet).2.mpr (by decide)⟩

/-- C7: determinism of the single-trade analyzer. Every field of the feedback
other than `analyzedAt` is a function of the trade and the history only (the
first conjunct gives the function); hence two invocations on the same inputs,
at any two clock values, agree once `analyzedAt` is set aside, whether they
return a feedback object or raise; and the call does return a feedback object
whenever the dates involved are `Date` objects. -/
theorem analyzeTrade_deterministic (trade : Trade) (userTrades : List Trade)
    (now₁ now₂ : Int) :
    (analyzeTrade trade userTrades now₁ =
      (detectPatterns trade userTrades).map fun patterns =>
        { executionScore := calculateExecutionScore trade,
          strengths := identifyStrengths trade,
          mistakes := identifyMistakes trade,
          suggestion := generateSuggestion trade,
          patterns := patterns,
          riskAssessment := assessRisk trade,
          emotionalState := analyzeEmotions trade,
          analyzedAt := now₁ }) ∧
    (analyzeTrade trade userTrades now₁).map eraseAnalyzedAt =
      (analyzeTrade trade userTrades now₂).map eraseAnalyzedAt ∧
    (∀ f₁ f₂, analyzeTrade trade userTrades now₁ = Except.ok f₁ →
      analyzeTrade trade userTrades now₂ = Except.ok f₂ →
      f₁.executionScore = f₂.executionScore ∧ f₁.strengths = f₂.strengths ∧
        f₁.mistakes = f₂.mistakes ∧ f₁.suggestion = f₂.suggestion ∧
        f₁.patterns = f₂.patterns ∧ f₁.riskAssessment = f₂.riskAssessment ∧
        f₁.emotionalState = f₂.emotionalState) ∧
    (trade.date.isDate = true → (∀ u ∈ userTrades.take 5, u.date.isDate = true) →
      ∃ f, analyzeTrade trade userTrades now₁ = Except.ok f) := by
  refine ⟨analyzeTrade_eq _ _ _, ?_, ?_, ?_⟩
  · rw [analyzeTrade_eq, analyzeTrade_eq]
    cases detectPatterns trade userTrades <;> rfl
  · intro f₁ f₂ h₁ h₂
    rw [analyzeTrade_eq] at h₁ h₂
    cases hp : detectPatterns trade userTrades with
    | error e => simp [hp, Except.map] at h₁
    | ok p =>
      simp only [hp, Except.map, Except.ok.injEq] at h₁ h₂
      subst h₁ h₂
      simp
  · intro hd hh
    obtain ⟨p, hp⟩ := detectPatterns_ok trade userTrades hd hh
    rw [analyzeTrade_eq, hp]
    exact ⟨_, rfl⟩

/-- Witness for C7: the worked example analysed against a history of three
trades, at clock values 1 and 2. -/
theorem analyzeTrade_deterministic_witness :
    ∃ f₁ f₂, analyzeTrade exampleWin [exampleLoss, exampleWin, exampleLoss] 1 = Except.ok f₁ ∧
      analyzeTrade exampleWin [exampleLoss, exampleWin, exampleLoss] 2 = Except.ok f₂ ∧
      f₁.executionScore = f₂.executionScore ∧ f₁.strengths = f₂.strengths ∧
        f₁.mistakes = f₂.mistakes ∧ f₁.suggestion = f₂.suggestion ∧
        f₁.patterns = f₂.patterns ∧ f₁.riskAssessment = f₂.riskAssessment ∧
        f₁.emotionalState = f₂.emotionalState := by
  have hd : exampleWin.date.isDate = true := rfl
  have hh : ∀ u ∈ [exampleLoss, exampleWin, exampleLoss].take 5, u.date.isDate = true := by
    intro u hu
    simp only [List.take, List.mem_cons, List.mem_singleton, List.not_mem_nil, or_false] at hu
    rcases hu with h | h | h <;> subst h <;> rfl
  obtain ⟨f₁, h₁⟩ :=
    (analyzeTrade_deterministic exampleWin [exampleLoss, exampleWin, exampleLoss] 1 2).2.2.2 hd hh
  obtain ⟨f₂, h₂⟩ :=
    (analyzeTrade_deterministic exampleWin [exampleLoss, exampleWin, exampleLoss] 2 1).2.2.2 hd hh
  exact ⟨f₁, f₂, h₁, h₂,
    (analyzeTrade_deterministic exampleWin [exampleLoss, exampleWin, exampleLoss] 1 2).2.2.1
      f₁ f₂ h₁ h₂⟩

/-- C8, as stated, fails: the sixth condition is not `|pips| > rrRatio * 20` on
the numbers of the trade, the product being computed in doubles. A loss of
22.6 pips at R:R 1.13 meets none of the seven conditions as stated (22.6 is
not above 1.13 * 20 = 22.6), yet `identifyMistakes` returns the stop-loss
message: the computed product is `22.599999999999998`, below the double read
for 22.6. Conversely, for the doubles `1 + 3 * 2^(-52)` and `20 + 2^(-46)` the
loss exceeds the exact product, so that the sixth condition as stated holds,
yet `identifyMistakes` returns no message: the product rounds up to the
loss. -/
theorem identifyMistakes_exactProduct_counterexample :
    (¬ (|exampleTightStop.pips| > exampleTightStop.rrRatio * 20) ∧
      fired (mistakeRules exampleTightStop) = [] ∧
      fmul exampleTightStop.rrRatio 20 = 6361334473660825 / 281474976710656 ∧
      |fl exampleTightStop.pips| = 3180667236830413 / 140737488355328 ∧
      identifyMistakes exampleTightStop =
        ["Stop loss may have been too wide or not honored"]) ∧
    (|exampleRoundedUp.pips| > exampleRoundedUp.rrRatio * 20 ∧
      fl exampleRoundedUp.rrRatio = exampleRoundedUp.rrRatio ∧
      fl exampleRoundedUp.pips = exampleRoundedUp.pips ∧
      fired (mistakeRules exampleRoundedUp) =
        ["Stop loss may have been too wide or not honored"] ∧
      fmul exampleRoundedUp.rrRatio 20 = |exampleRoundedUp.pips| ∧
      identifyMistakes exampleRoundedUp = []) := by
  have h1 : fl (113 / 100) = 1272266894732165 / 1125899906842624 := by
    apply fl_eq_of_cert _ _ 0 5089067578928660 <;> norm_num [abs_lt]
  have h2 : fl (20 : ℚ) = 20 := by apply fl_eq_self_of _ 20 0 <;> norm_num
  have h3 : fmul (113 / 100) 20 = 6361334473660825 / 281474976710656 := by
    rw [fmul, h1, h2]
    apply fl_eq_of_cert _ _ 4 6361334473660825 <;> norm_num [abs_lt]
  have h4 : fl (-226 / 10) = -(3180667236830413 / 140737488355328) := by
    have : (-226 / 10 : ℚ) = -(226 / 10) := by norm_num
    rw [this, fl_neg]
    congr 1
    apply fl_eq_of_cert _ _ 4 6361334473660826 <;> norm_num [abs_lt]
  have h5 : |fl (-226 / 10 : ℚ)| = 3180667236830413 / 140737488355328 := by
    rw [h4, abs_neg, abs_of_pos (by norm_num)]
  have h6 : ¬ (|(-226 / 10 : ℚ)| > 113 / 100 * 20) := by
    rw [abs_of_neg (by norm_num)]
    norm_num
  -- the second trade
  have g1 : fl (4503599627370499 / 4503599627370496 : ℚ) =
      4503599627370499 / 4503599627370496 := by
    apply fl_eq_self_of _ 4503599627370499 (-52) <;> norm_num
  have g2 : fl (-(1407374883553281 / 70368744177664) : ℚ) =
      -(1407374883553281 / 70368744177664) := by
    rw [fl_neg]
    congr 1
    apply fl_eq_self_of _ 1407374883553281 (-46) <;> norm_num
  have g3 : fmul (4503599627370499 / 4503599627370496) 20 =
      1407374883553281 / 70368744177664 := by
    rw [fmul, g1, h2]
    apply fl_eq_of_cert _ _ 4 5629499534213124 <;> norm_num [abs_lt]
  have g4 : |(-(1407374883553281 / 70368744177664) : ℚ)| =
      1407374883553281 / 70368744177664 := by
    rw [abs_neg, abs_of_pos (by norm_num)]
  have g5 : |(-(1407374883553281 / 70368744177664) : ℚ)| >
      4503599627370499 / 4503599627370496 * 20 := by
    rw [g4]
    norm_num
  have hr : hasRevengeEmotions exampleTightStop = false := by decide
  have hf : hasFOMOIndicators exampleTightStop = false := by
    simp only [hasFOMOIndicators, exampleTightStop]
    have : ¬ ((1 : ℚ) > 2) := by norm_num
    simp only [this, decide_False, Bool.false_and, Bool.or_false]
    decide
  have hr' : hasRevengeEmotions exampleRoundedUp = false := by decide
  have hf' : hasFOMOIndicators exampleRoundedUp = false := by
    simp only [hasFOMOIndicators, exampleRoundedUp]
    have : ¬ ((1 : ℚ) > 2) := by norm_num
    simp only [this, decide_False, Bool.false_and, Bool.or_false]
    decide
  have e2 : ¬ ((1 : ℚ) > 2) := by norm_num
  refine ⟨⟨h6, ?_, h3, h5, ?_⟩, ⟨g5, g1, g2, ?_, g3.trans g4.symm, ?_⟩⟩
  · simp only [mistakeRules, fired, hr, hf]
    simp only [exampleTightStop, h6]
    have e1 : ¬ ((113 / 100 : ℚ) < 1) := by norm_num
    simp [e1, e2, orEmpty, toLowerCase, includes, includesChars]
  · rw [identifyMistakes_eq]
    simp only [computedMistakeRules, fired, hr, hf]
    simp only [exampleTightStop, h3, h5]
    have e1 : ¬ ((113 / 100 : ℚ) < 1) := by norm_num
    have e3 : (3180667236830413 / 140737488355328 : ℚ) >
        6361334473660825 / 281474976710656 := by norm_num
    simp [e1, e2, e3, orEmpty, toLowerCase, includes, includesChars]
  · simp only [mistakeRules, fired, hr', hf']
    simp only [exampleRoundedUp, g5]
    have e1 : ¬ ((4503599627370499 / 4503599627370496 : ℚ) < 1) := by norm_num
    simp [e1, e2, orEmpty, toLowerCase, includes, includesChars]
  · rw [identifyMistakes_eq]
    simp only [computedMistakeRules, fired, hr', hf']
    simp only [exampleRoundedUp, g2, g3, g4]
    have e1 : ¬ ((4503599627370499 / 4503599627370496 : ℚ) < 1) := by norm_num
    have e3 : ¬ ((1407374883553281 / 70368744177664 : ℚ) >
        1407374883553281 / 70368744177664) := lt_irrefl _
    simp [e1, e2, e3, orEmpty, toLowerCase, includes, includesChars]

/-- C8, amended: for every trade, `identifyMistakes` returns exactly the
messages, in order, of those of the seven rules whose condition holds, the
sixth condition being that the outcome is a loss and `|pips|` exceeds the
product `rrRatio * 20` as computed in double arithmetic (text tests are made
on the lower-cased field); in particular a trade with `rrRatio < 1` and
`riskPercentage > 2` has both the R:R-below-1 message and the
high-risk-percentage message among its mistakes. -/
theorem identifyMistakes_computed (trade : Trade) :
    identifyMistakes trade = fired (computedMistakeRules trade) ∧
      (trade.rrRatio < 1 → trade.riskPercentage > 2 →
        "Risk-to-reward ratio below 1:1 - risking more than potential gain" ∈
            identifyMistakes trade ∧
          highRiskMessage trade.riskPercentage ∈ identifyMistakes trade) := by
  refine ⟨identifyMistakes_eq trade, ?_⟩
  intro h1 h2
  rw [identifyMistakes_eq]
  constructor
  · rw [mem_fired]
    exact ⟨_, List.mem_cons_self _ _, by simpa using h1, rfl⟩
  · rw [mem_fired]
    exact ⟨(decide (trade.riskPercentage > 2), highRiskMessage trade.riskPercentage),
      by simp [computedMistakeRules], by simpa using h2, rfl⟩

/-- Witness for C8: the example of the specification, risk 4 %, R:R 0.8, a loss
of 40 pips. -/
theorem identifyMistakes_computed_witness :
    exampleLoss.rrRatio < 1 ∧ exampleLoss.riskPercentage > 2 ∧
      "Risk-to-reward ratio below 1:1 - risking more than potential gain" ∈
        identifyMistakes exampleLoss ∧
      highRiskMessage exampleLoss.riskPercentage ∈ identifyMistakes exampleLoss ∧
      highRiskMessage 4 = "High risk percentage (4%) - exceeds recommended 1-2%" := by
  have h1 : exampleLoss.rrRatio < 1 := by norm_num [exampleLoss]
  have h2 : exampleLoss.riskPercentage > 2 := by norm_num [exampleLoss]
  have h := (identifyMistakes_computed exampleLoss).2 h1 h2
  exact ⟨h1, h2, h.1, h.2, by decide⟩

/-- C9: for every trade, `identifyStrengths` returns exactly the findings, in
order, of those of the six rules whose condition holds, and the single
fallback `Trade logged for analysis` if and only if none of the six holds. -/
theorem identifyStrengths_spec (trade : Trade) :
    (identifyStrengths trade =
        if fired (strengthRules trade) = [] then ["Trade logged for analysis"]
        else fired (strengthRules trade)) ∧
      (identifyStrengths trade = ["Trade logged for analysis"] ↔
        ∀ r ∈ strengthRules trade, r.1 = false) := by
  refine ⟨identifyStrengths_eq trade, ?_⟩
  rw [identifyStrengths_eq, ← fired_eq_nil_iff]
  constructor
  · intro heq
    by_contra hne
    rw [if_neg hne] at heq
    have hmem : "Trade logged for analysis" ∈ fired (strengthRules trade) := by simp [heq]
    rw [mem_fired] at hmem
    obtain ⟨r, hr, -, h2⟩ := hmem
    have hall : ∀ q ∈ strengthRules trade, q.2 ≠ "Trade logged for analysis" := by
      simp only [strengthRules, List.mem_cons, List.mem_singleton, List.not_mem_nil, or_false]
      rintro q (h | h | h | h | h | h) <;> subst h <;> dsimp only <;> decide
    exact hall r hr h2
  · intro h
    rw [if_pos h]

/-- Witness for C9: a break-even trade at 2 % risk and R:R 1, anxious during the
trade and with no stop or target level, meets none of the six conditions and
gets the fallback alone. -/
theorem identifyStrengths_spec_witness :
    (∀ r ∈ strengthRules exampleQuiet, r.1 = false) ∧
      identifyStrengths exampleQuiet = ["Trade logged for analysis"] :=
  ⟨by decide, (identifyStrengths_spec exampleQuiet).2.mpr (by decide)⟩

/-- C10: for every trade, `analyzeEmotions` returns one of the seven tags,
chosen by the first matching tier over the lower-cased concatenation of the
three emotion fields (missing fields read as empty): `revenge`/`angry` give
revenge; else `fomo`/`missing out` give greedy; else `fear`/`panic` give
fearful; else `impulsive`/`rushed` give impulsive; with no keyword of any tier
the result is mixed. Consequently, when a keyword of the first four tiers
occurs the result is neither confident nor calm. -/
theorem analyzeEmotions_spec (trade : Trade) :
    allEmotions trade =
        toLowerCase (orEmpty trade.emotionsBefore ++ " " ++ orEmpty trade.emotionsDuring ++
          " " ++ orEmpty trade.emotionsAfter) ∧
      analyzeEmotions trade ∈ emotionTags ∧
      (mentions trade "revenge" = true ∨ mentions trade "angry" = true →
        analyzeEmotions trade = "revenge") ∧
      (mentions trade "revenge" = false → mentions trade "angry" = false →
        mentions trade "fomo" = true ∨ mentions trade "missing out" = true →
        analyzeEmotions trade = "greedy") ∧
      (mentions trade "revenge" = false → mentions trade "angry" = false →
        mentions trade "fomo" = false → mentions trade "missing out" = false →
        mentions trade "fear" = true ∨ mentions trade "panic" = true →
        analyzeEmotions trade = "fearful") ∧
      (mentions trade "revenge" = false → mentions trade "angry" = false →
        mentions trade "fomo" = false → mentions trade "missing out" = false →
        mentions trade "fear" = false → mentions trade "panic" = false →
        mentions trade "impulsive" = true ∨ mentions trade "rushed" = true →
        analyzeEmotions trade = "impulsive") ∧
      ((∀ w ∈ ["revenge", "angry", "fomo", "missing out", "fear", "panic", "impulsive",
          "rushed", "confident", "calm", "patient"], mentions trade w = false) →
        analyzeEmotions trade = "mixed") ∧
      ((∃ w ∈ ["revenge", "angry", "fomo", "missing out", "fear", "panic", "impulsive",
          "rushed"], mentions trade w = true) →
        analyzeEmotions trade ≠ "confident" ∧ analyzeEmotions trade ≠ "calm") := by
  refine ⟨allEmotions_eq trade, ?_, ?_, ?_, ?_, ?_, ?_, ?_⟩
  · simp only [analyzeEmotions, emotionTags]
    split_ifs <;> decide
  · intro h
    unfold mentions at h
    unfold analyzeEmotions
    simp [h]
  · intro h1 h2 h
    unfold mentions at h1 h2 h
    unfold analyzeEmotions
    simp [h1, h2, h]
  · intro h1 h2 h3 h4 h
    unfold mentions at h1 h2 h3 h4 h
    unfold analyzeEmotions
    simp [h1, h2, h3, h4, h]
  · intro h1 h2 h3 h4 h5 h6 h
    unfold mentions at h1 h2 h3 h4 h5 h6 h
    unfold analyzeEmotions
    simp [h1, h2, h3, h4, h5, h6, h]
  · intro h
    simp only [List.mem_cons, List.mem_singleton, List.not_mem_nil, or_false, forall_eq_or_imp,
      forall_eq, mentions] at h
    obtain ⟨h1, h2, h3, h4, h5, h6, h7, h8, h9, h10, h11⟩ := h
    unfold analyzeEmotions
    simp [h1, h2, h3, h4, h5, h6, h7, h8, h9, h10, h11]
  · intro h
    simp only [List.mem_cons, List.mem_singleton, List.not_mem_nil, or_false, exists_eq_or_imp,
      exists_eq_left, mentions] at h
    simp only [analyzeEmotions]
    split_ifs <;> first | (constructor <;> decide) | (exfalso; simp_all)

/-- Witness for C10: one concrete trade per clause, among them a trade calm and
confident before the trade that mentions FOMO afterwards. -/
theorem analyzeEmotions_spec_witness :
    (mentions (feeling (some "Angry at the market") none none) "angry" = true ∧
      analyzeEmotions (feeling (some "Angry at the market") none none) = "revenge") ∧
    (mentions (feeling (some "calm and confident") none (some "FOMO kicked in")) "fomo" = true ∧
      analyzeEmotions (feeling (some "calm and confident") none (some "FOMO kicked in")) =
        "greedy" ∧
      analyzeEmotions (feeling (some "calm and confident") none (some "FOMO kicked in")) ≠
        "confident" ∧
      analyzeEmotions (feeling (some "calm and confident") none (some "FOMO kicked in")) ≠
        "calm") ∧
    (mentions (feeling none (some "Panic") none) "panic" = true ∧
      analyzeEmotions (feeling none (some "Panic") none) = "fearful") ∧
    (mentions (feeling none none (some "felt rushed")) "rushed" = true ∧
      analyzeEmotions (feeling none none (some "felt rushed")) = "impulsive") ∧
    analyzeEmotions (feeling none (some "neutral") none) = "mixed" := by
  refine ⟨⟨by decide, ?_⟩, ⟨by decide, ?_, ?_⟩, ⟨by decide, ?_⟩, ⟨by decide, ?_⟩, ?_⟩
  · exact (analyzeEmotions_spec _).2.2.1 (Or.inr (by decide))
  · exact (analyzeEmotions_spec _).2.2.2.1 (by decide) (by decide) (Or.inl (by decide))
  · exact (analyzeEmotions_spec _).2.2.2.2.2.2.2 ⟨"fomo", by decide, by decide⟩
  · exact (analyzeEmotions_spec _).2.2.2.2.1 (by decide) (by decide) (by decide) (by decide)
      (Or.inr (by decide))
  · exact (analyzeEmotions_spec _).2.2.2.2.2.1 (by decide) (by decide) (by decide) (by decide)
      (by decide) (by decide) (Or.inr (by decide))
  · exact (analyzeEmotions_spec _).2.2.2.2.2.2.1 (by decide)

/-! ## Lemmas on substrings -/

theorem includesChars_iff_isInfix (w s : List Char) :
    includesChars w s = true ↔ w <:+: s := by
  induction s with
  | nil => simp [includesChars, List.isPrefixOf_iff_prefix]
  | cons c cs ih =>
    simp only [includesChars, Bool.or_eq_true, ih, List.isPrefixOf_iff_prefix,
      List.infix_cons_iff]

theorem includes_of_includes (s w v : String) (hv : includes w v = true)
    (hw : includes s w = true) : includes s v = true := by
  unfold includes at *
  rw [includesChars_iff_isInfix] at *
  exact List.IsInfix.trans hv hw

/-! ## Theorems on the emotion classifier -/

/-- C11, as stated, fails: the text `Confident after recovering from last
week` contains `confident`, does not contain `over-confident` and contains no
higher-priority keyword, yet the result is `mixed`, not `confident`. -/
theorem analyzeEmotions_confident_counterexample :
    mentions exampleRecovering "confident" = true ∧
      mentions exampleRecovering "over-confident" = false ∧
      (∀ w ∈ higherPriorityWords, mentions exampleRecovering w = false) ∧
      analyzeEmotions exampleRecovering = "mixed" ∧
      analyzeEmotions exampleRecovering ≠ "confident" := by
  decide

/-- C11, amended: for every trade whose lower-cased emotion text contains
`confident`, does not contain `over` anywhere, and contains none of the
higher-priority keywords, `analyzeEmotions` returns `confident`; the tag is
suppressed whenever `over` occurs in the text, in particular whenever
`over-confident` does. -/
theorem analyzeEmotions_confident (trade : Trade) :
    (mentions trade "confident" = true → mentions trade "over" = false →
      (∀ w ∈ higherPriorityWords, mentions trade w = false) →
      analyzeEmotions trade = "confident") ∧
    (mentions trade "over" = true → analyzeEmotions trade ≠ "confident") ∧
    (mentions trade "over-confident" = true → mentions trade "over" = true) := by
  refine ⟨?_, ?_, ?_⟩
  · intro hc ho hw
    simp only [higherPriorityWords, List.mem_cons, List.mem_singleton, List.not_mem_nil,
      or_false, forall_eq_or_imp, forall_eq, mentions] at hw hc ho
    obtain ⟨h1, h2, h3, h4, h5, h6, h7, h8⟩ := hw
    simp [analyzeEmotions, h1, h2, h3, h4, h5, h6, h7, h8, hc, ho]
  · intro ho
    simp only [mentions] at ho
    simp only [analyzeEmotions, ho]
    split_ifs <;> first | decide | (exfalso; simp_all)
  · intro h
    exact includes_of_includes _ "over-confident" "over" (by decide) h

/-- Witness for C11 amended: a plainly confident text gives `confident`, and
the over-confident and the recovering texts do not. -/
theorem analyzeEmotions_confident_witness :
    (mentions (feeling (some "Confident in the setup") none none) "confident" = true ∧
      analyzeEmotions (feeling (some "Confident in the setup") none none) = "confident") ∧
    (mentions (feeling (some "Over-confident") none none) "over" = true ∧
      analyzeEmotions (feeling (some "Over-confident") none none) ≠ "confident") ∧
    analyzeEmotions exampleRecovering ≠ "confident" :=
  ⟨⟨by decide, (analyzeEmotions_confident _).1 (by decide) (by decide) (by decide)⟩,
    ⟨by decide, (analyzeEmotions_confident _).2.1
      ((analyzeEmotions_confident _).2.2 (by decide))⟩,
    (analyzeEmotions_confident exampleRecovering).2.1 (by decide)⟩

/-! ## Lemmas on the pattern detector -/

theorem perTrade_shape (p1 : Prop) [Decidable p1] (b2 b3 b4 : Bool) :
    (let patterns : List String := []
     let patterns := if p1 then patterns ++ ["good_discipline"] else patterns
     let patterns := if b2 = true then patterns ++ ["revenge_trading"] else patterns
     let patterns := if b3 = true then patterns ++ ["FOMO"] else patterns
     let patterns := if b4 = true then patterns ++ ["emotional_trading"] else patterns
     patterns) =
    fired [(decide p1, "good_discipline"), (b2, "revenge_trading"), (b3, "FOMO"),
      (b4, "emotional_trading")] := by
  by_cases h1 : p1 <;> cases b2 <;> cases b3 <;> cases b4 <;> simp [fired, h1]

theorem history_shape (base : List String) (p5 p6 p7 : Prop) [Decidable p5] [Decidable p6]
    [Decidable p7] :
    (let patterns := base
     let patterns := if p5 then patterns ++ ["over_trading"] else patterns
     let patterns := if p6 then patterns ++ ["early_exit"] else patterns
     let patterns := if p7 then patterns ++ ["late_entry"] else patterns
     patterns) =
    base ++ fired [(decide p5, "over_trading"), (decide p6, "early_exit"),
      (decide p7, "late_entry")] := by
  by_cases h5 : p5 <;> by_cases h6 : p6 <;> by_cases h7 : p7 <;> simp [fired, h5, h6, h7]

theorem detectPatterns_eq (trade : Trade) (userTrades : List Trade) :
    detectPatterns trade userTrades =
      (historicalTags trade userTrades).map fun tags => fired (patternRules trade) ++ tags := by
  have hper := perTrade_shape (trade.riskPercentage ≤ 1 ∧ trade.rrRatio ≥ 2)
    (hasRevengeEmotions trade) (hasFOMOIndicators trade) (hasNegativeEmotions trade)
  unfold detectPatterns historicalTags
  by_cases hlen : userTrades.length ≥ 3
  · simp only [hlen, if_true, bind, Except.bind, pure, Except.pure, Except.map]
    cases filterE (sameDay trade) (List.take 5 userTrades) with
    | error e => rfl
    | ok same =>
      simp only [patternRules, historyRules]
      rw [← hper]
      exact congrArg Except.ok (history_shape _ _ _ _)
  · simp only [hlen, if_false, pure, Except.pure, Except.map, List.append_nil]
    exact congrArg Except.ok hper

theorem mem_historicalTags (trade : Trade) (userTrades : List Trade) (tags : List String)
    (h : historicalTags trade userTrades = Except.ok tags) (tag : String) (ht : tag ∈ tags) :
    tag = "over_trading" ∨ tag = "early_exit" ∨ tag = "late_entry" := by
  unfold historicalTags at h
  split_ifs at h with hlen
  · cases hf : filterE (sameDay trade) (List.take 5 userTrades) with
    | error e => simp [hf, Except.map] at h
    | ok same =>
      simp only [hf, Except.map, Except.ok.injEq] at h
      subst h
      rw [mem_fired] at ht
      obtain ⟨r, hr, -, h2⟩ := ht
      simp only [historyRules, List.mem_cons, List.mem_singleton, List.not_mem_nil,
        or_false] at hr
      rcases hr with h | h | h <;> subst h <;> simp [← h2]
  · simp only [Except.ok.injEq] at h
    subst h
    simp at ht

theorem detectPatterns_ok_short (trade : Trade) (userTrades : List Trade)
    (hlen : userTrades.length < 3) :
    detectPatterns trade userTrades = Except.ok (fired (patternRules trade)) := by
  rw [detectPatterns_eq]
  have h : ¬ userTrades.length ≥ 3 := by omega
  simp [historicalTags, h, Except.map]

theorem detectPatterns_stringDate (trade : Trade) (userTrades : List Trade) (s : String)
    (hd : trade.date = JsDate.text s) (hlen : userTrades.length ≥ 3) :
    detectPatterns trade userTrades =
      Except.error (JsError.typeError "toDateString is not a function") := by
  rw [detectPatterns_eq]
  cases userTrades with
  | nil => simp at hlen
  | cons u rest =>
    have hsame : sameDay trade u =
        Except.error (JsError.typeError "toDateString is not a function") := by
      unfold sameDay
      cases hu : u.date with
      | text s' => rfl
      | date m => simp [hd, toDateString, bind, Except.bind]
    have h2 : 2 ≤ rest.length := by
      simp only [List.length_cons] at hlen
      omega
    simp [historicalTags, filterE, hsame, Except.map, h2]

theorem includes_joinSpace2 (w : String) (hw : ' ' ∉ w.data) (a b : Option String) :
    includes (toLowerCase (joinSpace [a, b])) w =
      (includes (toLowerCase (orEmpty a)) w || includes (toLowerCase (orEmpty b)) w) := by
  have h : (toLowerCase (joinSpace [a, b])).data =
      (toLowerCase (orEmpty a)).data ++ ' ' :: (toLowerCase (orEmpty b)).data := by
    simp [toLowerCase, joinSpace, List.intercalate]
  unfold includes
  rw [h, includesChars_append_blank w.data hw]

theorem hasRevengeEmotions_iff (trade : Trade) :
    hasRevengeEmotions trade = true ↔
      ∃ w ∈ ["revenge", "angry", "frustrated"],
        includes (toLowerCase (orEmpty trade.emotionsDuring)) w = true ∨
          includes (toLowerCase (orEmpty trade.emotionsAfter)) w = true := by
  unfold hasRevengeEmotions
  simp only [includes_joinSpace2 "revenge" (by decide), includes_joinSpace2 "angry" (by decide),
    includes_joinSpace2 "frustrated" (by decide), Bool.or_eq_true, List.mem_cons,
    List.mem_singleton, List.not_mem_nil, or_false, exists_eq_or_imp, exists_eq_left]
  tauto

theorem hasFOMOIndicators_iff (trade : Trade) :
    hasFOMOIndicators trade = true ↔
      includes (fomoText trade) "fomo" = true ∨ includes (fomoText trade) "missing out" = true ∨
        includes (fomoText trade) "rushed" = true ∨
        (trade.riskPercentage > 2 ∧ includes (fomoText trade) "impulsive" = true) := by
  have h : toLowerCase (joinSpace [trade.emotionsBefore, trade.notes]) = fomoText trade := by
    simp [fomoText, toLowerCase, joinSpace, List.intercalate]
  unfold hasFOMOIndicators
  simp only [h, Bool.or_eq_true, Bool.and_eq_true, decide_eq_true_eq, or_assoc]

theorem hasNegativeEmotions_iff (trade : Trade) :
    hasNegativeEmotions trade = true ↔
      fieldHasNegativeWord trade.emotionsBefore = true ∨
        fieldHasNegativeWord trade.emotionsDuring = true ∨
        fieldHasNegativeWord trade.emotionsAfter = true := by
  rw [hasNegativeEmotions_eq, Bool.or_eq_true, Bool.or_eq_true, or_assoc]

theorem mem_detectPatterns_perTrade (trade : Trade) (userTrades : List Trade) (p : List String)
    (hp : detectPatterns trade userTrades = Except.ok p) (tag : String)
    (h1 : tag ≠ "over_trading") (h2 : tag ≠ "early_exit") (h3 : tag ≠ "late_entry") :
    tag ∈ p ↔ tag ∈ fired (patternRules trade) := by
  rw [detectPatterns_eq] at hp
  cases hh : historicalTags trade userTrades with
  | error e => simp [hh, Except.map] at hp
  | ok tags =>
    simp only [hh, Except.map, Except.ok.injEq] at hp
    subst hp
    rw [List.mem_append]
    constructor
    · rintro (h | h)
      · exact h
      · rcases mem_historicalTags trade userTrades tags hh tag h with h | h | h
        · exact absurd h h1
        · exact absurd h h2
        · exact absurd h h3
    · exact Or.inl

/-! ## Theorems on the pattern detector -/

/-- C12: for every trade and history, `detectPatterns` builds the per-trade
tags first and then appends the historical ones (or raises while computing
them). The per-trade tags are decided so: `good_discipline` iff risk at most
1 % and R:R at least 2; `revenge_trading` iff the during-trade or post-trade
emotion text contains `revenge`, `angry` or `frustrated`; `FOMO` iff pre-trade
emotion text plus notes contains `fomo`, `missing out` or `rushed`, or risk is
above 2 % and that text contains `impulsive`; `emotional_trading` iff a
negative-emotion keyword occurs in one of the three emotion fields; the four
are decided independently and all that apply are in the returned list. A list
is returned when the history has fewer than three entries or the dates
involved are `Date` objects. -/
theorem detectPatterns_perTrade_tags (trade : Trade) (userTrades : List Trade) :
    (detectPatterns trade userTrades =
      (historicalTags trade userTrades).map fun tags => fired (patternRules trade) ++ tags) ∧
    ("good_discipline" ∈ fired (patternRules trade) ↔
      trade.riskPercentage ≤ 1 ∧ trade.rrRatio ≥ 2) ∧
    ("revenge_trading" ∈ fired (patternRules trade) ↔
      ∃ w ∈ ["revenge", "angry", "frustrated"],
        includes (toLowerCase (orEmpty trade.emotionsDuring)) w = true ∨
          includes (toLowerCase (orEmpty trade.emotionsAfter)) w = true) ∧
    ("FOMO" ∈ fired (patternRules trade) ↔
      includes (fomoText trade) "fomo" = true ∨
        includes (fomoText trade) "missing out" = true ∨
        includes (fomoText trade) "rushed" = true ∨
        (trade.riskPercentage > 2 ∧ includes (fomoText trade) "impulsive" = true)) ∧
    ("emotional_trading" ∈ fired (patternRules trade) ↔
      fieldHasNegativeWord trade.emotionsBefore = true ∨
        fieldHasNegativeWord trade.emotionsDuring = true ∨
        fieldHasNegativeWord trade.emotionsAfter = true) ∧
    (∀ p, detectPatterns trade userTrades = Except.ok p →
      ∀ tag ∈ ["good_discipline", "revenge_trading", "FOMO", "emotional_trading"],
        (tag ∈ p ↔ tag ∈ fired (patternRules trade))) ∧
    ((userTrades.length < 3 ∨
        (trade.date.isDate = true ∧ ∀ u ∈ userTrades.take 5, u.date.isDate = true)) →
      ∃ p, detectPatterns trade userTrades = Except.ok p) := by
  refine ⟨detectPatterns_eq trade userTrades, ?_, ?_, ?_, ?_, ?_, ?_⟩
  · rw [mem_fired]
    simp [patternRules]
  · rw [mem_fired, ← hasRevengeEmotions_iff]
    simp [patternRules]
  · rw [mem_fired, ← hasFOMOIndicators_iff]
    simp [patternRules]
  · rw [mem_fired, ← hasNegativeEmotions_iff]
    simp [patternRules]
  · intro p hp tag htag
    simp only [List.mem_cons, List.mem_singleton, List.not_mem_nil, or_false] at htag
    rcases htag with h | h | h | h <;> subst h <;>
      exact mem_detectPatterns_perTrade trade userTrades p hp _ (by decide) (by decide)
        (by decide)
  · rintro (h | ⟨hd, hh⟩)
    · exact ⟨_, detectPatterns_ok_short trade userTrades h⟩
    · exact detectPatterns_ok trade userTrades hd hh

/-- Witness for C12: a disciplined trade entered in a rush and closed angry,
analysed against an empty history, gets all four per-trade tags. -/
theorem detectPatterns_perTrade_tags_witness :
    ∃ p, detectPatterns exampleRushed [] = Except.ok p ∧
      "good_discipline" ∈ p ∧ "revenge_trading" ∈ p ∧ "FOMO" ∈ p ∧ "emotional_trading" ∈ p := by
  obtain ⟨-, h1, h2, h3, h4, hmem, hok⟩ := detectPatterns_perTrade_tags exampleRushed []
  obtain ⟨p, hp⟩ := hok (Or.inl (by decide))
  refine ⟨p, hp, ?_, ?_, ?_, ?_⟩
  · exact (hmem p hp _ (by decide)).mpr (h1.mpr (by decide))
  · exact (hmem p hp _ (by decide)).mpr (h2.mpr ⟨"angry", by decide, Or.inr (by decide)⟩)
  · exact (hmem p hp _ (by decide)).mpr (h3.mpr (Or.inr (Or.inr (Or.inl (by decide)))))
  · exact (hmem p hp _ (by decide)).mpr (h4.mpr (Or.inr (Or.inr (by decide))))

/-- C13, evaluated at the failing input: for a new trade as `createTrade`
passes it (its `date` is the string of the request body) and five recent
trades all on that day, `detectPatterns` raises a `TypeError` instead of
returning `over_trading`; the tag is returned once the same trade carries a
`Date` object. -/
theorem detectPatterns_overTrading_newTrade :
    fiveSameDay.length = 5 ∧
      (∀ u ∈ fiveSameDay, u.date = jan15) ∧
      detectPatterns exampleNewTrade fiveSameDay =
        Except.error (JsError.typeError "toDateString is not a function") ∧
      detectPatterns exampleStoredNewTrade fiveSameDay =
        Except.ok ["good_discipline", "over_trading"] :=
  ⟨rfl, by decide, rfl, rfl⟩

/-- C14, evaluated at the failing input: for a new trade as `createTrade`
passes it and a history of three losses, `detectPatterns` raises a `TypeError`
instead of returning `late_entry`; the tag is returned once the same trade
carries a `Date` object, and with only two of the losses as history no error
is raised and neither historical tag is returned. -/
theorem detectPatterns_lateEntry_newTrade :
    threeLosses.length = 3 ∧
      (∀ u ∈ threeLosses, u.outcome = "Loss") ∧
      detectPatterns exampleNewTrade threeLosses =
        Except.error (JsError.typeError "toDateString is not a function") ∧
      detectPatterns exampleStoredNewTrade threeLosses =
        Except.ok ["good_discipline", "over_trading", "late_entry"] ∧
      detectPatterns exampleNewTrade (threeLosses.take 2) = Except.ok ["good_discipline"] :=
  ⟨rfl, by decide, rfl, rfl, rfl⟩

/-! ## Lemmas on the period review -/

theorem toFixed_of_nonneg (x : ℚ) (digits : Nat) (hx : 0 ≤ x) :
    toFixed x digits = (Int.floor (x * 10 ^ digits + 1 / 2) : ℚ) / 10 ^ digits := by
  unfold toFixed
  rw [if_neg (not_lt.mpr hx)]

theorem round_sub_le (y : ℚ) :
    |(Int.floor (y + 1 / 2) : ℚ) - y| ≤ 1 / 2 := by
  have h1 := Int.floor_le (y + 1 / 2)
  have h2 := Int.lt_floor_add_one (y + 1 / 2)
  rw [abs_le]
  constructor <;> linarith

theorem toFixed_spec (x : ℚ) (digits : Nat) :
    (∃ n : Int, toFixed x digits = (n : ℚ) / 10 ^ digits) ∧
      |toFixed x digits - x| ≤ 1 / (2 * 10 ^ digits) := by
  have hp : (0 : ℚ) < 10 ^ digits := by positivity
  have key : ∀ y : ℚ, |(Int.floor (y * 10 ^ digits + 1 / 2) : ℚ) / 10 ^ digits - y| ≤
      1 / (2 * 10 ^ digits) := by
    intro y
    have h := round_sub_le (y * 10 ^ digits)
    have e : (Int.floor (y * 10 ^ digits + 1 / 2) : ℚ) / 10 ^ digits - y =
        ((Int.floor (y * 10 ^ digits + 1 / 2) : ℚ) - y * 10 ^ digits) / 10 ^ digits := by
      field_simp
      ring
    rw [e, abs_div, abs_of_pos hp, div_le_iff₀ hp]
    calc |(Int.floor (y * 10 ^ digits + 1 / 2) : ℚ) - y * 10 ^ digits| ≤ 1 / 2 := h
      _ = 1 / (2 * 10 ^ digits) * 10 ^ digits := by field_simp
  unfold toFixed
  split_ifs with hx
  · constructor
    · exact ⟨-Int.floor (-x * 10 ^ digits + 1 / 2), by push_cast; ring⟩
    · have h := key (-x)
      have e : -((Int.floor (-x * 10 ^ digits + 1 / 2) : ℚ) / 10 ^ digits) - x =
          -((Int.floor (-x * 10 ^ digits + 1 / 2) : ℚ) / 10 ^ digits - -x) := by ring
      rw [e, abs_neg]
      exact h
  · exact ⟨⟨_, rfl⟩, key x⟩

theorem toFixed_one_bounds (x : ℚ) (h0 : 0 ≤ x) (h1 : x ≤ 100) :
    0 ≤ toFixed x 1 ∧ toFixed x 1 ≤ 100 := by
  rw [toFixed_of_nonneg x 1 h0]
  constructor
  · apply div_nonneg _ (by norm_num)
    exact_mod_cast Int.floor_nonneg.mpr (by linarith)
  · rw [div_le_iff₀ (by norm_num)]
    have h : Int.floor (x * 10 ^ 1 + 1 / 2) ≤ 1000 := by
      have : Int.floor (x * 10 ^ 1 + 1 / 2) < 1000 + 1 := by
        rw [Int.floor_lt]
        push_cast
        linarith
      omega
    have h' : ((Int.floor (x * 10 ^ 1 + 1 / 2) : Int) : ℚ) ≤ 1000 := by exact_mod_cast h
    linarith

theorem generatePeriodRecommendations_eq (stats : PeriodStats) (patterns : PeriodPatterns) :
    generatePeriodRecommendations stats patterns =
      (fired (recommendationChecks stats patterns) ++
        (if (fired (recommendationChecks stats patterns)).length < 2 then
          [genericRecommendation] else [])).take 3 := by
  obtain ⟨ms, ws⟩ := patterns
  cases ms <;> cases ws <;>
  by_cases h1 : stats.winRate < 40 <;> by_cases h1' : stats.winRate > 60 <;>
  by_cases h2 : stats.avgRR < 3 / 2 <;>
  by_cases h3 : stats.riskGrade = "C" <;> by_cases h4 : stats.riskGrade = "D" <;>
  simp [generatePeriodRecommendations, recommendationChecks, fired, winRateAdvice,
    genericRecommendation, h1, h1', h2, h3, h4, List.filter]

/-! ## Lemmas on sums of doubles -/

theorem fl_one : fl 1 = 1 := by
  apply fl_eq_self_of _ 1 0 <;> norm_num

theorem fl_hundred : fl 100 = 100 := by
  apply fl_eq_self_of _ 100 0 <;> norm_num

theorem fadd_zero_left (x : ℚ) : fadd 0 x = fl x := by
  rw [fadd, fl_zero, zero_add, fl_fl]

theorem fdiv_zero_left (x : ℚ) : fdiv 0 x = 0 := by
  rw [fdiv, fl_zero, zero_div, fl_zero]

theorem fmul_zero_left (x : ℚ) : fmul 0 x = 0 := by
  rw [fmul, fl_zero, zero_mul, fl_zero]

theorem abs_fl_le {x b : ℚ} (hb : fl b = b) (h : |x| ≤ b) : |fl x| ≤ b := by
  rw [abs_le] at h ⊢
  constructor
  · have := fl_mono h.1
    rw [fl_neg, hb] at this
    exact this
  · have := fl_mono h.2
    rw [hb] at this
    exact this

theorem doubleSum_nil (f : Trade → ℚ) : doubleSum f [] = 0 := rfl

theorem doubleSum_concat (f : Trade → ℚ) (l : List Trade) (t : Trade) :
    doubleSum f (l ++ [t]) = fadd (doubleSum f l) (f t) := by
  simp [doubleSum, List.foldl_append]

theorem fl_doubleSum (f : Trade → ℚ) (l : List Trade) : fl (doubleSum f l) = doubleSum f l := by
  induction l using List.reverseRecOn with
  | nil => exact fl_zero
  | append_singleton l t _ => rw [doubleSum_concat, fadd, fl_fl]

/-- A running sum of integers is exact as long as the partial sums stay within
`2^53`. -/
theorem doubleSum_intCast (g : Trade → ℤ) (B : ℕ) (l : List Trade)
    (hg : ∀ t ∈ l, |g t| ≤ B) (hB : l.length * B ≤ 2 ^ 53) :
    doubleSum (fun t => (g t : ℚ)) l = ((l.map g).sum : ℤ) ∧ |(l.map g).sum| ≤ l.length * B := by
  induction l using List.reverseRecOn with
  | nil => simp [doubleSum]
  | append_singleton l t ih =>
    have hlen : (l ++ [t]).length = l.length + 1 := by simp
    rw [hlen] at hB
    have hB' : l.length * B ≤ 2 ^ 53 := by nlinarith
    obtain ⟨ih1, ih2⟩ := ih (fun u hu => hg u (List.mem_append_left _ hu)) hB'
    have ht : |g t| ≤ B := hg t (by simp)
    have hsum : ((l ++ [t]).map g).sum = (l.map g).sum + g t := by simp
    have hbound : |(l.map g).sum + g t| ≤ (l.length + 1) * B := by
      calc |(l.map g).sum + g t| ≤ |(l.map g).sum| + |g t| := abs_add _ _
        _ ≤ l.length * B + B := add_le_add ih2 ht
        _ = (l.length + 1) * B := by ring
    have h53 : |(l.map g).sum + g t| ≤ 2 ^ 53 := by
      have : ((l.length + 1) * B : ℤ) ≤ 2 ^ 53 := by exact_mod_cast hB
      exact le_trans hbound this
    have h53a : |(l.map g).sum| ≤ 2 ^ 53 := by
      have : ((l.length * B : ℕ) : ℤ) ≤ 2 ^ 53 := by exact_mod_cast hB'
      push_cast at this
      exact le_trans ih2 this
    have h53b : |g t| ≤ 2 ^ 53 := by
      have h1 : (B : ℤ) ≤ (l.length + 1) * B := by nlinarith [Int.natCast_nonneg B, Int.natCast_nonneg l.length]
      have h2 : ((l.length + 1) * B : ℤ) ≤ 2 ^ 53 := by exact_mod_cast hB
      omega
    refine ⟨?_, ?_⟩
    · rw [doubleSum_concat, ih1, fadd, fl_intCast _ h53a, fl_intCast _ h53b, hsum]
      have : (((l.map g).sum : ℤ) : ℚ) + ((g t : ℤ) : ℚ) = (((l.map g).sum + g t : ℤ) : ℚ) := by
        push_cast; ring
      rw [this, fl_intCast _ h53]
    · rw [hsum, hlen]
      push_cast
      exact hbound

theorem two_zpow_neg_1022_le : (2 : ℚ) ^ (-1022 : ℤ) ≤ 2 ^ (-32 : ℤ) :=
  two_zpow_le (by norm_num)

/-- The computed win rate `wins / total * 100` lies between 0 and 100 and
within `2^(-45)` of the exact percentage. -/
theorem winRate_accuracy (w n : ℕ) (hn : 0 < n) (hn32 : n < 2 ^ 32) (hw : w ≤ n) :
    0 ≤ fmul (fdiv (w : ℚ) (n : ℚ)) 100 ∧ fmul (fdiv (w : ℚ) (n : ℚ)) 100 ≤ 100 ∧
      |fmul (fdiv (w : ℚ) (n : ℚ)) 100 - (w : ℚ) / (n : ℚ) * 100| ≤ 1 / 2 ^ 45 := by
  have hnq : (0 : ℚ) < n := by exact_mod_cast hn
  have hflw : fl (w : ℚ) = w := fl_natCast w (by omega)
  have hfln : fl (n : ℚ) = n := fl_natCast n (by omega)
  have hq0 : (0 : ℚ) ≤ (w : ℚ) / n := by positivity
  have hq1 : (w : ℚ) / n ≤ 1 := (div_le_one hnq).mpr (by exact_mod_cast hw)
  have ha : fdiv (w : ℚ) (n : ℚ) = fl ((w : ℚ) / n) := by rw [fdiv, hflw, hfln]
  have ha0 : 0 ≤ fl ((w : ℚ) / n) := fl_nonneg hq0
  have ha1 : fl ((w : ℚ) / n) ≤ 1 := by
    have := fl_mono hq1
    rwa [fl_one] at this
  have hc : fmul (fdiv (w : ℚ) (n : ℚ)) 100 = fl (fl ((w : ℚ) / n) * 100) := by
    rw [fmul, ha, fl_fl, fl_hundred]
  rw [hc]
  have hp0 : 0 ≤ fl ((w : ℚ) / n) * 100 := by positivity
  have hp1 : fl ((w : ℚ) / n) * 100 ≤ 100 := by linarith
  refine ⟨fl_nonneg hp0, ?_, ?_⟩
  · have := fl_mono hp1
    rwa [fl_hundred] at this
  · rcases Nat.eq_zero_or_pos w with hw0 | hw0
    · subst hw0
      simp [fl_zero]
    · -- the quotient is in the normal range
      have hw1 : (1 : ℚ) ≤ w := by exact_mod_cast hw0
      have hn' : (n : ℚ) ≤ 2 ^ 32 := by exact_mod_cast le_of_lt hn32
      have hqlow : (2 : ℚ) ^ (-32 : ℤ) ≤ (w : ℚ) / n := by
        rw [le_div_iff₀ hnq]
        calc (2 : ℚ) ^ (-32 : ℤ) * n ≤ 2 ^ (-32 : ℤ) * 2 ^ 32 :=
              mul_le_mul_of_nonneg_left hn' (le_of_lt (two_zpow_pos _))
          _ = 1 := by norm_num
          _ ≤ w := hw1
      have hqn : (2 : ℚ) ^ (-1022 : ℤ) ≤ |(w : ℚ) / n| := by
        rw [abs_of_nonneg hq0]
        exact le_trans two_zpow_neg_1022_le hqlow
      have e1 := abs_fl_sub_le _ hqn
      rw [abs_of_nonneg hq0] at e1
      have halow : (2 : ℚ) ^ (-32 : ℤ) ≤ fl ((w : ℚ) / n) := by
        have := fl_mono hqlow
        rwa [fl_eq_self_of _ 1 (-32) (by norm_num) (by norm_num) (by norm_num)] at this
      have hpn : (2 : ℚ) ^ (-1022 : ℤ) ≤ |fl ((w : ℚ) / n) * 100| := by
        rw [abs_of_nonneg hp0]
        have : (2 : ℚ) ^ (-32 : ℤ) ≤ fl ((w : ℚ) / n) * 100 := by
          have h0 := two_zpow_pos (-32 : ℤ)
          nlinarith
        exact le_trans two_zpow_neg_1022_le this
      have e2 := abs_fl_sub_le _ hpn
      rw [abs_of_nonneg hp0] at e2
      have hu : (2 : ℚ) ^ (-53 : ℤ) = 1 / 2 ^ 53 := by norm_num
      rw [hu] at e1 e2
      have e1' : |fl ((w : ℚ) / n) - (w : ℚ) / n| ≤ 1 / 2 ^ 53 := by
        refine le_trans e1 ?_
        have : (0 : ℚ) ≤ 1 / 2 ^ 53 := by norm_num
        nlinarith
      have e2' : |fl (fl ((w : ℚ) / n) * 100) - fl ((w : ℚ) / n) * 100| ≤ 100 / 2 ^ 53 := by
        refine le_trans e2 ?_
        have : (0 : ℚ) ≤ 1 / 2 ^ 53 := by norm_num
        nlinarith
      rw [abs_le] at e1' e2' ⊢
      constructor <;> norm_num at e1' e2' ⊢ <;> linarith [e1'.1, e1'.2, e2'.1, e2'.2]

theorem winRate_eq (trades : List Trade) (h : trades ≠ []) :
    (calculatePeriodStats trades).winRate = toFixed (computedWinRate trades) 1 := by
  have hlen : 0 < trades.length := List.length_pos.mpr h
  simp only [calculatePeriodStats, computedWinRate, hlen, gt_iff_lt, if_true]

theorem avgRR_eq (trades : List Trade) :
    (calculatePeriodStats trades).avgRR = toFixed (doubleMean (fun t => t.rrRatio) trades) 2 :=
  rfl

theorem netPips_eq (trades : List Trade) :
    (calculatePeriodStats trades).netPips = toFixed (doubleSum (fun t => t.pips) trades) 1 :=
  rfl

theorem computedWinRate_spec (trades : List Trade) (h : trades ≠ [])
    (hlen : trades.length < 2 ^ 32) :
    0 ≤ computedWinRate trades ∧ computedWinRate trades ≤ 100 ∧
      |computedWinRate trades - exactWinRate trades| ≤ 1 / 2 ^ 45 :=
  winRate_accuracy _ _ (List.length_pos.mpr h) hlen (List.length_filter_le _ _)

theorem fadd_intCast (a b : ℤ) (ha : |a| ≤ 2 ^ 52) (hb : |b| ≤ 2 ^ 52) :
    fadd (a : ℚ) (b : ℚ) = ((a + b : ℤ) : ℚ) := by
  have hab : |a + b| ≤ 2 ^ 53 := by
    have := abs_add a b
    omega
  rw [fadd, fl_intCast a (by omega), fl_intCast b (by omega)]
  have : (a : ℚ) + (b : ℚ) = ((a + b : ℤ) : ℚ) := by push_cast; ring
  rw [this, fl_intCast _ hab]

theorem fdiv_intCast_exact (a b q : ℤ) (hb : b ≠ 0) (h : a = q * b) (ha : |a| ≤ 2 ^ 53)
    (hb53 : |b| ≤ 2 ^ 53) (hq : |q| ≤ 2 ^ 53) : fdiv (a : ℚ) (b : ℚ) = q := by
  rw [fdiv, fl_intCast a ha, fl_intCast b hb53]
  have hbq : (b : ℚ) ≠ 0 := by exact_mod_cast hb
  have : (a : ℚ) / (b : ℚ) = q := by
    rw [h]
    push_cast
    field_simp
  rw [this, fl_intCast q hq]

theorem toFixed_eq_of_bounds (x : ℚ) (n : ℤ) (d : Nat) (hx : 0 ≤ x)
    (h1 : (n : ℚ) - 1 / 2 ≤ x * 10 ^ d) (h2 : x * 10 ^ d < (n : ℚ) + 1 / 2) :
    toFixed x d = (n : ℚ) / 10 ^ d := by
  rw [toFixed_of_nonneg x d hx]
  have : Int.floor (x * 10 ^ d + 1 / 2) = n := by
    rw [Int.floor_eq_iff]
    constructor <;> linarith
  rw [this]

theorem toFixed_intCast (z : ℤ) (d : Nat) : toFixed (z : ℚ) d = z := by
  have key : ∀ y : ℤ, (Int.floor ((y : ℚ) * 10 ^ d + 1 / 2) : ℚ) / 10 ^ d = y := by
    intro y
    have : Int.floor ((y : ℚ) * 10 ^ d + 1 / 2) = y * 10 ^ d := by
      rw [Int.floor_eq_iff]
      push_cast
      constructor <;> linarith
    rw [this]
    push_cast
    field_simp
  unfold toFixed
  split_ifs with h
  · have := key (-z)
    push_cast at this
    rw [this]
    ring
  · exact key z

theorem doubleSum_congr (f g : Trade → ℚ) (l : List Trade) (h : ∀ t ∈ l, f t = g t) :
    doubleSum f l = doubleSum g l := by
  induction l using List.reverseRecOn with
  | nil => rfl
  | append_singleton l t ih =>
    rw [doubleSum_concat, doubleSum_concat, ih (fun u hu => h u (List.mem_append_left _ hu)),
      h t (by simp)]

theorem twoBlocks_length (m n : Nat) (w l : Trade) :
    (List.replicate m w ++ List.replicate n l).length = m + n := by
  rw [List.length_append, List.length_replicate, List.length_replicate]

theorem twoBlocks_doubleSum (m n : Nat) (w l : Trade) (g : Trade → ℤ) (B : ℕ)
    (hw : |g w| ≤ B) (hl : |g l| ≤ B) (hB : (m + n) * B ≤ 2 ^ 53) :
    doubleSum (fun t => (g t : ℚ)) (List.replicate m w ++ List.replicate n l) =
      ((m * g w + n * g l : ℤ) : ℚ) := by
  have hmem : ∀ t ∈ List.replicate m w ++ List.replicate n l, |g t| ≤ B := by
    intro t ht
    rw [List.mem_append, List.mem_replicate, List.mem_replicate] at ht
    rcases ht with ⟨-, h⟩ | ⟨-, h⟩ <;> rw [h] <;> assumption
  have h := (doubleSum_intCast g B _ hmem (by rw [twoBlocks_length]; exact hB)).1
  rw [h]
  congr 1
  rw [List.map_append, List.sum_append, List.map_replicate, List.map_replicate,
    List.sum_replicate, List.sum_replicate, nsmul_eq_mul, nsmul_eq_mul]

theorem fl_mul_two_pow_thirty (k : ℕ) (hk : k ≤ 2 ^ 32) :
    fl ((k : ℚ) * 2 ^ 30) = (k : ℚ) * 2 ^ 30 := by
  apply fl_eq_self_of _ (k : ℤ) 30
  · push_cast; norm_num
  · rw [abs_of_nonneg (by positivity)]
    have : (k : ℤ) ≤ 2 ^ 32 := by exact_mod_cast hk
    omega
  · norm_num

/-- A running sum of fewer than `2^32` numbers of magnitude at most `2^30`
stays below `2^62`: it is a finite double, and `toFixed` prints it in decimal
digits. -/
theorem abs_doubleSum_le (f : Trade → ℚ) (l : List Trade) (hf : ∀ t ∈ l, |f t| ≤ 2 ^ 30)
    (hlen : l.length < 2 ^ 32) : |doubleSum f l| ≤ (l.length : ℚ) * 2 ^ 30 := by
  induction l using List.reverseRecOn with
  | nil => simp [doubleSum]
  | append_singleton l t ih =>
    have hlen' : (l ++ [t]).length = l.length + 1 := by simp
    rw [hlen'] at hlen
    have ih' := ih (fun u hu => hf u (List.mem_append_left _ hu)) (by omega)
    have ht : |f t| ≤ 2 ^ 30 := hf t (by simp)
    have h1 : |fl (doubleSum f l)| ≤ (l.length : ℚ) * 2 ^ 30 :=
      abs_fl_le (fl_mul_two_pow_thirty _ (by omega)) ih'
    have h2 : |fl (f t)| ≤ 2 ^ 30 := by
      have := abs_fl_le (fl_mul_two_pow_thirty 1 (by norm_num)) (by simpa using ht)
      simpa using this
    have h3 : |fl (doubleSum f l) + fl (f t)| ≤ ((l.length + 1 : ℕ) : ℚ) * 2 ^ 30 := by
      refine le_trans (abs_add _ _) ?_
      push_cast
      linarith
    rw [doubleSum_concat, fadd, hlen']
    exact abs_fl_le (fl_mul_two_pow_thirty _ (by omega)) h3

theorem abs_doubleSum_lt (f : Trade → ℚ) (l : List Trade) (hf : ∀ t ∈ l, |f t| ≤ 10 ^ 9)
    (hlen : l.length < 2 ^ 32) : |doubleSum f l| < 10 ^ 21 := by
  have h := abs_doubleSum_le f l (fun t ht => le_trans (hf t ht) (by norm_num)) hlen
  have h2 : (l.length : ℚ) ≤ 2 ^ 32 := by exact_mod_cast le_of_lt hlen
  have h3 : (l.length : ℚ) * 2 ^ 30 ≤ 2 ^ 32 * 2 ^ 30 :=
    mul_le_mul_of_nonneg_right h2 (by norm_num)
  refine lt_of_le_of_lt (le_trans h h3) (by norm_num)

/-! ## Lemmas on the recommendations of a review -/

theorem review_recommendations (trades : List Trade) (period : String) (h : trades ≠ []) :
    (generatePeriodReview trades period).recommendations =
      generatePeriodRecommendations (calculatePeriodStats trades)
        (analyzePeriodPatterns trades) := by
  have hlen : ¬ trades.length = 0 := fun h0 => h (List.length_eq_zero.mp h0)
  simp [generatePeriodReview, hlen]

theorem toFixed_lt (x c : ℚ) (d : Nat) (h : x < c - 1 / (2 * 10 ^ d)) : toFixed x d < c := by
  have h1 := (toFixed_spec x d).2
  rw [abs_le] at h1
  linarith [h1.2]

theorem head_quality (stats : PeriodStats) (patterns : PeriodPatterns)
    (h : stats.winRate < 40) :
    (generatePeriodRecommendations stats patterns).head? = some qualityMessage := by
  obtain ⟨ms, ws⟩ := patterns
  cases ms <;> cases ws <;> by_cases h2 : stats.avgRR < 3 / 2 <;>
  by_cases h3 : stats.riskGrade = "C" <;> by_cases h4 : stats.riskGrade = "D" <;>
  simp [generatePeriodRecommendations, qualityMessage, h, h2, h3, h4]

theorem mem_raiseRR (stats : PeriodStats) (patterns : PeriodPatterns)
    (h : stats.avgRR < 3 / 2) :
    raiseRRMessage ∈ generatePeriodRecommendations stats patterns := by
  obtain ⟨ms, ws⟩ := patterns
  cases ms <;> cases ws <;> by_cases h1 : stats.winRate < 40 <;>
  by_cases h1' : stats.winRate > 60 <;>
  by_cases h3 : stats.riskGrade = "C" <;> by_cases h4 : stats.riskGrade = "D" <;>
  simp [generatePeriodRecommendations, raiseRRMessage, h, h1, h1', h3, h4]

theorem mistakeCounts_noFeedback (trades : List Trade)
    (h : ∀ t ∈ trades, t.aiFeedback = none) : mistakeCounts trades = [] := by
  have hm : ∀ init : List (String × Nat), trades.foldl (fun counts trade =>
      match trade.aiFeedback with
      | none => counts
      | some f => f.mistakes.foldl (fun counts mistake => countUp mistake counts) counts)
      init = init := by
    induction trades with
    | nil => intro init; rfl
    | cons t l ih =>
      intro init
      rw [List.foldl_cons, h t (List.mem_cons_self _ _)]
      exact ih (fun u hu => h u (List.mem_cons_of_mem _ hu)) init
  exact hm []

theorem emotionalPatterns_noFeedback (trades : List Trade)
    (h : ∀ t ∈ trades, t.aiFeedback = none) : emotionalPatterns trades = [] := by
  have he : ∀ init : List (String × Nat), trades.foldl (fun counts trade =>
      match trade.aiFeedback with
      | none => counts
      | some f => countUp f.emotionalState counts) init = init := by
    induction trades with
    | nil => intro init; rfl
    | cons t l ih =>
      intro init
      rw [List.foldl_cons, h t (List.mem_cons_self _ _)]
      exact ih (fun u hu => h u (List.mem_cons_of_mem _ hu)) init
  exact he []

theorem noFeedback_patterns (trades : List Trade) (h : ∀ t ∈ trades, t.aiFeedback = none) :
    analyzePeriodPatterns trades = { commonMistakes := [], psychologicalWeaknesses := [] } := by
  simp [analyzePeriodPatterns, mistakeCounts_noFeedback trades h,
    emotionalPatterns_noFeedback trades h, sortByCountDesc]

theorem twoBlocks_wins (m n : Nat) (w l : Trade) (hw : w.outcome = "Win")
    (hl : l.outcome ≠ "Win") :
    ((List.replicate m w ++ List.replicate n l).filter fun t => t.outcome = "Win").length =
      m := by
  rw [List.filter_append, List.filter_replicate_of_pos (by simpa using hw),
    List.filter_replicate_of_neg (by simpa using hl), List.append_nil, List.length_replicate]

theorem twoBlocks_noFeedback (m n : Nat) (w l : Trade) (hw : w.aiFeedback = none)
    (hl : l.aiFeedback = none) :
    ∀ t ∈ List.replicate m w ++ List.replicate n l, t.aiFeedback = none := by
  intro t ht
  rw [List.mem_append, List.mem_replicate, List.mem_replicate] at ht
  rcases ht with ⟨-, h⟩ | ⟨-, h⟩ <;> rw [h] <;> assumption
/-! ## Theorems on the period review -/

/-- C15: for the empty trade list and any period label, `generatePeriodReview`
returns a stub that echoes the period, has no `tradeCount` and no computed
statistic, and whose recommendations are exactly the one fixed encouragement;
the statistics and the pattern summary are not computed. -/
theorem generatePeriodReview_empty (period : String) :
    generatePeriodReview [] period =
        { period := period, summary := some "No trades recorded in this period",
          recommendations := ["Start logging your trades to unlock AI insights"] } ∧
      (generatePeriodReview [] period).period = period ∧
      (generatePeriodReview [] period).tradeCount = none ∧
      (generatePeriodReview [] period).winRate = none ∧
      (generatePeriodReview [] period).avgRR = none ∧
      (generatePeriodReview [] period).netPips = none ∧
      (generatePeriodReview [] period).bestStrategy = none ∧
      (generatePeriodReview [] period).bestSession = none ∧
      (generatePeriodReview [] period).bestPair = none ∧
      (generatePeriodReview [] period).commonMistakes = none ∧
      (generatePeriodReview [] period).psychologicalWeaknesses = none ∧
      (generatePeriodReview [] period).executionTrend = none ∧
      (generatePeriodReview [] period).riskManagementGrade = none ∧
      (generatePeriodReview [] period).recommendations =
        ["Start logging your trades to unlock AI insights"] ∧
      (generatePeriodReview [] period).recommendations.length = 1 :=
  ⟨rfl, rfl, rfl, rfl, rfl, rfl, rfl, rfl, rfl, rfl, rfl, rfl, rfl, rfl, rfl⟩

/-- C16: for every statistics object and pattern summary,
`generatePeriodRecommendations` returns the first three elements of the
sequence of the fired checks in evaluation order (win-rate advice, R:R advice,
position-sizing advice, top common mistake, top psychological weakness)
followed by the generic recommendation iff fewer than two checks fired; the
result has between one and three elements. -/
theorem generatePeriodRecommendations_spec (stats : PeriodStats) (patterns : PeriodPatterns) :
    generatePeriodRecommendations stats patterns =
        (fired (recommendationChecks stats patterns) ++
          (if (fired (recommendationChecks stats patterns)).length < 2 then
            [genericRecommendation] else [])).take 3 ∧
      1 ≤ (generatePeriodRecommendations stats patterns).length ∧
      (generatePeriodRecommendations stats patterns).length ≤ 3 := by
  refine ⟨generatePeriodRecommendations_eq stats patterns, ?_, ?_⟩
  · rw [generatePeriodRecommendations_eq, List.length_take, List.length_append]
    split_ifs with h
    · simp
    · simp only [List.length_nil, add_zero]
      omega
  · rw [generatePeriodRecommendations_eq, List.length_take]
    exact Nat.min_le_left _ _

/-- C17, as stated, fails. A period of 80 trades with 23 wins has the win rate
28.75 %, which rounded to one decimal is 28.8, yet the reported `winRate` is
28.7: the quotient and the product are computed in doubles and give
`28.749999999999996`. A period of one trade of 0.35 pips at R:R 1.005 has
the sum 0.35 and the mean 1.005, which rounded are 0.4 and 1.01, yet the
reported `netPips` is 0.3 and the reported `avgRR` is 1.00. -/
theorem calculatePeriodStats_rounding_counterexample :
    (tiePeriod ≠ [] ∧ exactWinRate tiePeriod = 115 / 4 ∧
      toFixed (exactWinRate tiePeriod) 1 = 144 / 5 ∧
      computedWinRate tiePeriod = 8092405580431359 / 281474976710656 ∧
      (calculatePeriodStats tiePeriod).winRate = 287 / 10) ∧
    (oddDecimalsPeriod ≠ [] ∧
      mean (fun t => t.rrRatio) oddDecimalsPeriod = 201 / 200 ∧
      toFixed (mean (fun t => t.rrRatio) oddDecimalsPeriod) 2 = 101 / 100 ∧
      (calculatePeriodStats oddDecimalsPeriod).avgRR = 1 ∧
      (oddDecimalsPeriod.map fun t => t.pips).sum = 7 / 20 ∧
      toFixed ((oddDecimalsPeriod.map fun t => t.pips).sum) 1 = 2 / 5 ∧
      (calculatePeriodStats oddDecimalsPeriod).netPips = 3 / 10) := by
  -- the 80-trade period
  have hne : tiePeriod ≠ [] := by
    intro h0
    have : tiePeriod.length = 0 := by rw [h0]; rfl
    rw [tiePeriod, twoBlocks_length] at this
    omega
  have hwins : (tiePeriod.filter fun t => t.outcome = "Win").length = 23 := by
    rw [tiePeriod]
    exact twoBlocks_wins 23 57 _ _ rfl (by decide)
  have hlen : tiePeriod.length = 80 := by rw [tiePeriod, twoBlocks_length]
  have hexact : exactWinRate tiePeriod = 115 / 4 := by
    rw [exactWinRate, hwins, hlen]
    norm_num
  have h23 : fl (23 : ℚ) = 23 := by apply fl_eq_self_of _ 23 0 <;> norm_num
  have h80 : fl (80 : ℚ) = 80 := by apply fl_eq_self_of _ 80 0 <;> norm_num
  have hq : fl (23 / 80 : ℚ) = 2589569785738035 / 9007199254740992 := by
    apply fl_eq_of_cert _ _ (-2) 5179139571476070 <;> norm_num [abs_lt]
  have hcw : computedWinRate tiePeriod = 8092405580431359 / 281474976710656 := by
    rw [computedWinRate, hwins, hlen]
    push_cast
    rw [fmul, fdiv, h23, h80, fl_fl, hq, fl_hundred]
    apply fl_eq_of_cert _ _ 4 8092405580431359 <;> norm_num [abs_lt]
  have hrep : (calculatePeriodStats tiePeriod).winRate = 287 / 10 := by
    rw [winRate_eq _ hne, hcw]
    have := toFixed_eq_of_bounds (8092405580431359 / 281474976710656) 287 1 (by norm_num)
      (by norm_num) (by norm_num)
    rw [this]
    norm_num
  have hround : toFixed (exactWinRate tiePeriod) 1 = 144 / 5 := by
    rw [hexact]
    have := toFixed_eq_of_bounds (115 / 4) 288 1 (by norm_num) (by norm_num) (by norm_num)
    rw [this]
    norm_num
  -- the one-trade period
  have hrr : fl (201 / 200 : ℚ) = 1131529406376837 / 1125899906842624 := by
    apply fl_eq_of_cert _ _ 0 4526117625507348 <;> norm_num [abs_lt]
  have hpips : fl (7 / 20 : ℚ) = 3152519739159347 / 9007199254740992 := by
    apply fl_eq_of_cert _ _ (-2) 6305039478318694 <;> norm_num [abs_lt]
  have hmean : mean (fun t => t.rrRatio) oddDecimalsPeriod = 201 / 200 := by
    norm_num [mean, oddDecimalsPeriod]
  have hsum : (oddDecimalsPeriod.map fun t => t.pips).sum = 7 / 20 := by
    norm_num [oddDecimalsPeriod]
  have havg : (calculatePeriodStats oddDecimalsPeriod).avgRR = 1 := by
    rw [avgRR_eq]
    have hs : doubleSum (fun t => t.rrRatio) oddDecimalsPeriod =
        1131529406376837 / 1125899906842624 := by
      simp only [doubleSum, oddDecimalsPeriod, List.foldl]
      rw [fadd_zero_left, hrr]
    have hl : ((oddDecimalsPeriod.length : ℕ) : ℚ) = 1 := by simp [oddDecimalsPeriod]
    have hd : doubleMean (fun t => t.rrRatio) oddDecimalsPeriod =
        1131529406376837 / 1125899906842624 := by
      rw [doubleMean, hs, hl, fdiv, ← hrr, fl_fl, fl_one, div_one, fl_fl]
    rw [hd]
    have := toFixed_eq_of_bounds (1131529406376837 / 1125899906842624) 100 2 (by norm_num)
      (by norm_num) (by norm_num)
    rw [this]
    norm_num
  have hnet : (calculatePeriodStats oddDecimalsPeriod).netPips = 3 / 10 := by
    rw [netPips_eq]
    have hs : doubleSum (fun t => t.pips) oddDecimalsPeriod =
        3152519739159347 / 9007199254740992 := by
      simp only [doubleSum, oddDecimalsPeriod, List.foldl]
      rw [fadd_zero_left, hpips]
    rw [hs]
    have := toFixed_eq_of_bounds (3152519739159347 / 9007199254740992) 3 1 (by norm_num)
      (by norm_num) (by norm_num)
    rw [this]
    norm_num
  refine ⟨⟨hne, hexact, hround, hcw, hrep⟩, ⟨by decide, hmean, ?_, havg, hsum, ?_, hnet⟩⟩
  · rw [hmean]
    have := toFixed_eq_of_bounds (201 / 200) 101 2 (by norm_num) (by norm_num) (by norm_num)
    rw [this]
    norm_num
  · rw [hsum]
    have := toFixed_eq_of_bounds (7 / 20) 4 1 (by norm_num) (by norm_num) (by norm_num)
    rw [this]
    norm_num

/-- C17, amended: for every non-empty trade list within range,
`calculatePeriodStats` reports `winRate` as the win rate computed in double
arithmetic (the quotient wins / total rounded to a double, its product with
100 rounded to a double) rounded to one decimal; the reported rate lies
between 0 and 100, the computed rate is within `2^(-45)` of the exact
percentage, and the reported rate within `0.05 + 2^(-45)` of it. `avgRR` is
the mean of `rrRatio` as accumulated in doubles in list order, rounded to two
decimals, and `netPips` the running double sum of the pips, rounded to one
decimal; when the pips are integers of magnitude at most `10^6`, `netPips` is
their exact sum. Both running sums are below `10^21` in magnitude. Rounding
to `d` decimals yields a multiple of `10^(-d)` at distance at most half of
`10^(-d)` from the number rounded. -/
theorem calculatePeriodStats_computed (trades : List Trade) (h : trades ≠ [])
    (hr : inRange trades) :
    (calculatePeriodStats trades).winRate = toFixed (computedWinRate trades) 1 ∧
      0 ≤ (calculatePeriodStats trades).winRate ∧
      (calculatePeriodStats trades).winRate ≤ 100 ∧
      |computedWinRate trades - exactWinRate trades| ≤ 1 / 2 ^ 45 ∧
      |(calculatePeriodStats trades).winRate - exactWinRate trades| ≤ 1 / 20 + 1 / 2 ^ 45 ∧
      (calculatePeriodStats trades).avgRR =
        toFixed (doubleMean (fun t => t.rrRatio) trades) 2 ∧
      (calculatePeriodStats trades).netPips = toFixed (doubleSum (fun t => t.pips) trades) 1 ∧
      ((∀ t ∈ trades, ∃ z : ℤ, t.pips = z ∧ |z| ≤ 10 ^ 6) →
        (calculatePeriodStats trades).netPips = (trades.map fun t => t.pips).sum) ∧
      |doubleSum (fun t => t.rrRatio) trades| < 10 ^ 21 ∧
      |doubleSum (fun t => t.pips) trades| < 10 ^ 21 ∧
      (∀ (x : ℚ) (d : Nat), (∃ n : Int, toFixed x d = (n : ℚ) / 10 ^ d) ∧
        |toFixed x d - x| ≤ 1 / (2 * 10 ^ d)) := by
  have hrr := abs_doubleSum_lt (fun t => t.rrRatio) trades (fun t ht => (hr.2 t ht).2.1) hr.1
  have hpp := abs_doubleSum_lt (fun t => t.pips) trades (fun t ht => (hr.2 t ht).1) hr.1
  obtain ⟨hlen, -⟩ := hr
  obtain ⟨c0, c100, cacc⟩ := computedWinRate_spec trades h hlen
  have hw := winRate_eq trades h
  refine ⟨hw, ?_, ?_, cacc, ?_, avgRR_eq trades, netPips_eq trades, ?_, hrr, hpp,
    toFixed_spec⟩
  · rw [hw]; exact (toFixed_one_bounds _ c0 c100).1
  · rw [hw]; exact (toFixed_one_bounds _ c0 c100).2
  · rw [hw]
    have h1 := (toFixed_spec (computedWinRate trades) 1).2
    have e : toFixed (computedWinRate trades) 1 - exactWinRate trades =
        (toFixed (computedWinRate trades) 1 - computedWinRate trades) +
          (computedWinRate trades - exactWinRate trades) := by ring
    rw [e]
    refine le_trans (abs_add _ _) ?_
    have h2 : (1 : ℚ) / (2 * 10 ^ 1) = 1 / 20 := by norm_num
    rw [h2] at h1
    exact add_le_add h1 cacc
  · intro hint
    rw [netPips_eq]
    have hcongr : doubleSum (fun t => t.pips) trades =
        doubleSum (fun t => ((⌊t.pips⌋ : ℤ) : ℚ)) trades := by
      apply doubleSum_congr
      intro t ht
      obtain ⟨z, hz, -⟩ := hint t ht
      simp only [hz, Int.floor_intCast]
    have hB : ∀ t ∈ trades, |⌊t.pips⌋| ≤ ((10 ^ 6 : ℕ) : ℤ) := by
      intro t ht
      obtain ⟨z, hz, hzb⟩ := hint t ht
      rw [hz, Int.floor_intCast]
      exact_mod_cast hzb
    have hsz : trades.length * 10 ^ 6 ≤ 2 ^ 53 := by
      have : trades.length * 10 ^ 6 ≤ 2 ^ 32 * 10 ^ 6 :=
        Nat.mul_le_mul_right _ (le_of_lt hlen)
      exact le_trans this (by norm_num)
    obtain ⟨hs, -⟩ := doubleSum_intCast (fun t => ⌊t.pips⌋) (10 ^ 6) trades hB hsz
    rw [hcongr, hs, toFixed_intCast]
    have hmap : (trades.map fun t => t.pips) = trades.map fun t => ((⌊t.pips⌋ : ℤ) : ℚ) := by
      apply List.map_congr_left
      intro t ht
      obtain ⟨z, hz, -⟩ := hint t ht
      simp only [hz, Int.floor_intCast]
    rw [hmap]
    have : (trades.map fun t => ((⌊t.pips⌋ : ℤ) : ℚ)) =
        (trades.map fun t => ⌊t.pips⌋).map fun z : ℤ => (z : ℚ) := by
      rw [List.map_map]
      rfl
    rw [this]
    induction (trades.map fun t => ⌊t.pips⌋) with
    | nil => simp
    | cons a l ih => simp [ih]

/-- Witness for C17: a period of three trades with one win. -/
theorem calculatePeriodStats_computed_witness :
    examplePeriod ≠ [] ∧ inRange examplePeriod ∧
      (calculatePeriodStats examplePeriod).winRate = 333 / 10 ∧
      (calculatePeriodStats examplePeriod).avgRR = 2 ∧
      (calculatePeriodStats examplePeriod).netPips = -10 := by
  have h : examplePeriod ≠ [] := by decide
  have hr : inRange examplePeriod := by
    refine ⟨by norm_num [examplePeriod], ?_⟩
    intro t ht
    simp only [examplePeriod, List.mem_cons, List.mem_singleton, List.not_mem_nil,
      or_false] at ht
    rcases ht with h | h | h <;> subst h <;> norm_num [abs_le]
  obtain ⟨h1, -, -, hacc, -, h2, -, h3, -, -, -⟩ :=
    calculatePeriodStats_computed examplePeriod h hr
  have hex : exactWinRate examplePeriod = 100 / 3 := by
    have : (examplePeriod.filter fun t => t.outcome = "Win").length = 1 := by decide
    rw [exactWinRate, this]
    norm_num [examplePeriod]
  rw [hex, abs_le] at hacc
  have hc0 : 0 ≤ computedWinRate examplePeriod := by norm_num at hacc; linarith [hacc.1]
  have hw : toFixed (computedWinRate examplePeriod) 1 = 333 / 10 := by
    have := toFixed_eq_of_bounds (computedWinRate examplePeriod) 333 1 hc0
      (by norm_num at hacc ⊢; linarith [hacc.1]) (by norm_num at hacc ⊢; linarith [hacc.2])
    rw [this]
    norm_num
  have hrr : doubleMean (fun t => t.rrRatio) examplePeriod = 2 := by
    have hs : doubleSum (fun t => t.rrRatio) examplePeriod = 6 := by
      simp only [doubleSum, examplePeriod, List.foldl]
      have a1 := fadd_intCast 0 1 (by norm_num) (by norm_num)
      have a2 := fadd_intCast 1 2 (by norm_num) (by norm_num)
      have a3 := fadd_intCast 3 3 (by norm_num) (by norm_num)
      norm_num at a1 a2 a3
      rw [a1, a2, a3]
    have hd := fdiv_intCast_exact 6 3 2 (by norm_num) (by norm_num) (by norm_num)
      (by norm_num) (by norm_num)
    rw [doubleMean, hs]
    norm_num [examplePeriod] at hd ⊢
    exact hd
  have hfix : toFixed (2 : ℚ) 2 = 2 := by
    have := toFixed_intCast 2 2
    simpa using this
  have hnet := h3 (by
    intro t ht
    simp only [examplePeriod, List.mem_cons, List.mem_singleton, List.not_mem_nil,
      or_false] at ht
    rcases ht with h | h | h <;> subst h
    · exact ⟨-10, by norm_num, by norm_num⟩
    · exact ⟨-5, by norm_num, by norm_num⟩
    · exact ⟨5, by norm_num, by norm_num⟩)
  refine ⟨h, hr, h1.trans hw, ?_, ?_⟩
  · rw [h2, hrr, hfix]
  · rw [hnet]
    norm_num [examplePeriod]
/-! ## Lemmas on tally objects -/

theorem firstKeys_concat (keys : List String) (k : String) :
    firstKeys (keys ++ [k]) =
      if k ∈ firstKeys keys then firstKeys keys else firstKeys keys ++ [k] := by
  simp [firstKeys, List.foldl_append]

theorem mem_firstKeys (keys : List String) : ∀ k : String, k ∈ firstKeys keys ↔ k ∈ keys := by
  induction keys using List.reverseRecOn with
  | nil => simp [firstKeys]
  | append_singleton l a ih =>
    intro k
    rw [firstKeys_concat]
    split_ifs with h
    · rw [List.mem_append, List.mem_singleton, ih]
      constructor
      · exact Or.inl
      · rintro (h1 | h1)
        · exact h1
        · rw [h1]; exact (ih a).mp h
    · simp only [List.mem_append, List.mem_singleton, ih]

theorem firstKeys_split (keys : List String) :
    ∀ (K1 K2 : List String) (k : String), firstKeys keys = K1 ++ k :: K2 →
      ∃ A R, keys = A ++ k :: R ∧ k ∉ A ∧ ∀ a ∈ A, a ∈ K1 := by
  induction keys using List.reverseRecOn with
  | nil =>
    intro K1 K2 k h
    simp [firstKeys] at h
  | append_singleton l x ih =>
    intro K1 K2 k h
    rw [firstKeys_concat] at h
    split_ifs at h with hx
    · obtain ⟨A, R, hl, hk, hA⟩ := ih K1 K2 k h
      exact ⟨A, R ++ [x], by simp [hl], hk, hA⟩
    · rcases List.eq_nil_or_concat K2 with h2 | ⟨K2', y, h2⟩
      · subst h2
        have h' : firstKeys l ++ [x] = K1 ++ [k] := h
        obtain ⟨h3, h4⟩ := List.append_inj' h' rfl
        have hxk : x = k := by simpa using h4
        subst hxk
        refine ⟨l, [], rfl, ?_, ?_⟩
        · exact fun hm => hx ((mem_firstKeys l x).mpr hm)
        · intro a ha
          rw [← h3]
          exact (mem_firstKeys l a).mpr ha
      · subst h2
        have h' : firstKeys l ++ [x] = (K1 ++ k :: K2') ++ [y] := by
          rw [h]; simp
        obtain ⟨h3, -⟩ := List.append_inj' h' rfl
        obtain ⟨A, R, hl, hk, hA⟩ := ih K1 K2' k h3
        exact ⟨A, R ++ [x], by simp [hl], hk, hA⟩

theorem map_fst_upsert {σ : Type} (key : String) (f : Option σ → σ) (E : List (String × σ)) :
    (upsert key f E).map Prod.fst =
      if key ∈ E.map Prod.fst then E.map Prod.fst else E.map Prod.fst ++ [key] := by
  induction E with
  | nil => simp [upsert]
  | cons e E ih =>
    obtain ⟨k, v⟩ := e
    by_cases hk : k = key
    · simp [upsert, hk]
    · have hk' : ¬ key = k := fun h => hk h.symm
      simp only [upsert, hk, if_false, List.map_cons, ih, List.mem_cons, hk', false_or]
      split_ifs <;> simp

theorem nodup_firstKeys (keys : List String) : (firstKeys keys).Nodup := by
  induction keys using List.reverseRecOn with
  | nil => simp [firstKeys]
  | append_singleton l x ih =>
    rw [firstKeys_concat]
    split_ifs with hx
    · exact ih
    · rw [List.nodup_append]
      refine ⟨ih, List.nodup_singleton x, ?_⟩
      intro a ha hb
      rw [List.mem_singleton] at hb
      subst hb
      exact hx ha

theorem mem_upsert {σ : Type} (key : String) (f : Option σ → σ) (E : List (String × σ))
    (hnd : (E.map Prod.fst).Nodup) (e : String × σ) (he : e ∈ upsert key f E) :
    (e ∈ E ∧ e.1 ≠ key) ∨ (∃ v, (key, v) ∈ E ∧ e = (key, f (some v))) ∨
      (key ∉ E.map Prod.fst ∧ e = (key, f none)) := by
  induction E with
  | nil =>
    simp only [upsert, List.mem_singleton] at he
    exact Or.inr (Or.inr ⟨by simp, he⟩)
  | cons x E ih =>
    obtain ⟨k, v⟩ := x
    rw [List.map_cons, List.nodup_cons] at hnd
    by_cases hk : k = key
    · subst hk
      simp only [upsert, if_true, List.mem_cons] at he
      rcases he with he | he
      · exact Or.inr (Or.inl ⟨v, List.mem_cons_self _ _, he⟩)
      · refine Or.inl ⟨List.mem_cons_of_mem _ he, ?_⟩
        intro h1
        have hm : e.1 ∈ E.map Prod.fst := List.mem_map_of_mem Prod.fst he
        rw [h1] at hm
        exact hnd.1 hm
    · simp only [upsert, hk, if_false, List.mem_cons] at he
      rcases he with he | he
      · subst he
        exact Or.inl ⟨List.mem_cons_self _ _, hk⟩
      · rcases ih hnd.2 he with ⟨h1, h2⟩ | ⟨w, h1, h2⟩ | ⟨h1, h2⟩
        · exact Or.inl ⟨List.mem_cons_of_mem _ h1, h2⟩
        · exact Or.inr (Or.inl ⟨w, List.mem_cons_of_mem _ h1, h2⟩)
        · refine Or.inr (Or.inr ⟨?_, h2⟩)
          simp only [List.map_cons, List.mem_cons, not_or]
          exact ⟨fun h => hk h.symm, h1⟩

theorem mem_objectEntries {σ : Type} (E : List (String × σ)) (e : String × σ) :
    e ∈ objectEntries E ↔ e ∈ E := by
  unfold objectEntries
  rw [List.mem_append, (List.perm_insertionSort _ _).mem_iff, List.mem_filter, List.mem_filter]
  cases h : isArrayIndex e.1 <;> simp [h]

theorem objectEntries_of_no_index {σ : Type} (E : List (String × σ))
    (h : ∀ e ∈ E, isArrayIndex e.1 = false) : objectEntries E = E := by
  unfold objectEntries
  have h1 : E.filter (fun e => isArrayIndex e.1) = [] := by
    rw [List.filter_eq_nil_iff]
    intro e he
    simp [h e he]
  have h2 : E.filter (fun e => !isArrayIndex e.1) = E := by
    rw [List.filter_eq_self]
    intro e he
    simp [h e he]
  rw [h1, h2]
  rfl

theorem pairSum_concat (l : List Trade) (t : Trade) (pair : String) :
    pairSum (l ++ [t]) pair =
      if t.currencyPair = pair then fadd (pairSum l pair) t.pips else pairSum l pair := by
  unfold pairSum
  rw [List.filter_append]
  by_cases h : t.currencyPair = pair
  · have : [t].filter (fun t => decide (t.currencyPair = pair)) = [t] := by simp [List.filter, h]
    rw [this, doubleSum_concat, if_pos h]
  · have : [t].filter (fun t => decide (t.currencyPair = pair)) = [] := by simp [List.filter, h]
    rw [this, List.append_nil, if_neg h]

theorem pairSum_of_not_mem (l : List Trade) (pair : String)
    (h : pair ∉ l.map fun t => t.currencyPair) : pairSum l pair = 0 := by
  unfold pairSum
  have : l.filter (fun t => decide (t.currencyPair = pair)) = [] := by
    rw [List.filter_eq_nil_iff]
    intro t ht hc
    exact h (List.mem_map.mpr ⟨t, ht, by simpa using hc⟩)
  rw [this]
  rfl

theorem addPips_some (t : Trade) (v : ℚ) : addPips t (some v) = fadd v t.pips := by
  simp only [addPips]
  split_ifs with h0
  · rw [h0]
  · rfl

theorem pairStats_concat (l : List Trade) (t : Trade) :
    pairStats (l ++ [t]) = upsert t.currencyPair (addPips t) (pairStats l) := by
  simp [pairStats, List.foldl_append]

theorem pairStats_spec (trades : List Trade) :
    (pairStats trades).map Prod.fst = firstKeys (trades.map fun t => t.currencyPair) ∧
      ∀ e ∈ pairStats trades, e.2 = pairSum trades e.1 := by
  induction trades using List.reverseRecOn with
  | nil => simp [pairStats, firstKeys]
  | append_singleton l t ih =>
    obtain ⟨ihk, ihv⟩ := ih
    have hkeys : (pairStats (l ++ [t])).map Prod.fst =
        firstKeys ((l ++ [t]).map fun t => t.currencyPair) := by
      rw [pairStats_concat, map_fst_upsert, List.map_append, List.map_singleton,
        firstKeys_concat, ihk]
    refine ⟨hkeys, ?_⟩
    intro e he
    rw [pairStats_concat] at he
    have hnd : ((pairStats l).map Prod.fst).Nodup := by
      rw [ihk]; exact nodup_firstKeys _
    rcases mem_upsert _ _ _ hnd e he with ⟨h1, h2⟩ | ⟨v, h1, h2⟩ | ⟨h1, h2⟩
    · rw [pairSum_concat, if_neg (fun h => h2 h.symm)]
      exact ihv e h1
    · have hv : v = pairSum l t.currencyPair := ihv _ h1
      rw [h2, pairSum_concat, if_pos rfl, addPips_some, hv]
    · rw [ihk, mem_firstKeys] at h1
      rw [h2, pairSum_concat, if_pos rfl, pairSum_of_not_mem l _ h1]
      simp [addPips]

theorem bestPairOf_spec (E : List (String × ℚ)) (hE : E ≠ []) :
    ∃ E1 e E2, E = E1 ++ e :: E2 ∧ bestPairOf E = (pairLabel e.1 e.2, some e.2) ∧
      (∀ x ∈ E1, x.2 < e.2) ∧ (∀ x ∈ E2, x.2 ≤ e.2) := by
  induction E using List.reverseRecOn with
  | nil => exact absurd rfl hE
  | append_singleton l x ih =>
    have hstep : bestPairOf (l ++ [x]) = betterPair (bestPairOf l) x := by
      simp [bestPairOf, List.foldl_append]
    by_cases hl : l = []
    · subst hl
      exact ⟨[], x, [], rfl, rfl, by simp, by simp⟩
    · obtain ⟨E1, e, E2, hsplit, hbest, h1, h2⟩ := ih hl
      rw [hstep, hbest]
      by_cases hx : x.2 > e.2
      · refine ⟨l, x, [], rfl, by simp [betterPair, hx], ?_, by simp⟩
        intro y hy
        rw [hsplit, List.mem_append, List.mem_cons] at hy
        rcases hy with hy | hy | hy
        · exact lt_trans (h1 y hy) hx
        · rw [hy]; exact hx
        · exact lt_of_le_of_lt (h2 y hy) hx
      · refine ⟨E1, e, E2 ++ [x], by simp [hsplit], by simp [betterPair, hx], h1, ?_⟩
        intro y hy
        rw [List.mem_append, List.mem_singleton] at hy
        rcases hy with hy | hy
        · exact h2 y hy
        · rw [hy]; exact not_lt.mp hx

theorem bestPair_eq (trades : List Trade) :
    (calculatePeriodStats trades).bestPair =
      (bestPairOf (objectEntries (pairStats trades))).1 := rfl

theorem mem_upsert_weak {σ : Type} (key : String) (f : Option σ → σ) (E : List (String × σ))
    (e : String × σ) (he : e ∈ upsert key f E) :
    e ∈ E ∨ (∃ v, (key, v) ∈ E ∧ e = (key, f (some v))) ∨ e = (key, f none) := by
  induction E with
  | nil =>
    simp only [upsert, List.mem_singleton] at he
    exact Or.inr (Or.inr he)
  | cons x E ih =>
    obtain ⟨k, v⟩ := x
    by_cases hk : k = key
    · subst hk
      simp only [upsert, if_true, List.mem_cons] at he
      rcases he with he | he
      · exact Or.inr (Or.inl ⟨v, List.mem_cons_self _ _, he⟩)
      · exact Or.inl (List.mem_cons_of_mem _ he)
    · simp only [upsert, hk, if_false, List.mem_cons] at he
      rcases he with he | he
      · exact Or.inl (he ▸ List.mem_cons_self _ _)
      · rcases ih he with h1 | ⟨w, h1, h2⟩ | h2
        · exact Or.inl (List.mem_cons_of_mem _ h1)
        · exact Or.inr (Or.inl ⟨w, List.mem_cons_of_mem _ h1, h2⟩)
        · exact Or.inr (Or.inr h2)

theorem strategyStats_noWins (trades : List Trade) (h : ∀ t ∈ trades, t.outcome ≠ "Win") :
    ∀ e ∈ strategyStats trades, e.2.wins = 0 := by
  induction trades using List.reverseRecOn with
  | nil => simp [strategyStats]
  | append_singleton l t ih =>
    have hl : ∀ u ∈ l, u.outcome ≠ "Win" := fun u hu => h u (by simp [hu])
    have ht : t.outcome ≠ "Win" := h t (by simp)
    have hstep : strategyStats (l ++ [t]) =
        upsert t.strategyName (addToStrategy t) (strategyStats l) := by
      simp [strategyStats, List.foldl_append]
    intro e he
    rw [hstep] at he
    rcases mem_upsert_weak _ _ _ e he with h1 | ⟨v, h1, h2⟩ | h2
    · exact ih hl e h1
    · have hv : v.wins = 0 := ih hl _ h1
      rw [h2]
      simp [addToStrategy, ht, hv]
    · rw [h2]
      simp [addToStrategy, ht]

theorem sessionStats_noWins (trades : List Trade) (h : ∀ t ∈ trades, t.outcome ≠ "Win") :
    ∀ e ∈ sessionStats trades, e.2.wins = 0 := by
  induction trades using List.reverseRecOn with
  | nil => simp [sessionStats]
  | append_singleton l t ih =>
    have hl : ∀ u ∈ l, u.outcome ≠ "Win" := fun u hu => h u (by simp [hu])
    have ht : t.outcome ≠ "Win" := h t (by simp)
    have hstep : sessionStats (l ++ [t]) =
        upsert t.session (addToSession t) (sessionStats l) := by
      simp [sessionStats, List.foldl_append]
    intro e he
    rw [hstep] at he
    rcases mem_upsert_weak _ _ _ e he with h1 | ⟨v, h1, h2⟩ | h2
    · exact ih hl e h1
    · have hv : v.wins = 0 := ih hl _ h1
      rw [h2]
      simp [addToSession, ht, hv]
    · rw [h2]
      simp [addToSession, ht]

theorem betterWinRate_noWins (name : String) (total : Nat) :
    betterWinRate ("N/A", 0) name 0 total = ("N/A", 0) := by
  simp [betterWinRate, fdiv_zero_left, fmul_zero_left]

theorem bestStrategy_noWins (trades : List Trade) (h : ∀ t ∈ trades, t.outcome ≠ "Win") :
    (calculatePeriodStats trades).bestStrategy = "N/A" ∧
      (calculatePeriodStats trades).bestSession = "N/A" := by
  have h1 : ∀ E : List (String × StrategyStat), (∀ e ∈ E, e.2.wins = 0) →
      bestStrategyOf E = ("N/A", 0) := by
    intro E
    unfold bestStrategyOf
    induction E with
    | nil => intro _; rfl
    | cons e E ih =>
      intro hE
      rw [List.foldl_cons, hE e (List.mem_cons_self _ _), betterWinRate_noWins]
      exact ih (fun x hx => hE x (List.mem_cons_of_mem _ hx))
  have h2 : ∀ E : List (String × SessionStat), (∀ e ∈ E, e.2.wins = 0) →
      bestSessionOf E = ("N/A", 0) := by
    intro E
    unfold bestSessionOf
    induction E with
    | nil => intro _; rfl
    | cons e E ih =>
      intro hE
      rw [List.foldl_cons, hE e (List.mem_cons_self _ _), betterWinRate_noWins]
      exact ih (fun x hx => hE x (List.mem_cons_of_mem _ hx))
  constructor
  · show (bestStrategyOf (objectEntries (strategyStats trades))).1 = "N/A"
    rw [h1 _ (fun e he => strategyStats_noWins trades h e ((mem_objectEntries _ e).mp he))]
  · show (bestSessionOf (objectEntries (sessionStats trades))).1 = "N/A"
    rw [h2 _ (fun e he => sessionStats_noWins trades h e ((mem_objectEntries _ e).mp he))]

/-- Comparing the computed quotient of an integer by a count below `2^32` with
a small integer gives the same answer as comparing the exact quotient. -/
theorem le_fl_div_iff (S : ℤ) (n : ℕ) (c : ℤ) (hn : 0 < n) (hn32 : n < 2 ^ 32)
    (hc : |c| ≤ 2 ^ 20) : (c : ℚ) ≤ fl ((S : ℚ) / (n : ℚ)) ↔ (c : ℚ) ≤ (S : ℚ) / (n : ℚ) := by
  have hnq : (0 : ℚ) < n := by exact_mod_cast hn
  have hflc : fl (c : ℚ) = c := fl_intCast c (by omega)
  constructor
  · intro h
    by_contra hlt
    rw [not_le, div_lt_iff₀ hnq] at hlt
    have h1 : S < c * n := by exact_mod_cast hlt
    have h2 : S + 1 ≤ c * n := h1
    have h3 : (S : ℚ) + 1 ≤ c * n := by exact_mod_cast h2
    have hn' : (n : ℚ) ≤ 2 ^ 32 := by exact_mod_cast le_of_lt hn32
    have h4 : (S : ℚ) / n ≤ c - 2 ^ (-32 : ℤ) := by
      rw [div_le_iff₀ hnq]
      have h5 : (2 : ℚ) ^ (-32 : ℤ) * n ≤ 1 := by
        calc (2 : ℚ) ^ (-32 : ℤ) * n ≤ 2 ^ (-32 : ℤ) * 2 ^ 32 :=
              mul_le_mul_of_nonneg_left hn' (le_of_lt (two_zpow_pos _))
          _ = 1 := by norm_num
      linarith
    have hrep : fl ((c : ℚ) - 2 ^ (-32 : ℤ)) = (c : ℚ) - 2 ^ (-32 : ℤ) := by
      apply fl_eq_self_of _ (c * 2 ^ 32 - 1) (-32)
      · push_cast
        have : (2 : ℚ) ^ (32 : ℕ) * 2 ^ (-32 : ℤ) = 1 := by norm_num
        linear_combination (c : ℚ) * this
      · rw [abs_le] at hc ⊢
        constructor <;> omega
      · norm_num
    have h6 := fl_mono h4
    rw [hrep] at h6
    have h7 := two_zpow_pos (-32 : ℤ)
    linarith
  · intro h
    have := fl_mono h
    rwa [hflc] at this

theorem storedScore_exists_int (t : Trade)
    (hs : ∀ f, t.aiFeedback = some f → 0 ≤ f.executionScore ∧ f.executionScore ≤ 10) :
    ∃ z : ℤ, storedScore t = (z : ℚ) ∧ 0 ≤ z ∧ z ≤ 10 := by
  unfold storedScore
  cases hf : t.aiFeedback with
  | none => exact ⟨5, by norm_num, by norm_num, by norm_num⟩
  | some f =>
    obtain ⟨h0, h10⟩ := hs f hf
    by_cases hz : f.executionScore = 0
    · exact ⟨5, by simp [hz], by norm_num, by norm_num⟩
    · exact ⟨f.executionScore, by simp [hz], h0, h10⟩

theorem storedScore_intCast (t : Trade)
    (hs : ∀ f, t.aiFeedback = some f → 0 ≤ f.executionScore ∧ f.executionScore ≤ 10) :
    storedScore t = ((⌊storedScore t⌋ : ℤ) : ℚ) ∧ |⌊storedScore t⌋| ≤ ((10 : ℕ) : ℤ) := by
  obtain ⟨z, hz, h0, h10⟩ := storedScore_exists_int t hs
  rw [hz, Int.floor_intCast]
  refine ⟨rfl, ?_⟩
  rw [abs_of_nonneg h0]
  exact_mod_cast h10

theorem sum_map_intCast (l : List ℤ) : ((l.map fun z : ℤ => (z : ℚ)).sum) = ((l.sum : ℤ) : ℚ) := by
  induction l with
  | nil => simp
  | cons a l ih => rw [List.map_cons, List.sum_cons, List.sum_cons, ih, Int.cast_add]

theorem executionTrend_eq (trades : List Trade) :
    (calculatePeriodStats trades).executionTrend =
      if doubleMean storedScore trades ≥ 7 then "Improving"
      else if doubleMean storedScore trades ≥ 5 then "Stable" else "Needs attention" := rfl

/-- For fewer than `2^32` trades with stored scores from 0 to 10 the computed
mean score compares with 7 and with 5 as the exact mean does. -/
theorem doubleMean_storedScore (trades : List Trade) (h : trades ≠ [])
    (hlen : trades.length < 2 ^ 32)
    (hs : ∀ t ∈ trades, ∀ f, t.aiFeedback = some f →
      0 ≤ f.executionScore ∧ f.executionScore ≤ 10) :
    (doubleMean storedScore trades ≥ 7 ↔ mean storedScore trades ≥ 7) ∧
      (doubleMean storedScore trades ≥ 5 ↔ mean storedScore trades ≥ 5) := by
  have hn : 0 < trades.length := List.length_pos.mpr h
  have hcongr : doubleSum storedScore trades =
      doubleSum (fun t => ((⌊storedScore t⌋ : ℤ) : ℚ)) trades :=
    doubleSum_congr _ _ _ (fun t ht => (storedScore_intCast t (hs t ht)).1)
  have hB : trades.length * 10 ≤ 2 ^ 53 := by
    have : trades.length * 10 ≤ 2 ^ 32 * 10 := Nat.mul_le_mul_right _ (le_of_lt hlen)
    exact le_trans this (by norm_num)
  obtain ⟨hsum, hbound⟩ := doubleSum_intCast (fun t => ⌊storedScore t⌋) 10 trades
    (fun t ht => (storedScore_intCast t (hs t ht)).2) hB
  have hS53 : |(trades.map fun t => ⌊storedScore t⌋).sum| ≤ 2 ^ 53 := by
    have : ((trades.length * 10 : ℕ) : ℤ) ≤ 2 ^ 53 := by exact_mod_cast hB
    push_cast at this
    exact le_trans hbound this
  have hdm : doubleMean storedScore trades =
      fl ((((trades.map fun t => ⌊storedScore t⌋).sum : ℤ) : ℚ) / (trades.length : ℚ)) := by
    rw [doubleMean, hcongr, hsum, fdiv, fl_intCast _ hS53, fl_natCast _ (by omega)]
  have hmean : mean storedScore trades =
      (((trades.map fun t => ⌊storedScore t⌋).sum : ℤ) : ℚ) / (trades.length : ℚ) := by
    unfold mean
    congr 1
    have hmap : trades.map storedScore = trades.map fun t => ((⌊storedScore t⌋ : ℤ) : ℚ) :=
      List.map_congr_left (fun t ht => (storedScore_intCast t (hs t ht)).1)
    have hmm : (trades.map fun t => ((⌊storedScore t⌋ : ℤ) : ℚ)) =
        (trades.map fun t => ⌊storedScore t⌋).map fun z : ℤ => (z : ℚ) := by
      rw [List.map_map]; rfl
    rw [hmap, hmm, sum_map_intCast]
  rw [hdm, hmean]
  have h7 := le_fl_div_iff (trades.map fun t => ⌊storedScore t⌋).sum trades.length 7 hn hlen
    (by norm_num)
  have h5 := le_fl_div_iff (trades.map fun t => ⌊storedScore t⌋).sum trades.length 5 hn hlen
    (by norm_num)
  rw [show ((7 : ℤ) : ℚ) = 7 by norm_num] at h7
  rw [show ((5 : ℤ) : ℚ) = 5 by norm_num] at h5
  exact ⟨h7, h5⟩

theorem addPips_none (t : Trade) : addPips t none = fadd 0 t.pips := rfl

theorem isArrayIndex_of_plainKey (key : String) (h : plainKey key = true) :
    isArrayIndex key = false := by
  unfold plainKey at h
  cases hi : isArrayIndex key
  · rfl
  · rw [hi] at h
    simp at h

theorem abs_pairSum_lt (trades : List Trade) (hr : inRange trades) (pair : String) :
    |pairSum trades pair| < 10 ^ 21 := by
  unfold pairSum
  apply abs_doubleSum_lt
  · intro t ht
    exact (hr.2 t (List.mem_of_mem_filter ht)).1
  · exact lt_of_le_of_lt (List.length_filter_le _ _) hr.1
/-! ## Theorems on the period statistics -/

/-- C18, evaluated at the failing input: for a period of one losing trade
(strategy Breakout, session London) the strategy and the session of the list
have the maximal win rate, 0 %, yet `bestStrategy` and `bestSession` are
`N/A`, not a label of that strategy or session; `bestPair`, whose loop starts
from `-Infinity`, does name the pair of the trade. -/
theorem bestStrategy_noWins_example :
    exampleLosingPeriod ≠ [] ∧
      (∀ t ∈ exampleLosingPeriod, t.strategyName = "Breakout" ∧ t.session = "London") ∧
      (calculatePeriodStats exampleLosingPeriod).bestStrategy = "N/A" ∧
      (calculatePeriodStats exampleLosingPeriod).bestSession = "N/A" ∧
      (calculatePeriodStats exampleLosingPeriod).bestPair = pairLabel "EURUSD" (-10) := by
  have h := bestStrategy_noWins exampleLosingPeriod (by decide)
  have hadd : fadd 0 (-10) = -10 := by
    have := fadd_intCast 0 (-10) (by norm_num) (by norm_num)
    norm_num at this
    exact this
  have hps : pairStats exampleLosingPeriod = [("EURUSD", -10)] := by
    simp [pairStats, exampleLosingPeriod, List.foldl, upsert, addPips, hadd]
  have hb : (calculatePeriodStats exampleLosingPeriod).bestPair = pairLabel "EURUSD" (-10) := by
    rw [bestPair_eq, hps, objectEntries_of_no_index _ (by decide)]
    simp [bestPairOf, List.foldl, betterPair]
  exact ⟨by decide, by decide, h.1, h.2, hb⟩

/-- C19, as stated, fails on both counts. When GBPUSD makes 0.3 pips and then
EURUSD makes 0.1 and 0.2 pips, the two sums are equal and GBPUSD is met first,
yet `bestPair` names EURUSD: its sum is accumulated in doubles and is
`0.30000000000000004`, above the double read for 0.3. The same happens when
all pips are doubles: EURUSD makes 1, `2^(-53)` and `2^(-53)` pips and then
GBPUSD makes `1 + 2^(-52)`; the sums are equal and EURUSD is met first, yet
`bestPair` names GBPUSD, the accumulated sum of EURUSD being 1. When the
pairs are named `2` and `1` and make 5 pips each, the pair `2` is met first,
yet `bestPair` names the pair `1`: keys that are array indices are enumerated
first, in ascending order. -/
theorem bestPair_counterexample :
    (roundedPairsPeriod ≠ [] ∧
      pairPips roundedPairsPeriod "GBPUSD" = 3 / 10 ∧
      pairPips roundedPairsPeriod "EURUSD" = 3 / 10 ∧
      pairSum roundedPairsPeriod "GBPUSD" = 5404319552844595 / 18014398509481984 ∧
      pairSum roundedPairsPeriod "EURUSD" = 1351079888211149 / 4503599627370496 ∧
      (calculatePeriodStats roundedPairsPeriod).bestPair =
        pairLabel "EURUSD" (1351079888211149 / 4503599627370496)) ∧
    (dyadicPairsPeriod ≠ [] ∧
      (∀ t ∈ dyadicPairsPeriod, fl t.pips = t.pips) ∧
      pairPips dyadicPairsPeriod "EURUSD" = 4503599627370497 / 4503599627370496 ∧
      pairPips dyadicPairsPeriod "GBPUSD" = 4503599627370497 / 4503599627370496 ∧
      dyadicPairsPeriod.head?.map (fun t => t.currencyPair) = some "EURUSD" ∧
      pairSum dyadicPairsPeriod "EURUSD" = 1 ∧
      pairSum dyadicPairsPeriod "GBPUSD" = 4503599627370497 / 4503599627370496 ∧
      (calculatePeriodStats dyadicPairsPeriod).bestPair =
        pairLabel "GBPUSD" (4503599627370497 / 4503599627370496)) ∧
    (numeralPairsPeriod ≠ [] ∧
      pairPips numeralPairsPeriod "2" = 5 ∧ pairPips numeralPairsPeriod "1" = 5 ∧
      numeralPairsPeriod.head?.map (fun t => t.currencyPair) = some "2" ∧
      (calculatePeriodStats numeralPairsPeriod).bestPair = pairLabel "1" 5) := by
  have h01 : fl (1 / 10 : ℚ) = 3602879701896397 / 36028797018963968 := by
    apply fl_eq_of_cert _ _ (-4) 7205759403792794 <;> norm_num [abs_lt]
  have h02 : fl (2 / 10 : ℚ) = 3602879701896397 / 18014398509481984 := by
    apply fl_eq_of_cert _ _ (-3) 7205759403792794 <;> norm_num [abs_lt]
  have h03 : fl (3 / 10 : ℚ) = 5404319552844595 / 18014398509481984 := by
    apply fl_eq_of_cert _ _ (-2) 5404319552844595 <;> norm_num [abs_lt]
  have hg : fadd 0 (3 / 10) = 5404319552844595 / 18014398509481984 := by
    rw [fadd_zero_left, h03]
  have he1 : fadd 0 (1 / 10) = 3602879701896397 / 36028797018963968 := by
    rw [fadd_zero_left, h01]
  have he2 : fadd (3602879701896397 / 36028797018963968) (2 / 10) =
      1351079888211149 / 4503599627370496 := by
    rw [fadd, ← h01, fl_fl, h01, h02]
    apply fl_eq_of_tie _ _ (-2) 5404319552844595 5404319552844596 <;> norm_num
  have hps : pairStats roundedPairsPeriod =
      [("GBPUSD", 5404319552844595 / 18014398509481984),
        ("EURUSD", 1351079888211149 / 4503599627370496)] := by
    simp only [pairStats, roundedPairsPeriod, pairTrade, List.foldl, upsert, addPips_none,
      addPips_some, hg, he1, if_neg (show ¬ ("GBPUSD" = "EURUSD") by decide), if_true, he2]
  have hb1 : (calculatePeriodStats roundedPairsPeriod).bestPair =
      pairLabel "EURUSD" (1351079888211149 / 4503599627370496) := by
    rw [bestPair_eq, hps, objectEntries_of_no_index _ (by decide)]
    simp only [bestPairOf, List.foldl, betterPair]
    norm_num
  have hsG : pairSum roundedPairsPeriod "GBPUSD" = 5404319552844595 / 18014398509481984 := by
    have := (pairStats_spec roundedPairsPeriod).2
      ("GBPUSD", 5404319552844595 / 18014398509481984) (by rw [hps]; simp)
    exact this.symm
  have hsE : pairSum roundedPairsPeriod "EURUSD" = 1351079888211149 / 4503599627370496 := by
    have := (pairStats_spec roundedPairsPeriod).2
      ("EURUSD", 1351079888211149 / 4503599627370496) (by rw [hps]; simp)
    exact this.symm
  have h5 : fadd 0 5 = 5 := by
    have := fadd_intCast 0 5 (by norm_num) (by norm_num)
    norm_num at this
    exact this
  have hps2 : pairStats numeralPairsPeriod = [("2", 5), ("1", 5)] := by
    simp only [pairStats, numeralPairsPeriod, pairTrade, List.foldl, upsert, addPips]
    simp [h5]
  have hoe : objectEntries ([("2", 5), ("1", 5)] : List (String × ℚ)) =
      [("1", 5), ("2", 5)] := by
    have i1 : isArrayIndex "1" = true := by decide
    have i2 : isArrayIndex "2" = true := by decide
    have v1 : indexValue "1" = 1 := by decide
    have v2 : indexValue "2" = 2 := by decide
    simp [objectEntries, List.filter, i1, i2, v1, v2, List.insertionSort, List.orderedInsert]
  have hb2 : (calculatePeriodStats numeralPairsPeriod).bestPair = pairLabel "1" 5 := by
    rw [bestPair_eq, hps2, hoe]
    simp [bestPairOf, List.foldl, betterPair]
  -- the period of doubles
  have d1 : fl (1 / 9007199254740992 : ℚ) = 1 / 9007199254740992 := by
    apply fl_eq_self_of _ 1 (-53) <;> norm_num
  have dg : fl (4503599627370497 / 4503599627370496 : ℚ) =
      4503599627370497 / 4503599627370496 := by
    apply fl_eq_self_of _ 4503599627370497 (-52) <;> norm_num
  have da1 : fadd 0 1 = 1 := by rw [fadd_zero_left, fl_one]
  have da2 : fadd 1 (1 / 9007199254740992) = 1 := by
    rw [fadd, fl_one, d1]
    apply fl_eq_of_tie _ _ 0 4503599627370496 4503599627370496 <;> norm_num
  have dag : fadd 0 (4503599627370497 / 4503599627370496) =
      4503599627370497 / 4503599627370496 := by rw [fadd_zero_left, dg]
  have hps3 : pairStats dyadicPairsPeriod =
      [("EURUSD", 1), ("GBPUSD", 4503599627370497 / 4503599627370496)] := by
    simp only [pairStats, dyadicPairsPeriod, pairTrade, List.foldl, upsert, addPips_none,
      addPips_some, da1, if_true, da2, if_neg (show ¬ ("EURUSD" = "GBPUSD") by decide), dag]
  have hb3 : (calculatePeriodStats dyadicPairsPeriod).bestPair =
      pairLabel "GBPUSD" (4503599627370497 / 4503599627370496) := by
    rw [bestPair_eq, hps3, objectEntries_of_no_index _ (by decide)]
    simp only [bestPairOf, List.foldl, betterPair]
    norm_num
  have hs3E : pairSum dyadicPairsPeriod "EURUSD" = 1 := by
    have := (pairStats_spec dyadicPairsPeriod).2 ("EURUSD", 1) (by rw [hps3]; simp)
    exact this.symm
  have hs3G : pairSum dyadicPairsPeriod "GBPUSD" = 4503599627370497 / 4503599627370496 := by
    have := (pairStats_spec dyadicPairsPeriod).2
      ("GBPUSD", 4503599627370497 / 4503599627370496) (by rw [hps3]; simp)
    exact this.symm
  have hdbl : ∀ t ∈ dyadicPairsPeriod, fl t.pips = t.pips := by
    intro t ht
    simp only [dyadicPairsPeriod, List.mem_cons, List.mem_singleton, List.not_mem_nil,
      or_false] at ht
    rcases ht with h | h | h | h <;> subst h
    · exact fl_one
    · exact d1
    · exact d1
    · exact dg
  refine ⟨⟨by decide, ?_, ?_, hsG, hsE, hb1⟩,
    ⟨by decide, hdbl, ?_, ?_, rfl, hs3E, hs3G, hb3⟩, ⟨by decide, ?_, ?_, rfl, hb2⟩⟩
  · simp [pairPips, roundedPairsPeriod, pairTrade]
  · simp [pairPips, roundedPairsPeriod, pairTrade]; norm_num
  · simp [pairPips, dyadicPairsPeriod, pairTrade]; norm_num
  · simp [pairPips, dyadicPairsPeriod, pairTrade]
  · simp [pairPips, numeralPairsPeriod, pairTrade]
  · simp [pairPips, numeralPairsPeriod, pairTrade]

/-- C19, amended: for every non-empty trade list within range in which every
currency pair is a plain key (not named by an array index such as `1`, nor
by a name inherited from `Object.prototype`), `bestPair` is the label of the
currency pair of a trade `t` of the list whose pips, accumulated in doubles
in list order, are maximal among the accumulated sums of all pairs, whatever
their sign; every trade before `t` in the list belongs to a pair with a
strictly smaller accumulated sum, so that among pairs tied at the maximum the
one met first in the list is chosen. Every accumulated sum is below `10^21`
in magnitude, the range in which the label prints it in decimal digits. -/
theorem bestPair_computed (trades : List Trade) (h : trades ≠ []) (hr : inRange trades)
    (hk : ∀ t ∈ trades, plainKey t.currencyPair = true) :
    ∃ pre t post, trades = pre ++ t :: post ∧
      (calculatePeriodStats trades).bestPair =
        pairLabel t.currencyPair (pairSum trades t.currencyPair) ∧
      (∀ u ∈ trades, pairSum trades u.currencyPair ≤ pairSum trades t.currencyPair) ∧
      (∀ u ∈ pre, pairSum trades u.currencyPair < pairSum trades t.currencyPair) ∧
      (∀ pair, |pairSum trades pair| < 10 ^ 21) := by
  obtain ⟨hkeys, hvals⟩ := pairStats_spec trades
  have hoe : objectEntries (pairStats trades) = pairStats trades := by
    apply objectEntries_of_no_index
    intro e he
    have hm : e.1 ∈ (pairStats trades).map Prod.fst := List.mem_map_of_mem Prod.fst he
    rw [hkeys, mem_firstKeys] at hm
    obtain ⟨t, ht, hte⟩ := List.mem_map.mp hm
    rw [← hte]
    exact isArrayIndex_of_plainKey _ (hk t ht)
  have hne : pairStats trades ≠ [] := by
    intro h0
    rw [h0] at hkeys
    obtain ⟨t, l, hl⟩ := List.exists_cons_of_ne_nil h
    have : t.currencyPair ∈ firstKeys (trades.map fun t => t.currencyPair) := by
      rw [mem_firstKeys, hl]; simp
    rw [← hkeys] at this
    simp at this
  obtain ⟨E1, e, E2, hsplit, hbest, h1, h2⟩ := bestPairOf_spec (pairStats trades) hne
  have he : e ∈ pairStats trades := by rw [hsplit]; simp
  have hev : e.2 = pairSum trades e.1 := hvals e he
  have hK : firstKeys (trades.map fun t => t.currencyPair) =
      E1.map Prod.fst ++ e.1 :: E2.map Prod.fst := by
    rw [← hkeys, hsplit]; simp
  obtain ⟨A, R, hAR, -, hA⟩ := firstKeys_split _ _ _ _ hK
  obtain ⟨pre, rest, hpr, hpre, hrest⟩ := List.map_eq_append_iff.mp hAR
  obtain ⟨t, post, hrest', ht, -⟩ := List.map_eq_cons_iff.mp hrest
  have hle : ∀ x ∈ pairStats trades, x.2 ≤ e.2 := by
    intro x hx
    rw [hsplit, List.mem_append, List.mem_cons] at hx
    rcases hx with hx | hx | hx
    · exact le_of_lt (h1 x hx)
    · rw [hx]
    · exact h2 x hx
  refine ⟨pre, t, post, by rw [hpr, hrest'], ?_, ?_, ?_, abs_pairSum_lt trades hr⟩
  · rw [bestPair_eq, hoe, hbest, ht, hev]
  · intro u hu
    have hmem : u.currencyPair ∈ (pairStats trades).map Prod.fst := by
      rw [hkeys, mem_firstKeys]
      exact List.mem_map_of_mem (fun t => t.currencyPair) hu
    obtain ⟨x, hx, hxu⟩ := List.mem_map.mp hmem
    have := hle x hx
    rw [hvals x hx, hev, hxu, ← ht] at this
    exact this
  · intro u hu
    have hmemA : u.currencyPair ∈ A := by
      rw [← hpre]
      exact List.mem_map_of_mem (fun t => t.currencyPair) hu
    obtain ⟨x, hx, hxu⟩ := List.mem_map.mp (hA _ hmemA)
    have hxE : x ∈ pairStats trades := by rw [hsplit]; simp [hx]
    have := h1 x hx
    rw [hvals x hxE, hev, hxu, ← ht] at this
    exact this

/-- Witness for C19: in the three-trade period the pairs EURUSD and GBPUSD tie
at a sum of -5 pips, and EURUSD, met first, is chosen. -/
theorem bestPair_computed_witness :
    examplePeriod ≠ [] ∧ inRange examplePeriod ∧
      (∀ t ∈ examplePeriod, plainKey t.currencyPair = true) ∧
      pairSum examplePeriod "EURUSD" = -5 ∧ pairSum examplePeriod "GBPUSD" = -5 ∧
      (calculatePeriodStats examplePeriod).bestPair = pairLabel "EURUSD" (-5) ∧
      ∃ pre t post, examplePeriod = pre ++ t :: post ∧
        (calculatePeriodStats examplePeriod).bestPair =
          pairLabel t.currencyPair (pairSum examplePeriod t.currencyPair) ∧
        (∀ u ∈ examplePeriod,
          pairSum examplePeriod u.currencyPair ≤ pairSum examplePeriod t.currencyPair) ∧
        (∀ u ∈ pre,
          pairSum examplePeriod u.currencyPair < pairSum examplePeriod t.currencyPair) ∧
        (∀ pair, |pairSum examplePeriod pair| < 10 ^ 21) := by
  have hr : inRange examplePeriod := by
    refine ⟨by norm_num [examplePeriod], ?_⟩
    intro t ht
    simp only [examplePeriod, List.mem_cons, List.mem_singleton, List.not_mem_nil,
      or_false] at ht
    rcases ht with h | h | h <;> subst h <;> norm_num [abs_le]
  have hk : ∀ t ∈ examplePeriod, plainKey t.currencyPair = true := by decide
  have a1 : fadd 0 (-10) = -10 := by
    have := fadd_intCast 0 (-10) (by norm_num) (by norm_num)
    norm_num at this
    exact this
  have a2 : fadd 0 (-5) = -5 := by
    have := fadd_intCast 0 (-5) (by norm_num) (by norm_num)
    norm_num at this
    exact this
  have a3 : fadd (-10) 5 = -5 := by
    have := fadd_intCast (-10) 5 (by norm_num) (by norm_num)
    norm_num at this
    exact this
  have hps : pairStats examplePeriod = [("EURUSD", -5), ("GBPUSD", -5)] := by
    simp only [pairStats, examplePeriod, List.foldl, upsert, addPips]
    simp [a1, a2, a3]
  have hb : (calculatePeriodStats examplePeriod).bestPair = pairLabel "EURUSD" (-5) := by
    rw [bestPair_eq, hps, objectEntries_of_no_index _ (by decide)]
    simp [bestPairOf, List.foldl, betterPair]
  have hsE : pairSum examplePeriod "EURUSD" = -5 := by
    have := (pairStats_spec examplePeriod).2 ("EURUSD", -5) (by rw [hps]; simp)
    exact this.symm
  have hsG : pairSum examplePeriod "GBPUSD" = -5 := by
    have := (pairStats_spec examplePeriod).2 ("GBPUSD", -5) (by rw [hps]; simp)
    exact this.symm
  exact ⟨by decide, hr, hk, hsE, hsG, hb, bestPair_computed examplePeriod (by decide) hr hk⟩

/-- C20, as stated, fails: a period of one trade whose stored execution score
is 0 has the mean stored score 0, below 5, yet its `executionTrend` is
`Stable`, not `Needs attention`: by `executionScore || 5` a stored score of 0
counts as 5. -/
theorem executionTrend_zeroScore_counterexample :
    zeroScorePeriod ≠ [] ∧ mean claimedStoredScore zeroScorePeriod = 0 ∧
      mean claimedStoredScore zeroScorePeriod < 5 ∧
      (calculatePeriodStats zeroScorePeriod).executionTrend = "Stable" := by
  have hm : mean claimedStoredScore zeroScorePeriod = 0 := by
    norm_num [mean, claimedStoredScore, zeroScorePeriod, storedFeedback]
  have h5 : fadd 0 5 = 5 := by
    have := fadd_intCast 0 5 (by norm_num) (by norm_num)
    norm_num at this
    exact this
  have hd : doubleMean storedScore zeroScorePeriod = 5 := by
    have hs : doubleSum storedScore zeroScorePeriod = 5 := by
      simp only [doubleSum, zeroScorePeriod, List.foldl, storedScore, storedFeedback]
      simp [h5]
    have := fdiv_intCast_exact 5 1 5 (by norm_num) (by norm_num) (by norm_num) (by norm_num)
      (by norm_num)
    rw [doubleMean, hs]
    norm_num [zeroScorePeriod] at this ⊢
    exact this
  refine ⟨by decide, hm, by rw [hm]; norm_num, ?_⟩
  rw [executionTrend_eq, hd]
  norm_num

/-- C20, amended: for every non-empty list of fewer than `2^32` trades whose
stored execution scores are integers from 0 to 10, `executionTrend` is decided
by the mean `m` of the scores of the trades, a trade without stored feedback
and a trade whose stored score is 0 both counting 5: `Improving` iff `m ≥ 7`,
`Stable` iff `5 ≤ m < 7`, `Needs attention` iff `m < 5`; a list in which no
trade carries stored feedback is `Stable`; and when no stored score is 0, `m`
is the mean of the stored scores with 5 for a trade without feedback. -/
theorem executionTrend_storedOrFive (trades : List Trade) (h : trades ≠ [])
    (hlen : trades.length < 2 ^ 32)
    (hs : ∀ t ∈ trades, ∀ f, t.aiFeedback = some f →
      0 ≤ f.executionScore ∧ f.executionScore ≤ 10) :
    ((calculatePeriodStats trades).executionTrend = "Improving" ↔
        mean storedScore trades ≥ 7) ∧
      ((calculatePeriodStats trades).executionTrend = "Stable" ↔
        5 ≤ mean storedScore trades ∧ mean storedScore trades < 7) ∧
      ((calculatePeriodStats trades).executionTrend = "Needs attention" ↔
        mean storedScore trades < 5) ∧
      ((∀ t ∈ trades, t.aiFeedback = none) →
        (calculatePeriodStats trades).executionTrend = "Stable") ∧
      ((∀ t ∈ trades, ∀ f, t.aiFeedback = some f → f.executionScore ≠ 0) →
        mean storedScore trades = mean claimedStoredScore trades) := by
  obtain ⟨d7, d5⟩ := doubleMean_storedScore trades h hlen hs
  have key : (calculatePeriodStats trades).executionTrend =
      if mean storedScore trades ≥ 7 then "Improving"
      else if mean storedScore trades ≥ 5 then "Stable" else "Needs attention" := by
    rw [executionTrend_eq]
    by_cases h7 : mean storedScore trades ≥ 7
    · rw [if_pos (d7.mpr h7), if_pos h7]
    · rw [if_neg (fun hc => h7 (d7.mp hc)), if_neg h7]
      by_cases h5 : mean storedScore trades ≥ 5
      · rw [if_pos (d5.mpr h5), if_pos h5]
      · rw [if_neg (fun hc => h5 (d5.mp hc)), if_neg h5]
  rw [key]
  refine ⟨?_, ?_, ?_, ?_, ?_⟩
  · split_ifs with h1 h2
    · simp [h1]
    · constructor
      · intro hc; exact absurd hc (by decide)
      · intro hc; exact absurd hc h1
    · constructor
      · intro hc; exact absurd hc (by decide)
      · intro hc; exact absurd hc h1
  · split_ifs with h1 h2
    · constructor
      · intro hc; exact absurd hc (by decide)
      · rintro ⟨-, hc⟩; exact absurd h1 (not_le.mpr hc)
    · simp only [true_iff]
      exact ⟨h2, not_le.mp h1⟩
    · constructor
      · intro hc; exact absurd hc (by decide)
      · rintro ⟨hc, -⟩; exact absurd hc h2
  · split_ifs with h1 h2
    · constructor
      · intro hc; exact absurd hc (by decide)
      · intro hc; exact absurd h1 (not_le.mpr (by linarith))
    · constructor
      · intro hc; exact absurd hc (by decide)
      · intro hc; exact absurd h2 (not_le.mpr hc)
    · simp only [true_iff]
      exact not_le.mp h2
  · intro hnone
    have hlenq : (0 : ℚ) < (trades.length : ℚ) := by
      exact_mod_cast List.length_pos.mpr h
    have hmap : trades.map storedScore = trades.map fun _ => (5 : ℚ) := by
      apply List.map_congr_left
      intro t ht
      simp [storedScore, hnone t ht]
    have hm : mean storedScore trades = 5 := by
      unfold mean
      rw [hmap, List.map_const', List.sum_replicate, nsmul_eq_mul]
      field_simp
    rw [hm]
    norm_num
  · intro hnz
    have hmap : trades.map storedScore = trades.map claimedStoredScore := by
      apply List.map_congr_left
      intro t ht
      unfold storedScore claimedStoredScore
      cases hf : t.aiFeedback with
      | none => rfl
      | some f => simp [hnz t ht f hf]
    unfold mean
    rw [hmap]

/-- Witness for C20: a period of three trades with stored scores 8 and 8 and
one trade without feedback has mean 7 and is `Improving`. -/
theorem executionTrend_storedOrFive_witness :
    examplePeriod ≠ [] ∧ examplePeriod.length < 2 ^ 32 ∧
      (∀ t ∈ examplePeriod, ∀ f, t.aiFeedback = some f →
        0 ≤ f.executionScore ∧ f.executionScore ≤ 10) ∧
      mean storedScore examplePeriod = 7 ∧
      (calculatePeriodStats examplePeriod).executionTrend = "Improving" := by
  have h : examplePeriod ≠ [] := by decide
  have hlen : examplePeriod.length < 2 ^ 32 := by norm_num [examplePeriod]
  have hs : ∀ t ∈ examplePeriod, ∀ f, t.aiFeedback = some f →
      0 ≤ f.executionScore ∧ f.executionScore ≤ 10 := by
    simp [examplePeriod, storedFeedback]
  have hm : mean storedScore examplePeriod = 7 := by
    norm_num [mean, storedScore, examplePeriod, storedFeedback]
  exact ⟨h, hlen, hs, hm,
    (executionTrend_storedOrFive examplePeriod h hlen hs).1.mpr (by rw [hm])⟩
/-! ## Lemmas for the remaining theorems -/

theorem riskGrade_eq (trades : List Trade) :
    (calculatePeriodStats trades).riskGrade =
      if doubleMean (fun t => t.riskPercentage) trades ≤ 1 then "A"
      else if doubleMean (fun t => t.riskPercentage) trades ≤ 2 then "B"
      else if doubleMean (fun t => t.riskPercentage) trades ≤ 3 then "C" else "D" := rfl

theorem riskPoints_anti {p₁ p₂ : ℚ} (h : p₁ ≤ p₂) : riskPoints p₂ ≤ riskPoints p₁ := by
  unfold riskPoints
  split_ifs <;> first | decide | (exfalso; linarith)

theorem fired_sublist (rules : List (Bool × String)) :
    (fired rules).Sublist (rules.map fun r => r.2) := by
  unfold fired
  exact (List.filter_sublist _).map _

theorem hasNegative_of_hasRevenge (trade : Trade) (h : hasRevengeEmotions trade = true) :
    hasNegativeEmotions trade = true := by
  rw [hasRevengeEmotions_iff] at h
  rw [hasNegativeEmotions_iff]
  obtain ⟨w, hw, hinc⟩ := h
  have hneg : w ∈ negativeWords := by
    simp only [List.mem_cons, List.mem_singleton, List.not_mem_nil, or_false] at hw
    rcases hw with h | h | h <;> subst h <;> decide
  rcases hinc with hinc | hinc
  · exact Or.inr (Or.inl (List.any_eq_true.mpr ⟨w, hneg, hinc⟩))
  · exact Or.inr (Or.inr (List.any_eq_true.mpr ⟨w, hneg, hinc⟩))

theorem strengthRules_ne_fallback (trade : Trade) :
    ∀ q ∈ strengthRules trade, q.2 ≠ "Trade logged for analysis" := by
  simp only [strengthRules, List.mem_cons, List.mem_singleton, List.not_mem_nil, or_false]
  rintro q (h | h | h | h | h | h) <;> subst h <;> dsimp only <;> decide

/-! ## Theorems on the remaining claims -/

/-- C21, as stated, fails: a period of three trades at 2.1 %, 3.7 % and 0.2 %
risk has the mean risk 2 %, for which the claim gives grade `B`, yet the grade
is `C` (and the review advises to reduce position sizing): the sum is
accumulated in doubles and the computed mean is `2.0000000000000004`. The same
happens when the risks are doubles: for `2 + 2^(-51)` and `2 - 2^(-52)` the
mean is `2 + 2^(-53)`, above 2, for which the claim gives grade `C`, yet the
grade is `B`: the sum rounds to 4 and the computed mean is 2. -/
theorem riskGrade_rounding_counterexample :
    (roundedRiskPeriod ≠ [] ∧
      mean (fun t => t.riskPercentage) roundedRiskPeriod = 2 ∧
      doubleMean (fun t => t.riskPercentage) roundedRiskPeriod =
        4503599627370497 / 2251799813685248 ∧
      (calculatePeriodStats roundedRiskPeriod).riskGrade = "C" ∧
      (generatePeriodReview roundedRiskPeriod "weekly").riskManagementGrade = some "C") ∧
    (dyadicRiskPeriod ≠ [] ∧
      (∀ t ∈ dyadicRiskPeriod, fl t.riskPercentage = t.riskPercentage) ∧
      mean (fun t => t.riskPercentage) dyadicRiskPeriod =
        18014398509481985 / 9007199254740992 ∧
      2 < mean (fun t => t.riskPercentage) dyadicRiskPeriod ∧
      doubleMean (fun t => t.riskPercentage) dyadicRiskPeriod = 2 ∧
      (calculatePeriodStats dyadicRiskPeriod).riskGrade = "B") := by
  have h21 : fl (21 / 10 : ℚ) = 4728779608739021 / 2251799813685248 := by
    apply fl_eq_of_cert _ _ 1 4728779608739021 <;> norm_num [abs_lt]
  have h37 : fl (37 / 10 : ℚ) = 4165829655317709 / 1125899906842624 := by
    apply fl_eq_of_cert _ _ 1 8331659310635418 <;> norm_num [abs_lt]
  have h02 : fl (2 / 10 : ℚ) = 3602879701896397 / 18014398509481984 := by
    apply fl_eq_of_cert _ _ (-3) 7205759403792794 <;> norm_num [abs_lt]
  have h3 : fl (3 : ℚ) = 3 := by apply fl_eq_self_of _ 3 0 <;> norm_num
  have s1 : fadd 0 (21 / 10) = 4728779608739021 / 2251799813685248 := by
    rw [fadd_zero_left, h21]
  have s2 : fadd (4728779608739021 / 2251799813685248) (37 / 10) =
      1632554864921805 / 281474976710656 := by
    rw [fadd, ← h21, fl_fl, h21, h37]
    apply fl_eq_of_tie _ _ 2 6530219459687219 6530219459687220 <;> norm_num
  have s3 : fadd (1632554864921805 / 281474976710656) (2 / 10) =
      6755399441055745 / 1125899906842624 := by
    have hrep : fl (1632554864921805 / 281474976710656 : ℚ) =
        1632554864921805 / 281474976710656 := by
      apply fl_eq_self_of _ 1632554864921805 (-48) <;> norm_num
    rw [fadd, hrep, h02]
    apply fl_eq_of_cert _ _ 2 6755399441055745 <;> norm_num [abs_lt]
  have hsum : doubleSum (fun t => t.riskPercentage) roundedRiskPeriod =
      6755399441055745 / 1125899906842624 := by
    simp only [doubleSum, roundedRiskPeriod, List.foldl, s1, s2, s3]
  have hd : doubleMean (fun t => t.riskPercentage) roundedRiskPeriod =
      4503599627370497 / 2251799813685248 := by
    have hl : ((roundedRiskPeriod.length : ℕ) : ℚ) = 3 := by simp [roundedRiskPeriod]
    have hrep : fl (6755399441055745 / 1125899906842624 : ℚ) =
        6755399441055745 / 1125899906842624 := by
      apply fl_eq_self_of _ 6755399441055745 (-50) <;> norm_num
    rw [doubleMean, hsum, hl, fdiv, hrep, h3]
    apply fl_eq_of_cert _ _ 1 4503599627370497 <;> norm_num [abs_lt]
  have hg : (calculatePeriodStats roundedRiskPeriod).riskGrade = "C" := by
    rw [riskGrade_eq, hd]
    norm_num
  -- the period of doubles
  have ha : fl (4503599627370497 / 2251799813685248 : ℚ) =
      4503599627370497 / 2251799813685248 := by
    apply fl_eq_self_of _ 4503599627370497 (-51) <;> norm_num
  have hb : fl (9007199254740991 / 4503599627370496 : ℚ) =
      9007199254740991 / 4503599627370496 := by
    apply fl_eq_self_of _ 9007199254740991 (-52) <;> norm_num
  have t1 : fadd 0 (4503599627370497 / 2251799813685248) =
      4503599627370497 / 2251799813685248 := by rw [fadd_zero_left, ha]
  have t2 : fadd (4503599627370497 / 2251799813685248) (9007199254740991 / 4503599627370496) =
      4 := by
    rw [fadd, ha, hb]
    apply fl_eq_of_cert _ _ 2 4503599627370496 <;> norm_num [abs_lt]
  have hsum' : doubleSum (fun t => t.riskPercentage) dyadicRiskPeriod = 4 := by
    simp only [doubleSum, dyadicRiskPeriod, List.foldl, t1, t2]
  have hd' : doubleMean (fun t => t.riskPercentage) dyadicRiskPeriod = 2 := by
    have hl : ((dyadicRiskPeriod.length : ℕ) : ℚ) = 2 := by simp [dyadicRiskPeriod]
    have hq := fdiv_intCast_exact 4 2 2 (by norm_num) (by norm_num) (by norm_num)
      (by norm_num) (by norm_num)
    rw [doubleMean, hsum', hl]
    norm_num at hq ⊢
    exact hq
  have hg' : (calculatePeriodStats dyadicRiskPeriod).riskGrade = "B" := by
    rw [riskGrade_eq, hd']
    norm_num
  have hmean' : mean (fun t => t.riskPercentage) dyadicRiskPeriod =
      18014398509481985 / 9007199254740992 := by
    norm_num [mean, dyadicRiskPeriod]
  have hdbl : ∀ t ∈ dyadicRiskPeriod, fl t.riskPercentage = t.riskPercentage := by
    intro t ht
    simp only [dyadicRiskPeriod, List.mem_cons, List.mem_singleton, List.not_mem_nil,
      or_false] at ht
    rcases ht with h | h <;> subst h
    · exact ha
    · exact hb
  refine ⟨⟨by decide, by norm_num [mean, roundedRiskPeriod], hd, hg, ?_⟩,
    ⟨by decide, hdbl, hmean', by rw [hmean']; norm_num, hd', hg'⟩⟩
  have hlen : ¬ roundedRiskPeriod.length = 0 := by decide
  simp only [generatePeriodReview, hlen, if_false, hg]

/-- C21, amended: for every non-empty trade list within range,
`riskManagementGrade` is decided by the mean `r` of `riskPercentage` as the
service computes it (the running sum accumulated in doubles in list order,
divided by the number of trades, the quotient rounded to a double): `A` iff
`r ≤ 1`, `B` iff `1 < r ≤ 2`, `C` iff `2 < r ≤ 3`, `D` iff `r > 3`. The
running sum is below `10^21` in magnitude. -/
theorem riskGrade_computed (trades : List Trade) (period : String) (h : trades ≠ [])
    (hr : inRange trades) :
    (generatePeriodReview trades period).riskManagementGrade =
        some (calculatePeriodStats trades).riskGrade ∧
      ((calculatePeriodStats trades).riskGrade = "A" ↔
        doubleMean (fun t => t.riskPercentage) trades ≤ 1) ∧
      ((calculatePeriodStats trades).riskGrade = "B" ↔
        1 < doubleMean (fun t => t.riskPercentage) trades ∧
          doubleMean (fun t => t.riskPercentage) trades ≤ 2) ∧
      ((calculatePeriodStats trades).riskGrade = "C" ↔
        2 < doubleMean (fun t => t.riskPercentage) trades ∧
          doubleMean (fun t => t.riskPercentage) trades ≤ 3) ∧
      ((calculatePeriodStats trades).riskGrade = "D" ↔
        doubleMean (fun t => t.riskPercentage) trades > 3) ∧
      |doubleSum (fun t => t.riskPercentage) trades| < 10 ^ 21 := by
  have hlen : ¬ trades.length = 0 := fun h0 => h (List.length_eq_zero.mp h0)
  have hsum : |doubleSum (fun t => t.riskPercentage) trades| < 10 ^ 21 :=
    abs_doubleSum_lt _ _ (fun t ht => (hr.2 t ht).2.2) hr.1
  refine ⟨by simp [generatePeriodReview, hlen], ?_⟩
  rw [riskGrade_eq]
  refine ⟨?_, ?_, ?_, ?_, hsum⟩
  · split_ifs with h1 h2 h3
    · simp [h1]
    · exact ⟨fun hc => absurd hc (by decide), fun hc => absurd hc h1⟩
    · exact ⟨fun hc => absurd hc (by decide), fun hc => absurd hc h1⟩
    · exact ⟨fun hc => absurd hc (by decide), fun hc => absurd hc h1⟩
  · split_ifs with h1 h2 h3
    · exact ⟨fun hc => absurd hc (by decide), fun hc => absurd h1 (not_le.mpr hc.1)⟩
    · simp only [true_iff]; exact ⟨not_le.mp h1, h2⟩
    · exact ⟨fun hc => absurd hc (by decide), fun hc => absurd hc.2 h2⟩
    · exact ⟨fun hc => absurd hc (by decide), fun hc => absurd hc.2 h2⟩
  · split_ifs with h1 h2 h3
    · exact ⟨fun hc => absurd hc (by decide),
        fun hc => absurd h1 (not_le.mpr (by linarith [hc.1]))⟩
    · exact ⟨fun hc => absurd hc (by decide), fun hc => absurd h2 (not_le.mpr hc.1)⟩
    · simp only [true_iff]; exact ⟨not_le.mp h2, h3⟩
    · exact ⟨fun hc => absurd hc (by decide), fun hc => absurd hc.2 h3⟩
  · split_ifs with h1 h2 h3
    · exact ⟨fun hc => absurd hc (by decide), fun hc => absurd h1 (not_le.mpr (by linarith))⟩
    · exact ⟨fun hc => absurd hc (by decide), fun hc => absurd h2 (not_le.mpr (by linarith))⟩
    · exact ⟨fun hc => absurd hc (by decide), fun hc => absurd h3 (not_le.mpr hc)⟩
    · simp only [true_iff]; exact not_le.mp h3

/-- Witness for C21: the three-trade period has risks 1, 2 and 3, computed
mean 2, grade `B`. -/
theorem riskGrade_computed_witness :
    examplePeriod ≠ [] ∧ inRange examplePeriod ∧
      doubleMean (fun t => t.riskPercentage) examplePeriod = 2 ∧
      (calculatePeriodStats examplePeriod).riskGrade = "B" ∧
      (generatePeriodReview examplePeriod "weekly").riskManagementGrade =
        some (calculatePeriodStats examplePeriod).riskGrade := by
  have h : examplePeriod ≠ [] := by decide
  have hr : inRange examplePeriod := by
    refine ⟨by norm_num [examplePeriod], ?_⟩
    intro t ht
    simp only [examplePeriod, List.mem_cons, List.mem_singleton, List.not_mem_nil,
      or_false] at ht
    rcases ht with h | h | h <;> subst h <;> norm_num [abs_le]
  have hm : doubleMean (fun t => t.riskPercentage) examplePeriod = 2 := by
    have hs : doubleSum (fun t => t.riskPercentage) examplePeriod = 6 := by
      simp only [doubleSum, examplePeriod, List.foldl]
      have a1 := fadd_intCast 0 1 (by norm_num) (by norm_num)
      have a2 := fadd_intCast 1 2 (by norm_num) (by norm_num)
      have a3 := fadd_intCast 3 3 (by norm_num) (by norm_num)
      norm_num at a1 a2 a3
      rw [a1, a2, a3]
    have hd := fdiv_intCast_exact 6 3 2 (by norm_num) (by norm_num) (by norm_num)
      (by norm_num) (by norm_num)
    rw [doubleMean, hs]
    norm_num [examplePeriod] at hd ⊢
    exact hd
  obtain ⟨h0, -, hB, -, -, -⟩ := riskGrade_computed examplePeriod "weekly" h hr
  exact ⟨h, hr, hm, hB.mpr (by rw [hm]; norm_num), h0⟩

/-- C25: for every trade, `assessRisk` never returns `dangerous`; its result is
one of `excellent`, `good`, `acceptable`, `poor`, since a trade failing the
`acceptable` test (risk at most 3 % and R:R at least 1) meets the `poor` test
(risk above 3 % or R:R below 1). -/
theorem assessRisk_never_dangerous (trade : Trade) :
    assessRisk trade ≠ "dangerous" ∧
      assessRisk trade ∈ ["excellent", "good", "acceptable", "poor"] ∧
      (¬ (trade.riskPercentage ≤ 3 ∧ trade.rrRatio ≥ 1) →
        trade.riskPercentage > 3 ∨ trade.rrRatio < 1) := by
  have hcover : ¬ (trade.riskPercentage ≤ 3 ∧ trade.rrRatio ≥ 1) →
      trade.riskPercentage > 3 ∨ trade.rrRatio < 1 := by
    intro h
    rcases not_and_or.mp h with h1 | h1
    · exact Or.inl (not_le.mp h1)
    · exact Or.inr (not_le.mp h1)
  refine ⟨?_, ?_, hcover⟩
  · simp only [assessRisk]
    split_ifs with h1 h2 h3 h4
    · decide
    · decide
    · decide
    · decide
    · exact absurd (hcover h3) h4
  · simp only [assessRisk]
    split_ifs with h1 h2 h3 h4
    · decide
    · decide
    · decide
    · decide
    · exact absurd (hcover h3) h4

/-- Witness for C25: the high-risk example fails the `acceptable` test and is
`poor`. -/
theorem assessRisk_never_dangerous_witness :
    ¬ (exampleHighRisk.riskPercentage ≤ 3 ∧ exampleHighRisk.rrRatio ≥ 1) ∧
      (exampleHighRisk.riskPercentage > 3 ∨ exampleHighRisk.rrRatio < 1) ∧
      assessRisk exampleHighRisk ≠ "dangerous" := by
  have h : ¬ (exampleHighRisk.riskPercentage ≤ 3 ∧ exampleHighRisk.rrRatio ≥ 1) := by
    norm_num [exampleHighRisk]
  exact ⟨h, (assessRisk_never_dangerous exampleHighRisk).2.2 h,
    (assessRisk_never_dangerous exampleHighRisk).1⟩

/-- C26: for every statistics object of risk grade `C` or `D` and every pattern
summary, the recommendations contain the position-sizing recommendation: at
most two recommendations precede it, so the cut to three keeps it. -/
theorem positionSizing_kept (stats : PeriodStats) (patterns : PeriodPatterns)
    (h : stats.riskGrade = "C" ∨ stats.riskGrade = "D") :
    "⚠️ Reduce position sizing to 1-2% risk per trade. This is your #1 priority." ∈
      generatePeriodRecommendations stats patterns := by
  obtain ⟨ms, ws⟩ := patterns
  rcases h with h | h <;> cases ms <;> cases ws <;>
  by_cases h1 : stats.winRate < 40 <;> by_cases h1' : stats.winRate > 60 <;>
  by_cases h2 : stats.avgRR < 3 / 2 <;>
  simp [generatePeriodRecommendations, h, h1, h1', h2]

/-- Witness for C26: a grade-C period with low win rate, low R:R, a common
mistake and a weakness; the position-sizing advice is the third and last
recommendation. -/
theorem positionSizing_kept_witness :
    (exampleGradeC.riskGrade = "C" ∨ exampleGradeC.riskGrade = "D") ∧
      "⚠️ Reduce position sizing to 1-2% risk per trade. This is your #1 priority." ∈
        generatePeriodRecommendations exampleGradeC examplePatterns ∧
      (generatePeriodRecommendations exampleGradeC examplePatterns).length = 3 :=
  ⟨Or.inl rfl, positionSizing_kept exampleGradeC examplePatterns (Or.inl rfl),
    by simp [generatePeriodRecommendations, exampleGradeC, examplePatterns]; norm_num⟩

/-- C27: for every trade whose `stopLoss` and `takeProfit` are both non-zero,
`identifyStrengths` contains `Proper risk management with SL/TP` and does not
contain the fallback `Trade logged for analysis`; the fallback occurs only
when `stopLoss` or `takeProfit` is zero. -/
theorem identifyStrengths_stopAndTarget (trade : Trade) :
    (trade.stopLoss ≠ 0 → trade.takeProfit ≠ 0 →
      "Proper risk management with SL/TP" ∈ identifyStrengths trade ∧
        "Trade logged for analysis" ∉ identifyStrengths trade) ∧
    ("Trade logged for analysis" ∈ identifyStrengths trade →
      trade.stopLoss = 0 ∨ trade.takeProfit = 0) := by
  have hmain : trade.stopLoss ≠ 0 → trade.takeProfit ≠ 0 →
      "Proper risk management with SL/TP" ∈ identifyStrengths trade ∧
        "Trade logged for analysis" ∉ identifyStrengths trade := by
    intro hs ht
    have hmem : "Proper risk management with SL/TP" ∈ fired (strengthRules trade) := by
      rw [mem_fired]
      exact ⟨(decide (trade.stopLoss ≠ 0 ∧ trade.takeProfit ≠ 0),
        "Proper risk management with SL/TP"), by simp [strengthRules], by simp [hs, ht], rfl⟩
    have hne : fired (strengthRules trade) ≠ [] := List.ne_nil_of_mem hmem
    rw [identifyStrengths_eq, if_neg hne]
    refine ⟨hmem, ?_⟩
    intro hfb
    rw [mem_fired] at hfb
    obtain ⟨r, hr, -, h2⟩ := hfb
    exact strengthRules_ne_fallback trade r hr h2
  refine ⟨hmain, ?_⟩
  intro hfb
  by_contra hc
  rw [not_or] at hc
  exact (hmain hc.1 hc.2).2 hfb

/-- Witness for C27: the worked example has both levels set; the quiet
break-even trade, with stop and target at zero, gets the fallback. -/
theorem identifyStrengths_stopAndTarget_witness :
    (exampleWin.stopLoss ≠ 0 ∧ exampleWin.takeProfit ≠ 0 ∧
      "Proper risk management with SL/TP" ∈ identifyStrengths exampleWin ∧
      "Trade logged for analysis" ∉ identifyStrengths exampleWin) ∧
    ("Trade logged for analysis" ∈ identifyStrengths exampleQuiet ∧
      (exampleQuiet.stopLoss = 0 ∨ exampleQuiet.takeProfit = 0)) := by
  have hs : exampleWin.stopLoss ≠ 0 := by norm_num [exampleWin]
  have ht : exampleWin.takeProfit ≠ 0 := by norm_num [exampleWin]
  have hq : "Trade logged for analysis" ∈ identifyStrengths exampleQuiet := by
    rw [identifyStrengths_eq, if_pos ((fired_eq_nil_iff _).mpr (by decide))]
    simp
  exact ⟨⟨hs, ht, (identifyStrengths_stopAndTarget exampleWin).1 hs ht⟩,
    ⟨hq, (identifyStrengths_stopAndTarget exampleQuiet).2 hq⟩⟩

/-- C28: for every trade and history, if the list returned by `detectPatterns`
holds `revenge_trading` it also holds `emotional_trading`, since every
revenge keyword in the during or after field is a negative-emotion keyword in
the three fields; such a trade takes the -2 emotional-discipline penalty in
`calculateExecutionScore`. -/
theorem revenge_implies_emotional (trade : Trade) (userTrades : List Trade) :
    (∀ p, detectPatterns trade userTrades = Except.ok p → "revenge_trading" ∈ p →
      "emotional_trading" ∈ p ∧ emotionPoints trade = -2 ∧
        calculateExecutionScore trade =
          max 1 (min 10 (5 + rrPoints trade.rrRatio + riskPoints trade.riskPercentage +
            outcomePoints trade.outcome trade.pips +
            stopLossPoints trade.entryPrice trade.stopLoss + -2))) ∧
    (hasRevengeEmotions trade = true → hasNegativeEmotions trade = true) := by
  refine ⟨?_, hasNegative_of_hasRevenge trade⟩
  intro p hp hrev
  rw [mem_detectPatterns_perTrade trade userTrades p hp _ (by decide) (by decide) (by decide),
    mem_fired] at hrev
  have hr : hasRevengeEmotions trade = true := by
    obtain ⟨r, hr, h1, h2⟩ := hrev
    simp only [patternRules, List.mem_cons, List.mem_singleton, List.not_mem_nil,
      or_false] at hr
    rcases hr with h | h | h | h <;> subst h
    · simp at h2
    · exact h1
    · simp at h2
    · simp at h2
  have hn := hasNegative_of_hasRevenge trade hr
  have hpts : emotionPoints trade = -2 := by simp [emotionPoints, hn]
  refine ⟨?_, hpts, ?_⟩
  · rw [mem_detectPatterns_perTrade trade userTrades p hp _ (by decide) (by decide)
      (by decide), mem_fired]
    exact ⟨(hasNegativeEmotions trade, "emotional_trading"), by simp [patternRules], hn, rfl⟩
  · rw [calculateExecutionScore_eq, rawScore, hpts]

/-- Witness for C28: the rushed, angry trade against an empty history. -/
theorem revenge_implies_emotional_witness :
    ∃ p, detectPatterns exampleRushed [] = Except.ok p ∧ "revenge_trading" ∈ p ∧
      "emotional_trading" ∈ p ∧ emotionPoints exampleRushed = -2 := by
  have hp : detectPatterns exampleRushed [] =
      Except.ok ["good_discipline", "revenge_trading", "FOMO", "emotional_trading"] := rfl
  have hrev : "revenge_trading" ∈
      ["good_discipline", "revenge_trading", "FOMO", "emotional_trading"] := by decide
  obtain ⟨h1, h2, -⟩ := (revenge_implies_emotional exampleRushed []).1 _ hp hrev
  exact ⟨_, hp, hrev, h1, h2⟩

/-- C29: the execution score is antitone in `riskPercentage`: with all other
fields held fixed, a larger risk percentage never gives a larger score. -/
theorem calculateExecutionScore_anti_riskPercentage (t : Trade) (p₁ p₂ : ℚ) (h : p₁ ≤ p₂) :
    calculateExecutionScore (withRisk t p₂) ≤ calculateExecutionScore (withRisk t p₁) := by
  rw [calculateExecutionScore_eq, calculateExecutionScore_eq]
  have hraw : rawScore (withRisk t p₂) ≤ rawScore (withRisk t p₁) := by
    have h1 : emotionPoints (withRisk t p₂) = emotionPoints (withRisk t p₁) := rfl
    unfold rawScore
    simp only [withRisk, h1] at *
    have := riskPoints_anti h
    linarith
  exact max_le_max (le_refl _) (min_le_min (le_refl _) hraw)

/-- Witness for C29: raising the risk of the worked example from 1 % to 4 %. -/
theorem calculateExecutionScore_anti_riskPercentage_witness :
    (1 : ℚ) ≤ 4 ∧
      calculateExecutionScore (withRisk exampleWin 4) ≤
        calculateExecutionScore (withRisk exampleWin 1) :=
  ⟨by norm_num, calculateExecutionScore_anti_riskPercentage exampleWin 1 4 (by norm_num)⟩

/-- C30: for every trade and every history of at least three entries,
`detectPatterns` gives the same result on the history and on its first five
entries, so that entries beyond the fifth have no influence; and a returned
list holds no tag twice. -/
theorem detectPatterns_window (trade : Trade) (userTrades : List Trade) :
    (userTrades.length ≥ 3 →
      detectPatterns trade userTrades = detectPatterns trade (userTrades.take 5)) ∧
    (∀ p, detectPatterns trade userTrades = Except.ok p → p.Nodup) := by
  constructor
  · intro hlen
    have hlen5 : (userTrades.take 5).length ≥ 3 := by
      rw [List.length_take]
      omega
    rw [detectPatterns_eq, detectPatterns_eq]
    simp only [historicalTags, hlen, hlen5, if_true, List.take_take, Nat.min_self]
  · intro p hp
    rw [detectPatterns_eq] at hp
    have hsub : p.Sublist patternTags := by
      unfold historicalTags at hp
      split_ifs at hp with hlen
      · cases hf : filterE (sameDay trade) (List.take 5 userTrades) with
        | error e => simp [hf, Except.map] at hp
        | ok same =>
          simp only [hf, Except.map, Except.ok.injEq] at hp
          subst hp
          exact (fired_sublist (patternRules trade)).append
            (fired_sublist (historyRules (List.take 5 userTrades) same))
      · simp only [Except.map, Except.ok.injEq, List.append_nil] at hp
        subst hp
        have h4 : (["good_discipline", "revenge_trading", "FOMO", "emotional_trading"] :
            List String).Sublist patternTags := by decide
        exact (fired_sublist (patternRules trade)).trans h4
    exact hsub.nodup (by decide)

/-- Witness for C30: a sixth and seventh history entry change nothing for the
stored trade, and the returned tags are distinct. -/
theorem detectPatterns_window_witness :
    (fiveSameDay ++ threeLosses).length ≥ 3 ∧
      (fiveSameDay ++ threeLosses).take 5 = fiveSameDay ∧
      detectPatterns exampleStoredNewTrade (fiveSameDay ++ threeLosses) =
        detectPatterns exampleStoredNewTrade ((fiveSameDay ++ threeLosses).take 5) ∧
      detectPatterns exampleStoredNewTrade (fiveSameDay ++ threeLosses) =
        Except.ok ["good_discipline", "over_trading"] :=
  ⟨by decide, rfl,
    (detectPatterns_window exampleStoredNewTrade (fiveSameDay ++ threeLosses)).1 (by decide),
    rfl⟩

/-! ## Theorems on the recommendations of a review -/

/-- C24, as stated, fails on both parts. A period of 403 trades with 161 wins
has win rate 39.9504 %, below 40, yet its review holds the generic
recommendation alone: the rate is reported as 40.0 and the test is made on the
reported figure. A period of two trades of R:R 1.496 and 1.5 has mean 1.498,
below 1.5, yet the raise-R:R recommendation is not among its
recommendations: the mean is reported as 1.50. -/
theorem recommendations_rounding_counterexample :
    (nearFortyPeriod ≠ [] ∧ exactWinRate nearFortyPeriod < 40 ∧
      (calculatePeriodStats nearFortyPeriod).winRate = 40 ∧
      (generatePeriodReview nearFortyPeriod "monthly").recommendations =
        [genericRecommendation] ∧
      (generatePeriodReview nearFortyPeriod "monthly").recommendations.head? ≠
        some qualityMessage) ∧
    (nearRRPeriod ≠ [] ∧ mean (fun t => t.rrRatio) nearRRPeriod < 3 / 2 ∧
      (calculatePeriodStats nearRRPeriod).avgRR = 3 / 2 ∧
      raiseRRMessage ∉ (generatePeriodReview nearRRPeriod "weekly").recommendations) := by
  -- the 403-trade period
  have hlen : nearFortyPeriod.length = 403 := by rw [nearFortyPeriod, twoBlocks_length]
  have hne : nearFortyPeriod ≠ [] := by
    intro h0
    rw [h0] at hlen
    exact absurd hlen (by decide)
  have hwins : (nearFortyPeriod.filter fun t => t.outcome = "Win").length = 161 :=
    twoBlocks_wins 161 242 _ _ rfl (by decide)
  have hexact : exactWinRate nearFortyPeriod = 161 / 403 * 100 := by
    rw [exactWinRate, hwins, hlen]
    norm_num
  have hacc := computedWinRate_spec nearFortyPeriod hne (by rw [hlen]; norm_num)
  have hrate : (calculatePeriodStats nearFortyPeriod).winRate = 40 := by
    rw [winRate_eq _ hne]
    obtain ⟨c0, -, cacc⟩ := hacc
    rw [hexact, abs_le] at cacc
    have := toFixed_eq_of_bounds (computedWinRate nearFortyPeriod) 400 1 c0
      (by norm_num at cacc ⊢; linarith [cacc.1]) (by norm_num at cacc ⊢; linarith [cacc.2])
    rw [this]
    norm_num
  have hmem : ∀ t ∈ nearFortyPeriod, t.rrRatio = 2 ∧ t.riskPercentage = 1 := by
    intro t ht
    rw [nearFortyPeriod, List.mem_append, List.mem_replicate, List.mem_replicate] at ht
    rcases ht with ⟨-, h⟩ | ⟨-, h⟩ <;> rw [h] <;> exact ⟨rfl, rfl⟩
  have hrr : (calculatePeriodStats nearFortyPeriod).avgRR = 2 := by
    rw [avgRR_eq]
    have hs : doubleSum (fun t => t.rrRatio) nearFortyPeriod = ((806 : ℤ) : ℚ) := by
      rw [doubleSum_congr _ (fun _ => (((2 : ℤ)) : ℚ)) _ (fun t ht => by
        rw [(hmem t ht).1]; norm_num)]
      have := twoBlocks_doubleSum 161 242 (plainTrade "Win" 2) (plainTrade "Loss" 2)
        (fun _ => 2) 2 (by norm_num) (by norm_num) (by norm_num)
      rw [nearFortyPeriod, this]
      norm_num
    have hd := fdiv_intCast_exact 806 403 2 (by norm_num) (by norm_num) (by norm_num)
      (by norm_num) (by norm_num)
    have hm : doubleMean (fun t => t.rrRatio) nearFortyPeriod = 2 := by
      rw [doubleMean, hs, hlen]
      norm_num at hd ⊢
      exact hd
    rw [hm]
    have := toFixed_intCast 2 2
    simpa using this
  have hgrade : (calculatePeriodStats nearFortyPeriod).riskGrade = "A" := by
    have hs : doubleSum (fun t => t.riskPercentage) nearFortyPeriod = ((403 : ℤ) : ℚ) := by
      rw [doubleSum_congr _ (fun _ => (((1 : ℤ)) : ℚ)) _ (fun t ht => by
        rw [(hmem t ht).2]; norm_num)]
      have := twoBlocks_doubleSum 161 242 (plainTrade "Win" 2) (plainTrade "Loss" 2)
        (fun _ => 1) 1 (by norm_num) (by norm_num) (by norm_num)
      rw [nearFortyPeriod, this]
      norm_num
    have hd := fdiv_intCast_exact 403 403 1 (by norm_num) (by norm_num) (by norm_num)
      (by norm_num) (by norm_num)
    have hm : doubleMean (fun t => t.riskPercentage) nearFortyPeriod = 1 := by
      rw [doubleMean, hs, hlen]
      norm_num at hd ⊢
      exact hd
    rw [riskGrade_eq, hm]
    simp
  have hpat : analyzePeriodPatterns nearFortyPeriod =
      { commonMistakes := [], psychologicalWeaknesses := [] } := by
    exact noFeedback_patterns _ (twoBlocks_noFeedback 161 242 _ _ rfl rfl)
  have hrecs : (generatePeriodReview nearFortyPeriod "monthly").recommendations =
      [genericRecommendation] := by
    rw [review_recommendations _ _ hne, hpat]
    simp [generatePeriodRecommendations, hrate, hrr, hgrade, genericRecommendation]
    norm_num
  -- the two-trade period
  have hne2 : nearRRPeriod ≠ [] := by simp [nearRRPeriod]
  have hmean2 : mean (fun t => t.rrRatio) nearRRPeriod = 749 / 500 := by
    norm_num [mean, nearRRPeriod, plainTrade]
  have hx : fl (187 / 125 : ℚ) = 3368692521273131 / 2251799813685248 := by
    apply fl_eq_of_cert _ _ 0 6737385042546262 <;> norm_num [abs_lt]
  have h32 : fl (3 / 2 : ℚ) = 3 / 2 := by apply fl_eq_self_of _ 3 (-1) <;> norm_num
  have h2 : fl (2 : ℚ) = 2 := by apply fl_eq_self_of _ 2 0 <;> norm_num
  have hs2 : doubleSum (fun t => t.rrRatio) nearRRPeriod =
      6746392241801003 / 2251799813685248 := by
    simp only [doubleSum, nearRRPeriod, plainTrade, List.foldl]
    rw [fadd_zero_left, fadd, fl_fl, hx, h32]
    apply fl_eq_of_cert _ _ 1 6746392241801003 <;> norm_num [abs_lt]
  have hd2 : doubleMean (fun t => t.rrRatio) nearRRPeriod =
      6746392241801003 / 4503599627370496 := by
    have hl : ((nearRRPeriod.length : ℕ) : ℚ) = 2 := by simp [nearRRPeriod]
    have hrep : fl (6746392241801003 / 2251799813685248 : ℚ) =
        6746392241801003 / 2251799813685248 := by
      apply fl_eq_self_of _ 6746392241801003 (-51) <;> norm_num
    rw [doubleMean, hs2, hl, fdiv, hrep, h2]
    have e : (6746392241801003 / 2251799813685248 / 2 : ℚ) =
        6746392241801003 / 4503599627370496 := by norm_num
    rw [e]
    apply fl_eq_self_of _ 6746392241801003 (-52) <;> norm_num
  have hrr2 : (calculatePeriodStats nearRRPeriod).avgRR = 3 / 2 := by
    rw [avgRR_eq, hd2]
    have := toFixed_eq_of_bounds (6746392241801003 / 4503599627370496) 150 2 (by norm_num)
      (by norm_num) (by norm_num)
    rw [this]
    norm_num
  have hrate2 : (calculatePeriodStats nearRRPeriod).winRate = 100 := by
    rw [winRate_eq _ hne2]
    have hw : (nearRRPeriod.filter fun t => t.outcome = "Win").length = 2 := by
      simp [nearRRPeriod, plainTrade]
    have hl : nearRRPeriod.length = 2 := by simp [nearRRPeriod]
    have hq := fdiv_intCast_exact 2 2 1 (by norm_num) (by norm_num) (by norm_num)
      (by norm_num) (by norm_num)
    have hc : computedWinRate nearRRPeriod = 100 := by
      rw [computedWinRate, hw, hl]
      norm_num at hq ⊢
      rw [hq, fmul, fl_one, fl_hundred, one_mul, fl_hundred]
    rw [hc]
    have := toFixed_intCast 100 1
    simpa using this
  have hgrade2 : (calculatePeriodStats nearRRPeriod).riskGrade = "A" := by
    have hs : doubleSum (fun t => t.riskPercentage) nearRRPeriod = 2 := by
      simp only [doubleSum, nearRRPeriod, plainTrade, List.foldl]
      have a1 := fadd_intCast 0 1 (by norm_num) (by norm_num)
      have a2 := fadd_intCast 1 1 (by norm_num) (by norm_num)
      norm_num at a1 a2
      rw [a1, a2]
    have hd := fdiv_intCast_exact 2 2 1 (by norm_num) (by norm_num) (by norm_num)
      (by norm_num) (by norm_num)
    have hm : doubleMean (fun t => t.riskPercentage) nearRRPeriod = 1 := by
      rw [doubleMean, hs]
      norm_num [nearRRPeriod] at hd ⊢
      exact hd
    rw [riskGrade_eq, hm]
    simp
  have hpat2 : analyzePeriodPatterns nearRRPeriod =
      { commonMistakes := [], psychologicalWeaknesses := [] } := by
    apply noFeedback_patterns
    intro t ht
    simp only [nearRRPeriod, List.mem_cons, List.mem_singleton, List.not_mem_nil,
      or_false] at ht
    rcases ht with h | h <;> rw [h] <;> rfl
  have hrecs2 : (generatePeriodReview nearRRPeriod "weekly").recommendations =
      ["Strong win rate! Ensure you\x27re not exiting winners too early. Let profits run.",
        genericRecommendation] := by
    rw [review_recommendations _ _ hne2, hpat2]
    simp [generatePeriodRecommendations, hrate2, hrr2, hgrade2, genericRecommendation]
    norm_num
  refine ⟨⟨hne, ?_, hrate, hrecs, ?_⟩, ⟨hne2, ?_, hrr2, ?_⟩⟩
  · rw [hexact]; norm_num
  · rw [hrecs]; decide
  · rw [hmean2]; norm_num
  · rw [hrecs2]; decide

/-- C24, amended: for every non-empty trade list within range whose reported
`winRate` (the win rate computed in doubles and rounded to one decimal) is
below 40, in particular whenever the exact rate wins / total * 100 is below
39.95, the review has the quality-over-quantity recommendation as its first
recommendation; and for every such list whose reported `avgRR` (the mean
`rrRatio` accumulated in doubles and rounded to two decimals) is below 1.5,
the raise-R:R recommendation is among the recommendations. -/
theorem recommendations_on_reported (trades : List Trade) (period : String)
    (h : trades ≠ []) (hr : inRange trades) :
    (calculatePeriodStats trades).winRate = toFixed (computedWinRate trades) 1 ∧
      (calculatePeriodStats trades).avgRR =
        toFixed (doubleMean (fun t => t.rrRatio) trades) 2 ∧
      ((calculatePeriodStats trades).winRate < 40 →
        (generatePeriodReview trades period).recommendations.head? = some qualityMessage) ∧
      (exactWinRate trades < 3995 / 100 → (calculatePeriodStats trades).winRate < 40) ∧
      ((calculatePeriodStats trades).avgRR < 3 / 2 →
        raiseRRMessage ∈ (generatePeriodReview trades period).recommendations) := by
  refine ⟨winRate_eq trades h, avgRR_eq trades, ?_, ?_, ?_⟩
  · intro hw
    rw [review_recommendations trades period h]
    exact head_quality _ _ hw
  · intro hx
    rw [winRate_eq trades h]
    apply toFixed_lt
    obtain ⟨-, -, cacc⟩ := computedWinRate_spec trades h hr.1
    have hn : 0 < trades.length := List.length_pos.mpr h
    have hnq : (0 : ℚ) < (trades.length : ℚ) := by exact_mod_cast hn
    have hn32 : (trades.length : ℚ) ≤ 2 ^ 32 := by exact_mod_cast le_of_lt hr.1
    -- the exact rate is a fraction of denominator `total`, hence below 39.95 by a margin
    have hgap : exactWinRate trades ≤ 3995 / 100 - 1 / (20 * (trades.length : ℚ)) := by
      unfold exactWinRate at hx ⊢
      rw [div_mul_eq_mul_div, div_lt_iff₀ hnq] at hx
      have hx' : (2000 : ℚ) * ((trades.filter fun t => t.outcome = "Win").length : ℚ) <
          799 * (trades.length : ℚ) := by linarith
      have hxi : 2000 * (trades.filter fun t => t.outcome = "Win").length <
          799 * trades.length := by exact_mod_cast hx'
      have hxi' : 2000 * (trades.filter fun t => t.outcome = "Win").length + 1 ≤
          799 * trades.length := hxi
      have hxq : (2000 : ℚ) * ((trades.filter fun t => t.outcome = "Win").length : ℚ) + 1 ≤
          799 * (trades.length : ℚ) := by exact_mod_cast hxi'
      rw [div_mul_eq_mul_div, div_le_iff₀ hnq]
      have : (3995 / 100 - 1 / (20 * (trades.length : ℚ))) * (trades.length : ℚ) =
          3995 / 100 * (trades.length : ℚ) - 1 / 20 := by
        field_simp
        ring
      rw [this]
      linarith
    have hmargin : (1 : ℚ) / 2 ^ 45 < 1 / (20 * (trades.length : ℚ)) := by
      rw [div_lt_div_iff₀ (by positivity) (by positivity)]
      have : 20 * (trades.length : ℚ) ≤ 20 * 2 ^ 32 := by linarith
      have h2 : (20 : ℚ) * 2 ^ 32 < 2 ^ 45 := by norm_num
      linarith
    rw [abs_le] at cacc
    norm_num
    linarith [cacc.2]
  · intro ha
    rw [review_recommendations trades period h]
    exact mem_raiseRR _ _ ha

/-- Witness for C24 amended: the period of one losing trade of R:R 1 has win
rate 0 and reported mean R:R 1.00. -/
theorem recommendations_on_reported_witness :
    exampleLosingPeriod ≠ [] ∧ inRange exampleLosingPeriod ∧
      exactWinRate exampleLosingPeriod < 3995 / 100 ∧
      (generatePeriodReview exampleLosingPeriod "weekly").recommendations.head? =
        some qualityMessage ∧
      (calculatePeriodStats exampleLosingPeriod).avgRR = 1 ∧
      raiseRRMessage ∈ (generatePeriodReview exampleLosingPeriod "weekly").recommendations := by
  have h : exampleLosingPeriod ≠ [] := by decide
  have hr : inRange exampleLosingPeriod := by
    refine ⟨by norm_num [exampleLosingPeriod], ?_⟩
    intro t ht
    simp only [exampleLosingPeriod, List.mem_singleton] at ht
    subst ht
    norm_num [abs_le]
  have hx : exactWinRate exampleLosingPeriod < 3995 / 100 := by
    have : (exampleLosingPeriod.filter fun t => t.outcome = "Win").length = 0 := by decide
    rw [exactWinRate, this]
    norm_num
  obtain ⟨-, ha, h1, h2, h3⟩ := recommendations_on_reported exampleLosingPeriod "weekly" h hr
  have hm : doubleMean (fun t => t.rrRatio) exampleLosingPeriod = 1 := by
    have hs : doubleSum (fun t => t.rrRatio) exampleLosingPeriod = 1 := by
      simp only [doubleSum, exampleLosingPeriod, List.foldl]
      rw [fadd_zero_left, fl_one]
    rw [doubleMean, hs]
    have hl : ((exampleLosingPeriod.length : ℕ) : ℚ) = 1 := by simp [exampleLosingPeriod]
    rw [hl, fdiv, fl_one, div_one, fl_one]
  have havg : (calculatePeriodStats exampleLosingPeriod).avgRR = 1 := by
    rw [ha, hm]
    have := toFixed_intCast 1 2
    simpa using this
  exact ⟨h, hr, hx, h1 (h2 hx), havg, h3 (by rw [havg]; norm_num)⟩
/-! ## Lemmas on counting and ranking -/

theorem pair_sublist_or {α : Type} {a b : α} (hab : a ≠ b) :
    ∀ l : List α, a ∈ l → b ∈ l → [a, b].Sublist l ∨ [b, a].Sublist l := by
  intro l
  induction l with
  | nil => intro ha; simp at ha
  | cons x l ih =>
    intro ha hb
    rw [List.mem_cons] at ha hb
    rcases ha with ha | ha
    · rcases hb with hb | hb
      · exact absurd (ha.trans hb.symm) hab
      · subst ha
        exact Or.inl (List.Sublist.cons₂ _ (List.singleton_sublist.mpr hb))
    · rcases hb with hb | hb
      · subst hb
        exact Or.inr (List.Sublist.cons₂ _ (List.singleton_sublist.mpr ha))
      · rcases ih ha hb with h | h
        · exact Or.inl (List.Sublist.cons _ h)
        · exact Or.inr (List.Sublist.cons _ h)

theorem nodup_pair_antisymm {α : Type} {a b : α} :
    ∀ l : List α, l.Nodup → [a, b].Sublist l → [b, a].Sublist l → False := by
  intro l
  induction l with
  | nil => intro _ h; simp at h
  | cons x l ih =>
    intro hnd h1 h2
    rw [List.nodup_cons] at hnd
    rw [List.sublist_cons_iff] at h1 h2
    rcases h1 with h1 | ⟨r1, e1, s1⟩
    · rcases h2 with h2 | ⟨r2, e2, s2⟩
      · exact ih hnd.2 h1 h2
      · have hb : b = x := by injection e2
        have : b ∈ l := h1.subset (by simp)
        exact hnd.1 (hb ▸ this)
    · have ha : a = x := by injection e1
      rcases h2 with h2 | ⟨r2, e2, s2⟩
      · have : a ∈ l := h2.subset (by simp)
        exact hnd.1 (ha ▸ this)
      · have hb : b = x := by injection e2
        have hr1 : r1 = [b] := by
          injection e1 with _ h
          exact h.symm
        rw [hr1] at s1
        have : b ∈ l := s1.subset (by simp)
        exact hnd.1 (hb ▸ this)

theorem nodup_of_nodup_map_fst {σ : Type} (E : List (String × σ))
    (h : (E.map Prod.fst).Nodup) : E.Nodup :=
  List.Nodup.of_map Prod.fst h

theorem sortByCountDesc_ranked (E : List (String × Nat)) (hnd : (E.map Prod.fst).Nodup) :
    (sortByCountDesc E).Perm E ∧
      (sortByCountDesc E).Pairwise
        (fun a b => a.2 > b.2 ∨ (a.2 = b.2 ∧ [a, b].Sublist E)) := by
  haveI : IsTotal (String × Nat) (fun a b => a.2 ≥ b.2) := ⟨fun a b => Nat.le_total b.2 a.2⟩
  haveI : IsTrans (String × Nat) (fun a b => a.2 ≥ b.2) :=
    ⟨fun a b c hab hbc => Nat.le_trans hbc hab⟩
  have hperm : (sortByCountDesc E).Perm E := List.perm_insertionSort _ E
  have hsorted : (sortByCountDesc E).Pairwise (fun a b => a.2 ≥ b.2) :=
    List.sorted_insertionSort _ E
  have hnodup : (sortByCountDesc E).Nodup :=
    hperm.nodup_iff.mpr (nodup_of_nodup_map_fst E hnd)
  refine ⟨hperm, ?_⟩
  rw [List.pairwise_iff_forall_sublist]
  intro a b hab
  have hge : a.2 ≥ b.2 := List.pairwise_iff_forall_sublist.mp hsorted hab
  rcases Nat.lt_or_eq_of_le hge with hlt | heq
  · exact Or.inl hlt
  · refine Or.inr ⟨heq.symm, ?_⟩
    have ha : a ∈ E := hperm.subset (hab.subset (by simp))
    have hb : b ∈ E := hperm.subset (hab.subset (by simp))
    have hne : a ≠ b := by
      intro h
      subst h
      have := hab.nodup hnodup
      simp at this
    rcases pair_sublist_or hne E ha hb with h | h
    · exact h
    · exfalso
      have hba : [b, a].Sublist (List.insertionSort (fun a b => a.2 ≥ b.2) E) :=
        List.pair_sublist_insertionSort (show b.2 ≥ a.2 from le_of_eq heq.symm) h
      exact nodup_pair_antisymm _ hnodup hab hba

theorem countsOf_concat (items : List String) (item : String) :
    countsOf (items ++ [item]) = countUp item (countsOf items) := by
  simp [countsOf, List.foldl_append]

theorem countsOf_spec (items : List String) :
    (countsOf items).map Prod.fst = firstKeys items ∧
      ∀ e ∈ countsOf items, e.2 = items.count e.1 := by
  induction items using List.reverseRecOn with
  | nil => simp [countsOf, firstKeys]
  | append_singleton l m ih =>
    obtain ⟨ihk, ihv⟩ := ih
    have hkeys : (countsOf (l ++ [m])).map Prod.fst = firstKeys (l ++ [m]) := by
      rw [countsOf_concat, countUp, map_fst_upsert, firstKeys_concat, ihk]
    refine ⟨hkeys, ?_⟩
    intro e he
    rw [countsOf_concat, countUp] at he
    have hnd : ((countsOf l).map Prod.fst).Nodup := by
      rw [ihk]; exact nodup_firstKeys _
    rcases mem_upsert _ _ _ hnd e he with ⟨h1, h2⟩ | ⟨v, h1, h2⟩ | ⟨h1, h2⟩
    · rw [List.count_append, ihv e h1]
      have : List.count e.1 [m] = 0 := by
        rw [List.count_eq_zero]
        simpa using h2
      omega
    · have hv : v = l.count m := ihv _ h1
      rw [h2, List.count_append, hv]
      simp
    · rw [ihk, mem_firstKeys] at h1
      rw [h2, List.count_append, List.count_eq_zero.mpr h1]
      simp

theorem countsOf_eq_countTable (items : List String) : countsOf items = countTable items := by
  obtain ⟨hk, hv⟩ := countsOf_spec items
  unfold countTable
  rw [← hk, List.map_map]
  conv_lhs => rw [← List.map_id (countsOf items)]
  apply List.map_congr_left
  intro e he
  simp only [id, Function.comp]
  rw [← hv e he]

theorem mistakeCounts_eq (trades : List Trade) :
    mistakeCounts trades = countTable (storedMistakes trades) := by
  rw [← countsOf_eq_countTable]
  have h : ∀ init : List (String × Nat), trades.foldl (fun counts trade =>
      match trade.aiFeedback with
      | none => counts
      | some f => f.mistakes.foldl (fun counts mistake => countUp mistake counts) counts)
      init = (storedMistakes trades).foldl (fun counts item => countUp item counts) init := by
    induction trades with
    | nil => intro init; rfl
    | cons t l ih =>
      intro init
      rw [List.foldl_cons, storedMistakes, List.foldl_append, ih]
      cases hf : t.aiFeedback with
      | none => simp [mistakesOf, hf]
      | some f => simp [mistakesOf, hf]
  exact h []

theorem emotionalPatterns_eq (trades : List Trade) :
    emotionalPatterns trades = countTable (storedEmotions trades) := by
  rw [← countsOf_eq_countTable]
  have h : ∀ init : List (String × Nat), trades.foldl (fun counts trade =>
      match trade.aiFeedback with
      | none => counts
      | some f => countUp f.emotionalState counts) init =
      (storedEmotions trades).foldl (fun counts item => countUp item counts) init := by
    induction trades with
    | nil => intro init; rfl
    | cons t l ih =>
      intro init
      rw [List.foldl_cons, ih]
      cases hf : t.aiFeedback with
      | none => simp [storedEmotions, stateOf, hf]
      | some f => simp [storedEmotions, stateOf, hf]
  exact h []

theorem count_storedEmotions (trades : List Trade) (k : String) :
    (storedEmotions trades).count k = tradesInState trades k := by
  induction trades with
  | nil => rfl
  | cons t l ih =>
    unfold storedEmotions tradesInState at *
    cases hs : stateOf t with
    | none => simp [List.filterMap_cons, hs, ih]
    | some s =>
      by_cases hk : s = k
      · simp [List.filterMap_cons, hs, hk, ih]
      · rw [List.filterMap_cons, hs]
        simp only []
        rw [List.count_cons_of_ne (fun h => hk h.symm), ih, List.filter_cons]
        simp [hs, hk]

theorem mem_countTable (items : List String) (e : String × Nat) :
    e ∈ countTable items ↔ e.1 ∈ items ∧ e.2 = items.count e.1 := by
  unfold countTable
  rw [List.mem_map]
  constructor
  · rintro ⟨k, hk, rfl⟩
    exact ⟨(mem_firstKeys _ _).mp hk, rfl⟩
  · rintro ⟨h1, h2⟩
    exact ⟨e.1, (mem_firstKeys _ _).mpr h1, by rw [← h2]⟩

theorem map_fst_countTable (items : List String) :
    (countTable items).map Prod.fst = firstKeys items := by
  unfold countTable
  rw [List.map_map]
  conv_rhs => rw [← List.map_id (firstKeys items)]
  apply List.map_congr_left
  intro k _
  rfl

theorem ranked_of_sublist (items : List String) (E : List (String × Nat))
    (hE : E.Sublist (countTable items)) :
    (sortByCountDesc E).Perm E ∧ (sortByCountDesc E).Pairwise (ranksBefore items) := by
  have hsub : (E.map Prod.fst).Sublist (firstKeys items) := by
    rw [← map_fst_countTable]
    exact hE.map Prod.fst
  have hnd : (E.map Prod.fst).Nodup := hsub.nodup (nodup_firstKeys items)
  obtain ⟨hperm, hpw⟩ := sortByCountDesc_ranked E hnd
  refine ⟨hperm, hpw.imp ?_⟩
  intro a b hab
  rcases hab with h | ⟨h1, h2⟩
  · exact Or.inl h
  · exact Or.inr ⟨h1, (h2.map Prod.fst).trans hsub⟩

/-- C22: for every trade list, `commonMistakes` has at most 3 entries. They
are the first three entries of a ranking of the distinct mistake strings of
the stored feedback (a trade without feedback contributes none): the ranking
lists every such string exactly once with its exact number of occurrences, a
higher count first and, at equal counts, the string occurring first in the
input first; each entry is rendered as `<mistake> (<count>x)`. -/
theorem commonMistakes_spec (trades : List Trade) :
    (analyzePeriodPatterns trades).commonMistakes.length ≤ 3 ∧
      ∃ ranked : List (String × Nat),
        (ranked.map Prod.fst).Nodup ∧
        (∀ m, m ∈ ranked.map Prod.fst ↔ m ∈ storedMistakes trades) ∧
        (∀ e ∈ ranked, e.2 = (storedMistakes trades).count e.1) ∧
        ranked.Pairwise (ranksBefore (storedMistakes trades)) ∧
        (analyzePeriodPatterns trades).commonMistakes =
          (ranked.take 3).map renderMistake := by
  obtain ⟨hperm, hpw⟩ :=
    ranked_of_sublist (storedMistakes trades) _ (List.Sublist.refl _)
  have hmem : ∀ e, e ∈ sortByCountDesc (countTable (storedMistakes trades)) ↔
      e.1 ∈ storedMistakes trades ∧ e.2 = (storedMistakes trades).count e.1 := by
    intro e
    rw [hperm.mem_iff, mem_countTable]
  refine ⟨?_, sortByCountDesc (countTable (storedMistakes trades)), ?_, ?_, ?_, hpw, ?_⟩
  · simp only [analyzePeriodPatterns, List.length_map, List.length_take]
    exact Nat.min_le_left _ _
  · rw [(hperm.map Prod.fst).nodup_iff, map_fst_countTable]
    exact nodup_firstKeys _
  · intro m
    rw [(hperm.map Prod.fst).mem_iff, map_fst_countTable, mem_firstKeys]
  · intro e he
    exact ((hmem e).mp he).2
  · simp only [analyzePeriodPatterns, mistakeCounts_eq]
    rfl

theorem commonMistakes_spec_witness :
    storedMistakes exampleReviewed = ["late", "wide", "wide", "fomo", "late"] ∧
      (analyzePeriodPatterns exampleReviewed).commonMistakes =
        ["late (2x)", "wide (2x)", "fomo (1x)"] ∧
      ((analyzePeriodPatterns exampleReviewed).commonMistakes.length ≤ 3 ∧
        ∃ ranked : List (String × Nat),
          (ranked.map Prod.fst).Nodup ∧
          (∀ m, m ∈ ranked.map Prod.fst ↔ m ∈ storedMistakes exampleReviewed) ∧
          (∀ e ∈ ranked, e.2 = (storedMistakes exampleReviewed).count e.1) ∧
          ranked.Pairwise (ranksBefore (storedMistakes exampleReviewed)) ∧
          (analyzePeriodPatterns exampleReviewed).commonMistakes =
            (ranked.take 3).map renderMistake) :=
  ⟨by decide, by decide, commonMistakes_spec exampleReviewed⟩

/-- C23: for every trade list, `psychologicalWeaknesses` has at most 2
entries. They are the first two entries of a ranking that lists exactly the
states of the fixed negative set (fearful, greedy, impulsive, revenge) that
occur in the stored feedback, each once and with the number of trades whose
stored feedback has that emotional state, in descending count order (at equal
counts the state met first in the input first); each entry is rendered as
`<state> trading (<count>x)`. No other state is ever listed. -/
theorem psychologicalWeaknesses_spec (trades : List Trade) :
    (analyzePeriodPatterns trades).psychologicalWeaknesses.length ≤ 2 ∧
      ∃ ranked : List (String × Nat),
        (ranked.map Prod.fst).Nodup ∧
        (∀ k, k ∈ ranked.map Prod.fst ↔ k ∈ negativeStates ∧ 0 < tradesInState trades k) ∧
        (∀ e ∈ ranked, e.2 = tradesInState trades e.1) ∧
        ranked.Pairwise (fun a b => a.2 ≥ b.2) ∧
        ranked.Pairwise (ranksBefore (storedEmotions trades)) ∧
        (analyzePeriodPatterns trades).psychologicalWeaknesses =
          (ranked.take 2).map renderWeakness := by
  have hsub : ((countTable (storedEmotions trades)).filter fun e =>
      ["fearful", "greedy", "impulsive", "revenge"].contains e.1).Sublist
      (countTable (storedEmotions trades)) := List.filter_sublist _
  obtain ⟨hperm, hpw⟩ := ranked_of_sublist (storedEmotions trades) _ hsub
  have hmem : ∀ e, e ∈ sortByCountDesc ((countTable (storedEmotions trades)).filter fun e =>
      ["fearful", "greedy", "impulsive", "revenge"].contains e.1) ↔
      (e.1 ∈ storedEmotions trades ∧ e.2 = tradesInState trades e.1) ∧
        e.1 ∈ negativeStates := by
    intro e
    rw [hperm.mem_iff, List.mem_filter, mem_countTable, count_storedEmotions]
    simp [negativeStates]
  have hpos : ∀ k, k ∈ storedEmotions trades ↔ 0 < tradesInState trades k := by
    intro k
    rw [← count_storedEmotions, List.count_pos_iff]
  refine ⟨?_, _, ?_, ?_, ?_, ?_, hpw, ?_⟩
  · simp only [analyzePeriodPatterns, List.length_map, List.length_take]
    exact Nat.min_le_left _ _
  · have h1 := hsub.map Prod.fst
    rw [map_fst_countTable] at h1
    rw [(hperm.map Prod.fst).nodup_iff]
    exact h1.nodup (nodup_firstKeys _)
  · intro k
    rw [List.mem_map]
    constructor
    · rintro ⟨e, he, rfl⟩
      obtain ⟨⟨h1, _⟩, h3⟩ := (hmem e).mp he
      exact ⟨h3, (hpos _).mp h1⟩
    · rintro ⟨h1, h2⟩
      exact ⟨(k, tradesInState trades k), (hmem _).mpr ⟨⟨(hpos k).mpr h2, rfl⟩, h1⟩, rfl⟩
  · intro e he
    exact ((hmem e).mp he).1.2
  · refine hpw.imp ?_
    intro a b hab
    rcases hab with h | ⟨h, _⟩
    · exact Nat.le_of_lt h
    · exact Nat.le_of_eq h.symm
  · simp only [analyzePeriodPatterns, emotionalPatterns_eq]
    rfl

theorem psychologicalWeaknesses_spec_witness :
    storedEmotions exampleReviewed = ["calm", "calm", "greedy", "fearful", "calm"] ∧
      (analyzePeriodPatterns exampleReviewed).psychologicalWeaknesses =
        ["greedy trading (1x)", "fearful trading (1x)"] ∧
      ((analyzePeriodPatterns exampleReviewed).psychologicalWeaknesses.length ≤ 2 ∧
        ∃ ranked : List (String × Nat),
          (ranked.map Prod.fst).Nodup ∧
          (∀ k, k ∈ ranked.map Prod.fst ↔
            k ∈ negativeStates ∧ 0 < tradesInState exampleReviewed k) ∧
          (∀ e ∈ ranked, e.2 = tradesInState exampleReviewed e.1) ∧
          ranked.Pairwise (fun a b => a.2 ≥ b.2) ∧
          ranked.Pairwise (ranksBefore (storedEmotions exampleReviewed)) ∧
          (analyzePeriodPatterns exampleReviewed).psychologicalWeaknesses =
            (ranked.take 2).map renderWeakness) :=
  ⟨by decide, by decide, psychologicalWeaknesses_spec exampleReviewed⟩

end AiService

